import Mathlib

/-!
Verification of the temail IMAP4 client library.

This file gives a shallow embedding of the protocol core of the repository:

* the incremental response accumulator `IMAPResponse` and its `digest`
  operation (`src/client/imap/response.cpp`, together with the regular
  expressions declared in `private/client/imap/response.hpp`),
* the LOGIN and SELECT command handlers
  (`src/client/imap/login.cpp`, `src/client/imap/noop.cpp`),
* the tag generator (`src/tag.cpp`, `tag.hpp`),
* the request-submission path of the client engine (`IMAP::_request` and
  the public command methods),
* the FETCH command construction and the per-command callback discipline
  (modelled from the specification where the final engine translation unit
  is not part of the sources).

Byte arrays (`QByteArray`) and strings (`QString`) are both modelled as
`List Char`; all server data in scope is 8-bit. The `QDataStream` device
of `digest` is modelled by threading the remaining chunk through the
parsing functions. The `while (true)` loops of `_handle_command` and
`_handle_raw` are modelled with a fuel parameter; `digest` instantiates
the fuel with `length + 1`, which is proved sufficient below.
-/

set_option autoImplicit false

namespace Temail

/-! ## Characters, lines and numbers (Qt primitives) -/

/-- `[A-Z]`. -/
def isUpperAZ (c : Char) : Bool := 'A' ≤ c && c ≤ 'Z'

/-- `[a-z]`. -/
def isLowerAZ (c : Char) : Bool := 'a' ≤ c && c ≤ 'z'

/-- `[0-9]`. -/
def isDigitC (c : Char) : Bool := '0' ≤ c && c ≤ '9'

/-- ASCII whitespace recognised by both `QString::trimmed` and PCRE `\s`:
space, tab, line feed, vertical tab, form feed, carriage return. -/
def isWSpace (c : Char) : Bool :=
  c = ' ' || c = '\t' || c = '\n' || c = Char.ofNat 11 || c = Char.ofNat 12 || c = '\r'

/-- `[A-Z-]`, the character class of the untagged `type` captures. -/
def isTypeChar (c : Char) : Bool := isUpperAZ c || c = '-'

/-- `QString::trimmed`: strip leading and trailing whitespace. -/
def qTrim (s : List Char) : List Char :=
  ((s.dropWhile isWSpace).reverse.dropWhile isWSpace).reverse

/-- `QByteArray::endsWith("\r\n")`. -/
def endsCRLF (s : List Char) : Bool := List.isSuffixOf ['\r', '\n'] s

/-- `QByteArray::startsWith(c)` for a single character. -/
def headIs (s : List Char) (c : Char) : Bool :=
  match s with
  | [] => false
  | a :: _ => a = c

/-- `QIODevice::readLine()` on a buffer device: read up to and including the
first line feed, or the whole remaining data when none is present.
Returns the line and the rest of the device contents. -/
def qReadLine : List Char → List Char × List Char
  | [] => ([], [])
  | c :: rest =>
    if c = '\n' then ([c], rest)
    else
      let r := qReadLine rest
      (c :: r.1, r.2)

/-- Numeric value of a digit string (base 10). -/
def digitsToNat (s : List Char) : Nat :=
  s.foldl (fun a c => a * 10 + (c.toNat - 48)) 0

/-- Digit-string parse guarded by a maximal value, the common core of the
Qt integral conversions: fails on the empty string, on a non-digit and on
overflow. -/
def parseDigitsBounded (s : List Char) (bound : Nat) : Option Nat :=
  if s ≠ [] && s.all isDigitC && digitsToNat s ≤ bound then some (digitsToNat s) else none

/-- `QString::toULongLong` (base 10): whitespace is trimmed, an optional
leading `+` is allowed, the value must fit in 64 unsigned bits. -/
def qToULongLong (s : List Char) : Option Nat :=
  match qTrim s with
  | '+' :: rest => parseDigitsBounded rest (2 ^ 64 - 1)
  | t => parseDigitsBounded t (2 ^ 64 - 1)

/-- `QString::toLongLong` (base 10): as above but signed 64 bits. -/
def qToLongLong (s : List Char) : Option Int :=
  match qTrim s with
  | '+' :: rest => (parseDigitsBounded rest (2 ^ 63 - 1)).map Int.ofNat
  | '-' :: rest => (parseDigitsBounded rest (2 ^ 63)).map (fun n => -(n : Int))
  | t => (parseDigitsBounded t (2 ^ 63 - 1)).map Int.ofNat

/-- `QString::split(' ', Qt::SkipEmptyParts)`. -/
def splitSkipEmpty (s : List Char) : List (List Char) :=
  (s.splitOn ' ').filter (fun p => p ≠ [])

/-! ## The `IMAP::Response` enumeration and `common::enum_value` -/

/-- `IMAP::Response` (`client/imap.hpp`). -/
inductive RCode where
  | OK | NO | BAD | PREAUTH | BYE | CAPABILITY | LIST | LSUB | SEARCH
  | FLAGS | EXISTS | RECENT | EXPUNGE | FETCH | MAILBOX | COPY | STORE
  deriving DecidableEq

/-- `common::enum_value<IMAP::Response>`: key-to-value lookup through the
Qt meta-enum; an unknown key logs and yields the enumerator of value `0`,
which is `OK`. -/
def enumValue (name : List Char) : RCode :=
  if name = "OK".data then .OK
  else if name = "NO".data then .NO
  else if name = "BAD".data then .BAD
  else if name = "PREAUTH".data then .PREAUTH
  else if name = "BYE".data then .BYE
  else if name = "CAPABILITY".data then .CAPABILITY
  else if name = "LIST".data then .LIST
  else if name = "LSUB".data then .LSUB
  else if name = "SEARCH".data then .SEARCH
  else if name = "FLAGS".data then .FLAGS
  else if name = "EXISTS".data then .EXISTS
  else if name = "RECENT".data then .RECENT
  else if name = "EXPUNGE".data then .EXPUNGE
  else if name = "FETCH".data then .FETCH
  else if name = "MAILBOX".data then .MAILBOX
  else if name = "COPY".data then .COPY
  else if name = "STORE".data then .STORE
  else .OK

/-! ## The regular expressions of `IMAPResponse`

Each `QRegularExpression` is translated into an explicit matcher with
PCRE semantics specialised to its pattern: a match is searched at every
start position from the left, quantifiers are greedy (or lazy for `+?`)
with backtracking, and `.` matches any character except a line feed.
`scanFirst` provides the left-to-right search. -/

/-- Search positions left to right and return the first successful match. -/
def scanFirst {α : Type} (f : List Char → Option α) : List Char → Option α
  | [] => f []
  | c :: rest =>
    match f (c :: rest) with
    | some r => some r
    | none => scanFirst f rest

/-- Anchored attempt of `TAGGED_REG`
`(?P<tag>[A-Z]\d+) (?P<type>[A-Z]+) (?P<data>.*)`.
The greedy `\d+` and `[A-Z]+` runs must be maximal, because any shorter
run leaves a run character where the pattern requires a space. Returns the
`type` and `data` captures. -/
def taggedMatchAt : List Char → Option (List Char × List Char)
  | [] => none
  | c :: rest =>
    if isUpperAZ c then
      let ds := rest.takeWhile isDigitC
      if ds ≠ [] then
        match rest.dropWhile isDigitC with
        | ' ' :: r2 =>
          let ty := r2.takeWhile isUpperAZ
          if ty ≠ [] then
            match r2.dropWhile isUpperAZ with
            | ' ' :: r4 => some (ty, r4.takeWhile (fun ch => ch ≠ '\n'))
            | _ => none
          else none
        | _ => none
      else none
    else none

/-- `TAGGED_REG.match`. -/
def taggedMatch : List Char → Option (List Char × List Char) :=
  scanFirst taggedMatchAt

/-- Anchored attempt of `UNTAGGED_REG`
`\* (?P<type>[A-Z-]+)( (?P<data>.*))?`.
The optional data group matches exactly when a space follows the maximal
type run; `data` is `none` when the group is not taken. -/
def untaggedMatchAt : List Char → Option (List Char × Option (List Char))
  | '*' :: ' ' :: r =>
    let ty := r.takeWhile isTypeChar
    if ty ≠ [] then
      match r.dropWhile isTypeChar with
      | ' ' :: r2 => some (ty, some (r2.takeWhile (fun ch => ch ≠ '\n')))
      | _ => some (ty, none)
    else none
  | _ => none

/-- `UNTAGGED_REG.match`. -/
def untaggedMatch : List Char → Option (List Char × Option (List Char)) :=
  scanFirst untaggedMatchAt

/-- Backtracking core of `UNTAGGED_TRAILING_REG`: on the text after `\* `,
the greedy `(?P<data>.*)` takes the longest prefix that is followed by a
space and at least one `[A-Z-]` character; the `type` capture is the
maximal `[A-Z-]` run after that space. -/
def trailingSplit : List Char → Option (List Char × List Char)
  | [] => none
  | c :: r =>
    match trailingSplit r with
    | some (d, ty) => some (c :: d, ty)
    | none =>
      if c = ' ' then
        let ty := r.takeWhile isTypeChar
        if ty ≠ [] then some ([], ty) else none
      else none

/-- Anchored attempt of `UNTAGGED_TRAILING_REG`
`\* (?P<data>.*) (?P<type>[A-Z-]+)`. Since `.` does not cross a line
feed, the split is searched in the prefix before the first line feed. -/
def untaggedTrailingMatchAt : List Char → Option (List Char × List Char)
  | '*' :: ' ' :: r => trailingSplit (r.takeWhile (fun ch => ch ≠ '\n'))
  | _ => none

/-- `UNTAGGED_TRAILING_REG.match`, returning the `data` and `type` captures. -/
def untaggedTrailingMatch : List Char → Option (List Char × List Char) :=
  scanFirst untaggedTrailingMatchAt

/-- Anchored attempt of `UNTAGGED_FETCH_REG`
`\* (?P<id>[0-9]+) FETCH \((?P<data>.*)(\))?`.
The greedy `.*` keeps everything up to the line end, the final optional
`(\))?` then always matches the empty string. Returns the `id` and `data`
captures. -/
def untaggedFetchMatchAt : List Char → Option (List Char × List Char)
  | '*' :: ' ' :: r =>
    let ds := r.takeWhile isDigitC
    let r1 := r.dropWhile isDigitC
    if ds ≠ [] && List.isPrefixOf " FETCH (".data r1 then
      some (ds, (r1.drop 8).takeWhile (fun ch => ch ≠ '\n'))
    else none
  | _ => none

/-- `UNTAGGED_FETCH_REG.match`. -/
def untaggedFetchMatch : List Char → Option (List Char × List Char) :=
  scanFirst untaggedFetchMatchAt

/-- One match of `PAIRED_FETCH_REG`: the `field` capture, the optional
`size` capture and the optional `data` capture. -/
structure PairMatch where
  field : List Char
  size : Option (List Char)
  data : Option (List Char)
  deriving DecidableEq

/-- The character class `[A-Za-z0-9-\[\]\(\)\.\s]` of the `field` capture. -/
def fieldClass (c : Char) : Bool :=
  isUpperAZ c || isLowerAZ c || isDigitC c || c = '-' || c = '[' || c = ']' ||
  c = '(' || c = ')' || c = '.' || isWSpace c

/-- The alternation `(NIL|{(?P<size>[0-9]+)}(\s(?P<data>[\s\S]*))?)\s?` of
`PAIRED_FETCH_REG`, applied after the field and its following space.
Returns the optional captures and the remainder after the whole match
(including the trailing `\s?`). In the `{N}` branch followed by a
whitespace, the greedy `[\s\S]*` consumes the entire remainder. -/
def pairedAlt : List Char → Option (Option (List Char) × Option (List Char) × List Char)
  | 'N' :: 'I' :: 'L' :: r =>
    match r with
    | c :: r2 => if isWSpace c then some (none, none, r2) else some (none, none, c :: r2)
    | [] => some (none, none, [])
  | '{' :: r =>
    let ds := r.takeWhile isDigitC
    if ds ≠ [] then
      match r.dropWhile isDigitC with
      | '}' :: r2 =>
        match r2 with
        | c :: r3 =>
          if isWSpace c then some (some ds, some r3, [])
          else some (some ds, none, c :: r3)
        | [] => some (some ds, none, [])
      | _ => none
    else none
  | _ => none

/-- Lazy search for the `field` capture of `PAIRED_FETCH_REG`: the shortest
nonempty run of field-class characters followed by a space at which the
alternation succeeds. `acc` is the field read so far (in order). -/
def pairedFieldSearch (acc : List Char) : List Char → Option (PairMatch × List Char)
  | [] => none
  | c :: r =>
    if fieldClass c then
      let acc2 := acc ++ [c]
      match r with
      | ' ' :: r2 =>
        match pairedAlt r2 with
        | some (sz, dt, rem) => some ({ field := acc2, size := sz, data := dt }, rem)
        | none => pairedFieldSearch acc2 r
      | _ => pairedFieldSearch acc2 r
    else none

/-- Anchored attempt of `PAIRED_FETCH_REG` at one position: the leading
greedy `\s?` first consumes one whitespace character if present, and on
failure retries empty (whitespace is itself a field character). -/
def pairedMatchAt : List Char → Option (PairMatch × List Char)
  | [] => none
  | c :: r =>
    if isWSpace c then
      match pairedFieldSearch [] r with
      | some res => some res
      | none => pairedFieldSearch [] (c :: r)
    else pairedFieldSearch [] (c :: r)

/-- Left-to-right search for one `PAIRED_FETCH_REG` match. -/
def pairedScan : List Char → Option (PairMatch × List Char)
  | [] => none
  | c :: r =>
    match pairedMatchAt (c :: r) with
    | some res => some res
    | none => pairedScan r

/-- `PAIRED_FETCH_REG.globalMatch`: iterate matches, each search resuming
at the end of the previous match. Every match consumes at least one
character, so the input length bounds the number of matches. -/
def pairedGlobalAux : Nat → List Char → List PairMatch
  | 0, _ => []
  | fuel + 1, s =>
    match pairedScan s with
    | none => []
    | some (m, rem) => m :: pairedGlobalAux fuel rem

/-- All matches of `PAIRED_FETCH_REG.globalMatch`. -/
def pairedGlobal (s : List Char) : List PairMatch :=
  pairedGlobalAux (s.length + 1) s

/-- Anchored attempt of `ATTRS_REG` `\((?P<attrs>[^)]+)\)` (in
`noop.cpp` / the SELECT handler): an opening parenthesis, at least one
character other than `)`, a closing parenthesis. -/
def attrsMatchAt : List Char → Option (List Char)
  | '(' :: r =>
    let run := r.takeWhile (fun ch => ch ≠ ')')
    if run ≠ [] && headIs (r.dropWhile (fun ch => ch ≠ ')')) ')' then some run else none
  | _ => none

/-- `ATTRS_REG.match`. -/
def attrsMatch : List Char → Option (List Char) :=
  scanFirst attrsMatchAt

/-- Backtracking for the `data` capture of `SELECT_BRACKET_REG`: the
longest nonempty prefix without `)` that is followed by `)]` (taking the
optional `(\))?`) or directly by `]`. -/
def sbData : List Char → Option (List Char)
  | [] => none
  | c :: r =>
    if c = ')' then none
    else
      match sbData r with
      | some d => some (c :: d)
      | none =>
        match r with
        | ')' :: ']' :: _ => some [c]
        | ']' :: _ => some [c]
        | _ => none

/-- Anchored attempt of `SELECT_BRACKET_REG`
`\[(?P<type>[A-Z-]+)( (\()?(?P<data>[^)]+)(\))?)?\]`.
The `type` run must be maximal (a shorter run leaves a `[A-Z-]` character
where a space or `]` is required). After a space, the greedy `(\()?`
first tries to consume an opening parenthesis; when the data search fails
it retries without. Without a following space, the whole optional group
is dropped and `]` must follow the type directly. -/
def selectBracketMatchAt : List Char → Option (List Char × Option (List Char))
  | '[' :: r =>
    let ty := r.takeWhile isTypeChar
    if ty = [] then none
    else
      match r.dropWhile isTypeChar with
      | ' ' :: r2 =>
        let withParen : Option (List Char) :=
          match r2 with
          | '(' :: r3 => sbData r3
          | _ => none
        match withParen with
        | some d => some (ty, some d)
        | none =>
          match sbData r2 with
          | some d => some (ty, some d)
          | none => none
      | ']' :: _ => some (ty, none)
      | _ => none
  | _ => none

/-- `SELECT_BRACKET_REG.match`. -/
def selectBracketMatch : List Char → Option (List Char × Option (List Char)) :=
  scanFirst selectBracketMatchAt

/-! ## The response accumulator (`IMAPResponse`, `response.cpp`)

`_raw` (`QMap<std::size_t, QMap<QString, QByteArray>>`) is modelled as an
association list of association lists; `rawAppend` and `rawSet` model
`_raw[id][field].append(bytes)` and `_raw[id][field] = bytes`, where
`operator[]` inserts a default-constructed entry when the key is absent. -/

/-- The reserved tag of the connect greeting (`IMAP::CONNECT_TAG`). -/
def CONNECT_TAG : List Char := "CONNECT".data

/-- Update the value at `k`, inserting `dflt` first when `k` is absent. -/
def assocUpdate {α : Type} (m : List (Nat × α)) (k : Nat) (dflt : α) (f : α → α) :
    List (Nat × α) :=
  match m with
  | [] => [(k, f dflt)]
  | (k0, v) :: rest =>
    if k0 = k then (k0, f v) :: rest else (k0, v) :: assocUpdate rest k dflt f

/-- Update the value at string key `k`, inserting `dflt` when absent. -/
def assocUpdateS {α : Type} (m : List (List Char × α)) (k : List Char) (dflt : α)
    (f : α → α) : List (List Char × α) :=
  match m with
  | [] => [(k, f dflt)]
  | (k0, v) :: rest =>
    if k0 = k then (k0, f v) :: rest else (k0, v) :: assocUpdateS rest k dflt f

/-- The raw-literal map type of the accumulator. -/
def RawMap : Type := List (Nat × List (List Char × List Char))

instance : DecidableEq RawMap := by
  unfold RawMap
  infer_instance

/-- `_raw[id][field].append(bytes)`. -/
def rawAppend (m : RawMap) (i : Nat) (field : List Char) (bytes : List Char) : RawMap :=
  assocUpdate m i [] (fun sub => assocUpdateS sub field [] (fun old => old ++ bytes))

/-- `_raw[id][field] = bytes`. -/
def rawSet (m : RawMap) (i : Nat) (field : List Char) (bytes : List Char) : RawMap :=
  assocUpdate m i [] (fun sub => assocUpdateS sub field [] (fun _ => bytes))

/-- The accumulator state (`private/client/imap/response.hpp`): awaited
tag, raw mode flag, partial-line buffer (initially `"\r\n"`), current
FETCH id, remaining literal byte count, current field, sticky error flag,
and the four result collections. -/
structure IMAPResponse where
  tag : List Char
  rawMode : Bool := false
  buffer : List Char := ['\r', '\n']
  mid : Nat := 0
  bytesToRead : Int := 0
  field : List Char := []
  error : Bool := false
  tagged : List (RCode × List Char) := []
  untagged : List (RCode × List Char) := []
  untaggedTrailing : List (RCode × List Char) := []
  raw : RawMap := []
  deriving DecidableEq

/-- A fresh accumulator for tag `t` (the constructor). -/
def IMAPResponse.fresh (t : List Char) : IMAPResponse := { tag := t }

/-- `IMAPResponse::_read_line_to_buffer`: append the next device line to
an incomplete buffer, or replace a completed buffer by it; an empty
buffer is an unexpected EOF (sets `error`), a buffer without the CRLF
terminator asks for more input. Returns the C++ result, the new state and
the rest of the device data. -/
def read_line_to_buffer (s : IMAPResponse) (st : List Char) :
    Bool × IMAPResponse × List Char :=
  let ln := qReadLine st
  let buf := if endsCRLF s.buffer then ln.1 else s.buffer ++ ln.1
  let s1 : IMAPResponse := { s with buffer := buf }
  if buf = [] then (false, { s1 with error := true }, ln.2)
  else if endsCRLF buf then (true, s1, ln.2)
  else (false, s1, ln.2)

/-- `IMAPResponse::_handle_tagged`: parse the buffer line with
`TAGGED_REG` and append the `(type, data)` pair to `_tagged`; an
unmatched line sets `error`. -/
def handle_tagged (s : IMAPResponse) (data : List Char) : Bool × IMAPResponse :=
  match taggedMatch data with
  | some (ty, d) => (true, { s with tagged := s.tagged ++ [(enumValue ty, d)] })
  | none => (false, { s with error := true })

/-- `IMAPResponse::_handle_raw_meta` on the already-computed list of
`PAIRED_FETCH_REG` matches: `NIL` pairs are skipped, a failed size
conversion sets `error`, a size without inline data installs
`_bytes_to_read` and `_field` and returns early, inline data is stored
into `_raw` directly. -/
def handle_raw_meta_list (s : IMAPResponse) : List PairMatch → Bool × IMAPResponse
  | [] => (true, s)
  | m :: rest =>
    match m.size with
    | none => handle_raw_meta_list s rest
    | some ds =>
      match qToLongLong ds with
      | none => (false, { s with error := true })
      | some n =>
        match m.data with
        | none => (true, { s with bytesToRead := n, field := m.field })
        | some d => handle_raw_meta_list { s with raw := rawSet s.raw s.mid m.field d } rest

/-- `IMAPResponse::_handle_raw_meta`. -/
def handle_raw_meta (s : IMAPResponse) (data : List Char) : Bool × IMAPResponse :=
  handle_raw_meta_list s (pairedGlobal data)

/-- One literal-read step of the `_handle_raw` loop:
`read(_bytes_to_read)`, decrement `_bytes_to_read` by the number of bytes
actually read, append them to `_raw[_id][_field]`. The `Bool` is
`_bytes_to_read > 0` after the step (more literal bytes are missing). -/
def rawReadStep (s : IMAPResponse) (st : List Char) :
    IMAPResponse × List Char × Bool :=
  let nbuf := st.take s.bytesToRead.toNat
  let s1 : IMAPResponse :=
    { s with bytesToRead := s.bytesToRead - nbuf.length,
             raw := rawAppend s.raw s.mid s.field nbuf }
  (s1, st.drop s.bytesToRead.toNat, decide (s1.bytesToRead > 0))

/-- `IMAPResponse::_handle_raw`: while literal bytes remain, read them;
between literals read the next meta line, where `)` terminates the FETCH
block. The fuel bounds the loop; `length + 1` is sufficient (each
iteration consumes input). -/
def handle_raw : Nat → IMAPResponse → List Char → Bool × IMAPResponse × List Char
  | 0, s, st => (false, s, st)
  | fuel + 1, s, st =>
    if s.bytesToRead ≤ 0 then
      let r1 := read_line_to_buffer s st
      if r1.1 = false then (false, r1.2.1, r1.2.2)
      else if headIs r1.2.1.buffer ')' then (true, r1.2.1, r1.2.2)
      else
        let r2 := handle_raw_meta r1.2.1 (qTrim r1.2.1.buffer)
        if r2.1 = false then (false, r2.2, r1.2.2)
        else
          let r3 := rawReadStep r2.2 r1.2.2
          if r3.2.2 then (false, r3.1, r3.2.1)
          else handle_raw fuel r3.1 r3.2.1
    else
      let r3 := rawReadStep s st
      if r3.2.2 then (false, r3.1, r3.2.1)
      else handle_raw fuel r3.1 r3.2.1

/-- `IMAPResponse::_handle_untagged`: try `UNTAGGED_FETCH_REG` (entering
raw mode via `_handle_raw_meta` / `_handle_raw` when a literal size was
announced), then `UNTAGGED_REG`, then `UNTAGGED_TRAILING_REG`; an
unmatched line sets `error`. A failed id conversion stores the fallback
value `0` into `_id` and sets `error`. -/
def handle_untagged (fuel : Nat) (s : IMAPResponse) (data : List Char) (st : List Char) :
    Bool × IMAPResponse × List Char :=
  match untaggedFetchMatch data with
  | some (ids, fdata) =>
    match qToULongLong ids with
    | none => (false, { s with mid := 0, error := true }, st)
    | some i =>
      let r := handle_raw_meta { s with mid := i } fdata
      if r.1 = false then (false, r.2, st)
      else if r.2.bytesToRead ≠ 0 then
        let r2 := handle_raw fuel { r.2 with rawMode := true } st
        if r2.1 = false then (false, r2.2.1, r2.2.2)
        else (true, { r2.2.1 with rawMode := false }, r2.2.2)
      else (true, r.2, st)
  | none =>
    match untaggedMatch data with
    | some (ty, d) =>
      (true, { s with untagged := s.untagged ++ [(enumValue ty, d.getD [])] }, st)
    | none =>
      match untaggedTrailingMatch data with
      | some (d, ty) =>
        (true, { s with untaggedTrailing := s.untaggedTrailing ++ [(enumValue ty, d)] }, st)
      | none => (false, { s with error := true }, st)

/-- `IMAPResponse::_handle_command`: read lines until the tagged
terminator. A line starting with `*` is untagged (and completes the
response immediately under the reserved connect tag); a line starting
with the awaited tag is the tagged terminator; anything else sets
`error`. -/
def handle_command : Nat → IMAPResponse → List Char → Bool × IMAPResponse × List Char
  | 0, s, st => (false, s, st)
  | fuel + 1, s, st =>
    let r1 := read_line_to_buffer s st
    if r1.1 = false then (false, r1.2.1, r1.2.2)
    else
      let s1 := r1.2.1
      let st1 := r1.2.2
      if headIs s1.buffer '*' then
        let r2 := handle_untagged fuel s1 (qTrim s1.buffer) st1
        if r2.1 = false then (false, r2.2.1, r2.2.2)
        else if s1.tag = CONNECT_TAG then (true, r2.2.1, r2.2.2)
        else handle_command fuel r2.2.1 r2.2.2
      else if List.isPrefixOf s1.tag s1.buffer then
        let r3 := handle_tagged s1 (qTrim s1.buffer)
        (r3.1, r3.2, st1)
      else (false, { s1 with error := true }, st1)

/-- `IMAPResponse::digest(data)`: finish a pending literal first when in
raw mode, then parse lines. Returns the C++ result (`true` = the
response is complete, `false` = more input is needed or `error` was set)
and the final state. -/
def digest (s : IMAPResponse) (data : List Char) : Bool × IMAPResponse :=
  let fuel := data.length + 1
  if s.rawMode then
    let r := handle_raw fuel s data
    if r.1 = false then (false, r.2.1)
    else
      let r2 := handle_command fuel { r.2.1 with rawMode := false } r.2.2
      (r2.1, r2.2.1)
  else
    let r := handle_command fuel s data
    (r.1, r.2.1)

/-! ## Error kinds and command handlers (`base.hpp`, `login.cpp`, the
SELECT handler in `noop.cpp`) -/

/-- `Base::ErrorType`. -/
inductive ErrorType where
  | E_NOERR | E_UNKNOWN | E_DUPLICATE | E_INTERNAL | E_UNEXPECTED
  | E_NOTCONNECTED | E_BADCOMMAND | E_LOGIN | E_REFERENCE | E_PARSE
  deriving DecidableEq

/-- Message of the wrong-tagged-count branch of every handler. -/
def msgUnexpectedTagged : List Char := "Unexpected tagged response".data

/-- The outcome of the LOGIN handler: which callback was invoked. -/
inductive LoginResult where
  | success
  | error (kind : ErrorType) (msg : List Char)
  deriving DecidableEq

/-- `imap_handle_login` (`login.cpp`). -/
def imap_handle_login (resp : IMAPResponse) : LoginResult :=
  match resp.tagged with
  | [t0] =>
    if t0.1 = RCode.NO then .error .E_LOGIN t0.2
    else if t0.1 = RCode.BAD then .error .E_BADCOMMAND t0.2
    else .success
  | _ => .error .E_UNEXPECTED msgUnexpectedTagged

/-- `response::Select` (`client/response.hpp`). `exists` is spelt
`exists_` because of the Lean keyword. -/
structure Select where
  exists_ : Nat := 0
  recent : Nat := 0
  unseen : Nat := 0
  uidvalidity : Nat := 0
  flags : List (List Char) := []
  permanent_flags : List (List Char) := []
  permission : List Char := []
  deriving DecidableEq

/-- The outcome of the SELECT handler. -/
inductive SelectResult where
  | success (v : Select)
  | error (kind : ErrorType) (msg : List Char)
  deriving DecidableEq

/-- `_parse_attrs`: split on spaces, skipping empty parts, and strip one
leading backslash from each item. -/
def parse_attrs (s : List Char) : List (List Char) :=
  (splitSkipEmpty s).map (fun item =>
    match item with
    | '\\' :: rest => rest
    | l => l)

/-- The `untagged_trailing` loop of `imap_handle_select`: `EXISTS` and
`RECENT` entries update the numeric fields; conversion failures only log. -/
def selectTrailingFold (acc : Select) : List (RCode × List Char) → Select
  | [] => acc
  | (ty, d) :: rest =>
    if ty = RCode.EXISTS then
      match qToULongLong d with
      | none => selectTrailingFold acc rest
      | some v => selectTrailingFold { acc with exists_ := v } rest
    else if ty = RCode.RECENT then
      match qToULongLong d with
      | none => selectTrailingFold acc rest
      | some v => selectTrailingFold { acc with recent := v } rest
    else selectTrailingFold acc rest

/-- One iteration of the `untagged` loop of `imap_handle_select`: a
`FLAGS` entry matching `ATTRS_REG` sets `flags`, then an `OK` entry
matching `SELECT_BRACKET_REG` is examined for the `UNSEEN`,
`UIDVALIDITY` and `PERMANENTFLAGS` payloads (each requiring a captured
`data` group; numeric failures only log). -/
def selectUntaggedStep (acc : Select) (ty : RCode) (d : List Char) : Select :=
  let acc1 :=
    match attrsMatch d with
    | some attrs => if ty = RCode.FLAGS then { acc with flags := parse_attrs attrs } else acc
    | none => acc
  match selectBracketMatch d with
  | some (bty, bdata) =>
    if ty = RCode.OK then
      if bty = "UNSEEN".data then
        match bdata with
        | some dd =>
          match qToULongLong dd with
          | some v => { acc1 with unseen := v }
          | none => acc1
        | none => acc1
      else if bty = "UIDVALIDITY".data then
        match bdata with
        | some dd =>
          match qToULongLong dd with
          | some v => { acc1 with uidvalidity := v }
          | none => acc1
        | none => acc1
      else if bty = "PERMANENTFLAGS".data then
        match bdata with
        | some dd => { acc1 with permanent_flags := parse_attrs dd }
        | none => acc1
      else acc1
    else acc1
  | none => acc1

/-- `imap_handle_select` (`noop.cpp`): tagged-line triage, then the
permission bracket of the tagged data, the trailing `EXISTS`/`RECENT`
entries and the untagged `FLAGS`/`OK` entries. -/
def imap_handle_select (resp : IMAPResponse) : SelectResult :=
  match resp.tagged with
  | [t0] =>
    if t0.1 = RCode.NO then .error .E_REFERENCE t0.2
    else if t0.1 = RCode.BAD then .error .E_BADCOMMAND t0.2
    else
      let s0 : Select := {}
      let s1 :=
        match selectBracketMatch t0.2 with
        | some (bty, _) => { s0 with permission := bty }
        | none => s0
      let s2 := selectTrailingFold s1 resp.untaggedTrailing
      let s3 := resp.untagged.foldl (fun a p => selectUntaggedStep a p.1 p.2) s2
      .success s3
  | _ => .error .E_UNEXPECTED msgUnexpectedTagged

/-! ## The tag generator (`tag.cpp`, `tag.hpp`) -/

/-- `TagGenerator::MAX_TAG_INDEX`. -/
def MAX_TAG_INDEX : Nat := 999

/-- A decimal digit as a character. -/
def digitChar (n : Nat) : Char := Char.ofNat (48 + n)

/-- Decimal representation (`QString::number` and `QString::arg` with
base 10), via fuel-bounded division. -/
def decimalAux : Nat → Nat → List Char
  | 0, _ => []
  | fuel + 1, n => if n < 10 then [digitChar n] else decimalAux fuel (n / 10) ++ [digitChar (n % 10)]

/-- Decimal representation of a natural number. -/
def decimalRepr (n : Nat) : List Char := decimalAux (n + 1) n

/-- `QString::arg(value, fieldWidth, base, fillChar)` padding: fill on
the left up to the field width. -/
def padLeft (s : List Char) (w : Nat) (fill : Char) : List Char :=
  List.replicate (w - s.length) fill ++ s

/-- `TagGenerator`: the fixed prefix letter and the current index. -/
structure TagGenerator where
  tag : Char
  idx : Nat := 0
  deriving DecidableEq

/-- `TagGenerator::generate`: return the current tag (letter followed by
the zero-padded width-3 decimal index) and advance the index, wrapping
to `0` once it exceeds `MAX_TAG_INDEX`. -/
def TagGenerator.generate (g : TagGenerator) : List Char × TagGenerator :=
  let index := g.idx
  let idx1 := g.idx + 1
  (g.tag :: padLeft (decimalRepr index) 3 '0',
   { g with idx := if idx1 > MAX_TAG_INDEX then 0 else idx1 })

/-- `TagGenerator::label`. -/
def TagGenerator.label (g : TagGenerator) : List Char := g.tag :: "XXX".data

/-- The generator state after `k` calls to `generate`. -/
def TagGenerator.afterCalls (g : TagGenerator) : Nat → TagGenerator
  | 0 => g
  | k + 1 => (TagGenerator.afterCalls g k).generate.2

/-! ## The client engine request path (`unnamed/part_003`)

Callbacks are opaque `std::function` values; the model records the key
list of the `_resp_callback` map (insertion order), the queue of
`(command, accumulator)` entries, the bytes written to the socket and
the number of `error_occurred` emissions. -/

/-- `IMAP::Command`. -/
inductive Command where
  | LOGIN | LOGOUT | LIST | SELECT | NOOP | SEARCH | FETCH | NOCMD
  deriving DecidableEq

/-- `IMAP::Status` (`S_` prefixed enumerators). -/
inductive Status where
  | S_DISCONNECT | S_CONNECT | S_AUTHENTICATE
  deriving DecidableEq

/-- `request::Search::Criteria`. -/
inductive Criteria where
  | ALL | ANSWERED | DELETED | DRAFT | FLAGGED | NEW | OLD | RECENT
  | SEEN | UNANSWERED | UNDELETED | UNDRAFT | UNFLAGGED | UNSEEN
  deriving DecidableEq

/-- `common::enum_name` on a search criterion. -/
def criteriaName : Criteria → List Char
  | .ALL => "ALL".data
  | .ANSWERED => "ANSWERED".data
  | .DELETED => "DELETED".data
  | .DRAFT => "DRAFT".data
  | .FLAGGED => "FLAGGED".data
  | .NEW => "NEW".data
  | .OLD => "OLD".data
  | .RECENT => "RECENT".data
  | .SEEN => "SEEN".data
  | .UNANSWERED => "UNANSWERED".data
  | .UNDELETED => "UNDELETED".data
  | .UNDRAFT => "UNDRAFT".data
  | .UNFLAGGED => "UNFLAGGED".data
  | .UNSEEN => "UNSEEN".data

/-- `request::Fetch::Field` (bit values 1, 2, 4). -/
inductive FetchField where
  | ENVELOPE | MIME | TEXT
  deriving DecidableEq

/-- The bit value of a fetch field. -/
def FetchField.bit : FetchField → Nat
  | .ENVELOPE => 1
  | .MIME => 2
  | .TEXT => 4

/-- `IMAP::FETCH_FIELD` (`client/imap.hpp`): fetch field to section
token(s). -/
def FETCH_FIELD : FetchField → List Char
  | .ENVELOPE => "BODY.PEEK[HEADER.FIELDS (DATE SUBJECT FROM TO)]".data
  | .MIME => "BODY.PEEK[HEADER.FIELDS (CONTENT-TYPE)] BODY.PEEK[1.MIME]".data
  | .TEXT => "BODY[1]".data

/-- `CRLF`. -/
def CRLF : List Char := ['\r', '\n']

/-- The client engine state visible to the request path. -/
structure ClientState where
  status : Status
  error : ErrorType := .E_NOERR
  estr : List Char := []
  tags : TagGenerator
  resp : List (Command × IMAPResponse) := []
  respCallback : List (List Char) := []
  written : List Char := []
  errorEmitted : Nat := 0
  deriving DecidableEq

/-- `_trig_error(err, estr)`: record the error and emit `error_occurred`. -/
def trig_error (s : ClientState) (err : ErrorType) (e : List Char) : ClientState :=
  { s with error := err, estr := e, errorEmitted := s.errorEmitted + 1 }

/-- Message of the `E_NOTCONNECTED` branch of `_request`. -/
def msgNotEstablished : List Char := "Connection has not established".data

/-- Message of the `E_DUPLICATE` branch of `login`. -/
def msgAlreadyAuth : List Char := "Already authenticated".data

/-- `IMAP::_request` (`unnamed/part_003`): fail with `E_NOTCONNECTED`
while disconnected; otherwise generate a tag, append a queue entry,
register the callback under the tag when absent, and write
`<tag> <cmd>\r\n`. -/
def request (s : ClientState) (ty : Command) (cmd : List Char) : ClientState :=
  if s.status = Status.S_DISCONNECT then
    trig_error s .E_NOTCONNECTED msgNotEstablished
  else
    let g := s.tags.generate
    let s1 : ClientState :=
      { s with tags := g.2, resp := s.resp ++ [(ty, IMAPResponse.fresh g.1)] }
    let s2 : ClientState :=
      if s1.respCallback.contains g.1 then s1
      else { s1 with respCallback := s1.respCallback ++ [g.1] }
    { s2 with written := s2.written ++ (g.1 ++ [' '] ++ cmd ++ CRLF) }

/-- `IMAP::disconnect_from_host`: duplicate when already disconnected,
otherwise register the `DISCONNECT` callback and initiate the close. -/
def disconnect_from_host (s : ClientState) : ClientState :=
  if s.status = Status.S_DISCONNECT then
    trig_error s .E_DUPLICATE msgNotEstablished
  else if s.respCallback.contains "DISCONNECT".data then s
  else { s with respCallback := s.respCallback ++ ["DISCONNECT".data] }

/-- `IMAP::login`. -/
def clientLogin (s : ClientState) (user pass : List Char) : ClientState :=
  if s.status = Status.S_AUTHENTICATE then trig_error s .E_DUPLICATE msgAlreadyAuth
  else request s .LOGIN ("LOGIN ".data ++ user ++ [' '] ++ pass)

/-- `IMAP::logout`. -/
def clientLogout (s : ClientState) : ClientState :=
  if s.status = Status.S_CONNECT then disconnect_from_host s
  else request s .LOGOUT "LOGOUT".data

/-- `IMAP::list`. -/
def clientList (s : ClientState) (path pat : List Char) : ClientState :=
  request s .LIST ("LIST ".data ++ path ++ [' '] ++ pat)

/-- `IMAP::select`. -/
def clientSelect (s : ClientState) (path : List Char) : ClientState :=
  request s .SELECT ("SELECT ".data ++ path)

/-- `IMAP::noop`. -/
def clientNoop (s : ClientState) : ClientState :=
  request s .NOOP "NOOP".data

/-- `IMAP::search`. -/
def clientSearch (s : ClientState) (c : Criteria) : ClientState :=
  request s .SEARCH ("SEARCH ".data ++ criteriaName c)

/-- The `<range>` part of the FETCH command (`unnamed/part_003`): the id
alone for a range of at most one, otherwise `id:id+range-1`. -/
def fetchRange (i : Nat) (range : Nat) : List Char :=
  if range ≤ 1 then decimalRepr i
  else decimalRepr i ++ [':'] ++ decimalRepr (i + range - 1)

/-- `IMAP::fetch` (`unnamed/part_003`): single-field form. -/
def clientFetch (s : ClientState) (i : Nat) (field : FetchField) (range : Nat) : ClientState :=
  request s .FETCH ("FETCH ".data ++ fetchRange i range ++ [' '] ++ FETCH_FIELD field)

/-- The FETCH section assembly as the specification words it, written
out for comparison with `clientFetch`: for each set bit of a
`request::Fetch::FieldFlags` bitset, the corresponding `FETCH_FIELD`
token with a trailing space. -/
def claimFetchSections (flags : Nat) : List Char :=
  (if flags.testBit 0 then FETCH_FIELD .ENVELOPE ++ [' '] else []) ++
  (if flags.testBit 1 then FETCH_FIELD .MIME ++ [' '] else []) ++
  (if flags.testBit 2 then FETCH_FIELD .TEXT ++ [' '] else [])

/-- The full FETCH command text as the specification words it —
`FETCH <range> (<tokens>)` — written out for comparison with the text
`IMAP::fetch` (`unnamed/part_003`) actually builds. -/
def claimFetchCmd (i : Nat) (flags : Nat) (range : Nat) : List Char :=
  "FETCH ".data ++ fetchRange i range ++ [' ', '('] ++ claimFetchSections flags ++ [')']

/-! ## The ready-read dispatch (`IMAP::_on_ready_read`,
`IMAP::_on_disconnected`, `unnamed/part_003`) -/

/-- A pending entry of `_resp`: the command kind and its response
accumulator. -/
structure PendingCmd where
  ty : Command
  resp : IMAPResponse
  deriving DecidableEq

/-- The dispatch-relevant projection of the client between
`_on_connected` and the end of the connection: whether the `readyRead`
and `errorOccurred` signals are still connected, the `_resp` queue, the
keys of `_resp_callback`, the log of callback invocations (in order, by
key) and the size of `_queue`. -/
structure EngineState where
  connected : Bool := true
  resp : List PendingCmd := []
  cbs : List (List Char) := []
  fired : List (List Char) := []
  queueLen : Nat := 0
  deriving DecidableEq

/-- Events one established connection can see: socket readiness with
the bytes `readAll` would return, a socket error, and the transport
close. -/
inductive IMAPEvent where
  | readyRead (bytes : List Char)
  | sockError
  | disconnected
  deriving DecidableEq

/-- `IMAP::_on_ready_read`, parametrised by the verdict `H` of the
response handler run on a completed response (`true`: the handler
invokes the success continuation with its data; `false`: it invokes the
error continuation, which is `_trig_error` and fires no per-command
callback — exactly the two continuations `_on_ready_read` passes to
`RESPONSE_HANDLER`). An empty `_resp` queue discards the bytes. A
need-more digest keeps the head entry with its accumulated state. A
digest that set `error` reports `E_PARSE` through `_trig_error` and
erases the head — its callback stays registered. On a completed
response the handler runs; only the success continuation fires and
removes the callback registered under the head's tag, then pushes the
data onto `_queue` (except for `LOGOUT`); the head is erased either
way. -/
def onReadyRead (H : Command → IMAPResponse → Bool) (st : EngineState)
    (bytes : List Char) : EngineState :=
  match st.resp with
  | [] => st
  | p :: rest =>
    let d := digest p.resp bytes
    if d.1 = false then
      if d.2.error then { st with resp := rest }
      else { st with resp := { p with resp := d.2 } :: rest }
    else if H p.ty d.2 then
      let st1 : EngineState :=
        if d.2.tag ∈ st.cbs then
          { st with cbs := st.cbs.erase d.2.tag, fired := st.fired ++ [d.2.tag] }
        else st
      { st1 with resp := rest,
                 queueLen := if p.ty = Command.LOGOUT then st1.queueLen
                             else st1.queueLen + 1 }
    else { st with resp := rest }

/-- `IMAP::_on_disconnected`: disconnect the `readyRead` and
`errorOccurred` signals and fire the callback registered under the
reserved `DISCONNECT` key, if any. The per-command callbacks and the
`_resp` queue are left untouched. -/
def onDisconnected (st : EngineState) : EngineState :=
  let st1 : EngineState := { st with connected := false }
  if "DISCONNECT".data ∈ st1.cbs then
    { st1 with cbs := st1.cbs.erase "DISCONNECT".data,
               fired := st1.fired ++ ["DISCONNECT".data] }
  else st1

/-- One signal delivery: `readyRead` and `errorOccurred` are handled
only while their connections stand; `errorOccurred` reports through
`_trig_error` and touches neither queue nor callbacks. -/
def engineStep (H : Command → IMAPResponse → Bool) (st : EngineState) :
    IMAPEvent → EngineState
  | .readyRead bytes => if st.connected then onReadyRead H st bytes else st
  | .sockError => st
  | .disconnected => if st.connected then onDisconnected st else st

/-- The engine state after a sequence of signal deliveries. -/
def engineRun (H : Command → IMAPResponse → Bool) (st : EngineState)
    (tr : List IMAPEvent) : EngineState :=
  tr.foldl (engineStep H) st

/-! ## Chunked feeding of the accumulator -/

/-- Feed the chunks `c :: cs` to `digest` one call at a time; the result
is the last call's result together with the final state. -/
def feed (s : IMAPResponse) (c : List Char) : List (List Char) → Bool × IMAPResponse
  | [] => digest s c
  | c2 :: cs => feed (digest s c).2 c2 cs

/-- Every call before the last reports `false` (need-more or error). -/
def IntermediateIncomplete (s : IMAPResponse) (c : List Char) : List (List Char) → Prop
  | [] => True
  | c2 :: cs => (digest s c).1 = false ∧ IntermediateIncomplete (digest s c).2 c2 cs

/-- Every call before the last reports need-more with the error flag
unset, at a clean suspension point. Either the accumulator is suspended
in raw mode — with literal bytes still missing, or with no line feed in
the partial meta line it carries — provided the awaited tag is not the
reserved connect tag (whose early-completion check the top-level
literal resumption of `digest` would skip); or it is suspended inside a
partial text line: raw mode off and no line feed in the carried buffer.
A boundary exactly on a completed line is the refuted case. -/
def CleanNeedMore (s : IMAPResponse) (c : List Char) : List (List Char) → Prop
  | [] => True
  | c2 :: cs =>
    (digest s c).1 = false ∧ (digest s c).2.error = false ∧
    (((digest s c).2.rawMode = true ∧ s.tag ≠ CONNECT_TAG ∧
       (0 < (digest s c).2.bytesToRead ∨ ∀ ch ∈ (digest s c).2.buffer, ch ≠ '\n')) ∨
     ((digest s c).2.rawMode = false ∧ ∀ ch ∈ (digest s c).2.buffer, ch ≠ '\n')) ∧
    CleanNeedMore (digest s c).2 c2 cs

/-! # Theorems

## Evolution lemmas for the accumulator -/

theorem read_line_to_buffer_tag (s : IMAPResponse) (st : List Char) :
    (read_line_to_buffer s st).2.1.tag = s.tag := by
  simp only [read_line_to_buffer]
  split_ifs <;> rfl

theorem read_line_to_buffer_tagged (s : IMAPResponse) (st : List Char) :
    (read_line_to_buffer s st).2.1.tagged = s.tagged := by
  simp only [read_line_to_buffer]
  split_ifs <;> rfl

theorem read_line_to_buffer_error_mono (s : IMAPResponse) (st : List Char)
    (h : s.error = true) : (read_line_to_buffer s st).2.1.error = true := by
  simp only [read_line_to_buffer]
  split_ifs <;> simp [h]

theorem handle_raw_meta_list_tag (s : IMAPResponse) (l : List PairMatch) :
    (handle_raw_meta_list s l).2.tag = s.tag := by
  induction l generalizing s with
  | nil => rfl
  | cons m rest ih =>
    rcases m with ⟨mf, msz, md⟩
    simp only [handle_raw_meta_list]
    rcases msz with _ | ds
    · exact ih s
    · rcases hn : qToLongLong ds with _ | n
      · simp only [hn]
      · simp only [hn]
        rcases md with _ | d
        · rfl
        · exact ih _

theorem handle_raw_meta_list_tagged (s : IMAPResponse) (l : List PairMatch) :
    (handle_raw_meta_list s l).2.tagged = s.tagged := by
  induction l generalizing s with
  | nil => rfl
  | cons m rest ih =>
    rcases m with ⟨mf, msz, md⟩
    simp only [handle_raw_meta_list]
    rcases msz with _ | ds
    · exact ih s
    · rcases hn : qToLongLong ds with _ | n
      · simp only [hn]
      · simp only [hn]
        rcases md with _ | d
        · rfl
        · exact ih _

theorem handle_raw_meta_list_error_mono (s : IMAPResponse) (l : List PairMatch)
    (h : s.error = true) : (handle_raw_meta_list s l).2.error = true := by
  induction l generalizing s with
  | nil => exact h
  | cons m rest ih =>
    rcases m with ⟨mf, msz, md⟩
    simp only [handle_raw_meta_list]
    rcases msz with _ | ds
    · exact ih s h
    · rcases hn : qToLongLong ds with _ | n
      · simp only [hn]
      · simp only [hn]
        rcases md with _ | d
        · exact h
        · exact ih _ h

/-- Boolean contraposition helper for the error-monotonicity lemmas. -/
theorem bool_contra {a b : Bool} (h : a = true → b = true) : b = false → a = false := by
  cases a
  · intro _
    rfl
  · intro hb
    rw [h rfl] at hb
    exact hb

theorem rawReadStep_tag (s : IMAPResponse) (st : List Char) :
    (rawReadStep s st).1.tag = s.tag := rfl

theorem rawReadStep_tagged (s : IMAPResponse) (st : List Char) :
    (rawReadStep s st).1.tagged = s.tagged := rfl

theorem rawReadStep_error (s : IMAPResponse) (st : List Char) :
    (rawReadStep s st).1.error = s.error := rfl

theorem handle_raw_inv (fuel : Nat) (s : IMAPResponse) (st : List Char) :
    (handle_raw fuel s st).2.1.tag = s.tag ∧
    (handle_raw fuel s st).2.1.tagged = s.tagged ∧
    ((handle_raw fuel s st).2.1.error = false → s.error = false) := by
  induction fuel generalizing s st with
  | zero => exact ⟨rfl, rfl, fun h => h⟩
  | succ f ih =>
    simp only [handle_raw]
    rcases h1 : read_line_to_buffer s st with ⟨ok, s1, st1⟩
    have e1tag : s1.tag = s.tag := by
      have := read_line_to_buffer_tag s st
      rw [h1] at this
      exact this
    have e1tagged : s1.tagged = s.tagged := by
      have := read_line_to_buffer_tagged s st
      rw [h1] at this
      exact this
    have e1err : s1.error = false → s.error = false := by
      have := bool_contra (read_line_to_buffer_error_mono s st)
      rw [h1] at this
      exact this
    split
    · split
      · exact ⟨e1tag, e1tagged, e1err⟩
      · split
        · exact ⟨e1tag, e1tagged, e1err⟩
        · rcases h2 : handle_raw_meta s1 (qTrim s1.buffer) with ⟨ok2, s2⟩
          have e2tag : s2.tag = s1.tag := by
            have := handle_raw_meta_list_tag s1 (pairedGlobal (qTrim s1.buffer))
            rw [show handle_raw_meta_list s1 (pairedGlobal (qTrim s1.buffer)) = (ok2, s2) from h2] at this
            exact this
          have e2tagged : s2.tagged = s1.tagged := by
            have := handle_raw_meta_list_tagged s1 (pairedGlobal (qTrim s1.buffer))
            rw [show handle_raw_meta_list s1 (pairedGlobal (qTrim s1.buffer)) = (ok2, s2) from h2] at this
            exact this
          have e2err : s2.error = false → s1.error = false := by
            have := bool_contra (handle_raw_meta_list_error_mono s1 (pairedGlobal (qTrim s1.buffer)))
            rw [show handle_raw_meta_list s1 (pairedGlobal (qTrim s1.buffer)) = (ok2, s2) from h2] at this
            exact this
          split
          · exact ⟨e2tag.trans e1tag, e2tagged.trans e1tagged, fun h => e1err (e2err h)⟩
          · split
            · exact ⟨(rawReadStep_tag s2 st1).trans (e2tag.trans e1tag),
                (rawReadStep_tagged s2 st1).trans (e2tagged.trans e1tagged),
                fun h => e1err (e2err ((rawReadStep_error s2 st1) ▸ h))⟩
            · rcases ih (rawReadStep s2 st1).1 (rawReadStep s2 st1).2.1 with ⟨ha, hb, hc⟩
              refine ⟨?_, ?_, ?_⟩
              · rw [ha, rawReadStep_tag, e2tag, e1tag]
              · rw [hb, rawReadStep_tagged, e2tagged, e1tagged]
              · intro h
                exact e1err (e2err ((rawReadStep_error s2 st1) ▸ hc h))
    · split
      · exact ⟨rawReadStep_tag s st, rawReadStep_tagged s st,
          fun h => (rawReadStep_error s st) ▸ h⟩
      · rcases ih (rawReadStep s st).1 (rawReadStep s st).2.1 with ⟨ha, hb, hc⟩
        refine ⟨?_, ?_, ?_⟩
        · rw [ha, rawReadStep_tag]
        · rw [hb, rawReadStep_tagged]
        · intro h
          exact (rawReadStep_error s st) ▸ hc h

theorem handle_raw_meta_tag (s : IMAPResponse) (d : List Char) :
    (handle_raw_meta s d).2.tag = s.tag :=
  handle_raw_meta_list_tag s (pairedGlobal d)

theorem handle_raw_meta_tagged (s : IMAPResponse) (d : List Char) :
    (handle_raw_meta s d).2.tagged = s.tagged :=
  handle_raw_meta_list_tagged s (pairedGlobal d)

theorem handle_raw_meta_error (s : IMAPResponse) (d : List Char) :
    (handle_raw_meta s d).2.error = false → s.error = false :=
  bool_contra (handle_raw_meta_list_error_mono s (pairedGlobal d))

theorem handle_raw_tag (fuel : Nat) (s : IMAPResponse) (st : List Char) :
    (handle_raw fuel s st).2.1.tag = s.tag :=
  (handle_raw_inv fuel s st).1

theorem handle_raw_tagged (fuel : Nat) (s : IMAPResponse) (st : List Char) :
    (handle_raw fuel s st).2.1.tagged = s.tagged :=
  (handle_raw_inv fuel s st).2.1

theorem handle_raw_error (fuel : Nat) (s : IMAPResponse) (st : List Char) :
    (handle_raw fuel s st).2.1.error = false → s.error = false :=
  (handle_raw_inv fuel s st).2.2

theorem handle_untagged_inv (fuel : Nat) (s : IMAPResponse) (data st : List Char) :
    (handle_untagged fuel s data st).2.1.tag = s.tag ∧
    (handle_untagged fuel s data st).2.1.tagged = s.tagged ∧
    ((handle_untagged fuel s data st).2.1.error = false → s.error = false) := by
  rcases h : handle_untagged fuel s data st with ⟨ok, s1, st1⟩
  simp only
  simp only [handle_untagged] at h
  split at h
  · split at h
    · cases h
      refine ⟨rfl, rfl, ?_⟩
      intro hc
      simpa using hc
    · split at h
      · cases h
        exact ⟨handle_raw_meta_tag _ _, handle_raw_meta_tagged _ _, handle_raw_meta_error _ _⟩
      · split at h
        · split at h
          · cases h
            refine ⟨?_, ?_, ?_⟩
            · rw [handle_raw_tag]
              exact handle_raw_meta_tag _ _
            · rw [handle_raw_tagged]
              exact handle_raw_meta_tagged _ _
            · intro hx
              have hx2 := handle_raw_error _ _ _ hx
              simp only at hx2
              have hx3 := handle_raw_meta_error _ _ hx2
              exact hx3
          · cases h
            refine ⟨?_, ?_, ?_⟩
            · simp only
              rw [handle_raw_tag]
              exact handle_raw_meta_tag _ _
            · simp only
              rw [handle_raw_tagged]
              exact handle_raw_meta_tagged _ _
            · intro hx
              simp only at hx
              have hx2 := handle_raw_error _ _ _ hx
              simp only at hx2
              have hx3 := handle_raw_meta_error _ _ hx2
              exact hx3
        · cases h
          exact ⟨handle_raw_meta_tag _ _, handle_raw_meta_tagged _ _, handle_raw_meta_error _ _⟩
  · split at h
    · cases h
      exact ⟨rfl, rfl, fun hx => hx⟩
    · split at h
      · cases h
        exact ⟨rfl, rfl, fun hx => hx⟩
      · cases h
        refine ⟨rfl, rfl, ?_⟩
        intro hc
        simpa using hc

theorem handle_command_inv (fuel : Nat) (s : IMAPResponse) (st : List Char) :
    (handle_command fuel s st).2.1.tag = s.tag ∧
    ((handle_command fuel s st).2.1.error = false → s.error = false) ∧
    ((handle_command fuel s st).1 = false → (handle_command fuel s st).2.1.tagged = s.tagged) ∧
    ((handle_command fuel s st).1 = true → s.tag ≠ CONNECT_TAG →
      ∃ x, (handle_command fuel s st).2.1.tagged = s.tagged ++ [x]) := by
  induction fuel generalizing s st with
  | zero =>
    refine ⟨rfl, fun h => h, fun _ => rfl, fun h _ => absurd h (by simp [handle_command])⟩
  | succ f ih =>
    simp only [handle_command]
    rcases h1 : read_line_to_buffer s st with ⟨ok, s1, st1⟩
    simp only
    have e1tag : s1.tag = s.tag := by
      have := read_line_to_buffer_tag s st
      rw [h1] at this
      exact this
    have e1tagged : s1.tagged = s.tagged := by
      have := read_line_to_buffer_tagged s st
      rw [h1] at this
      exact this
    have e1err : s1.error = false → s.error = false := by
      have := bool_contra (read_line_to_buffer_error_mono s st)
      rw [h1] at this
      exact this
    split
    · exact ⟨e1tag, e1err, fun _ => e1tagged, fun h _ => absurd h (by simp)⟩
    · split
      · rcases h2 : handle_untagged f s1 (qTrim s1.buffer) st1 with ⟨ok2, s2, st2⟩
        have i2 := handle_untagged_inv f s1 (qTrim s1.buffer) st1
        rw [h2] at i2
        rcases i2 with ⟨ha, hb, hc⟩
        split
        · exact ⟨ha.trans e1tag, fun h => e1err (hc h), fun _ => hb.trans e1tagged,
            fun h _ => absurd h (by simp)⟩
        · split
          · rename_i htagconn
            refine ⟨ha.trans e1tag, fun h => e1err (hc h), fun h => absurd h (by simp),
              fun _ hne => absurd ?_ hne⟩
            rw [← e1tag]
            exact htagconn
          · rcases ih s2 st2 with ⟨ra, rb, rc, rd⟩
            refine ⟨ra.trans (ha.trans e1tag), fun h => e1err (hc (rb h)), ?_, ?_⟩
            · intro h
              rw [rc h, hb, e1tagged]
            · intro h hne
              rcases rd h (by rw [ha, e1tag]; exact hne) with ⟨x, hx⟩
              exact ⟨x, by rw [hx, hb, e1tagged]⟩
      · split
        · rcases h3 : taggedMatch (qTrim s1.buffer) with _ | ⟨ty, d⟩
          · simp only [handle_tagged, h3]
            refine ⟨e1tag, ?_, ?_, ?_⟩
            · intro h
              exact absurd h (by simp)
            · intro _
              exact e1tagged
            · intro h
              exact absurd h (by simp)
          · simp only [handle_tagged, h3]
            refine ⟨e1tag, ?_, ?_, ?_⟩
            · intro h
              exact e1err h
            · intro h
              exact absurd h (by simp)
            · intro _ _
              exact ⟨(enumValue ty, d), by rw [e1tagged]⟩
        · exact ⟨e1tag, by intro h; exact e1err (by simpa using h), fun _ => e1tagged,
            fun h _ => absurd h (by simp)⟩

theorem digest_tag (s : IMAPResponse) (c : List Char) : (digest s c).2.tag = s.tag := by
  simp only [digest]
  split
  · rcases h1 : handle_raw (c.length + 1) s c with ⟨ok, s1, st1⟩
    have i1 := handle_raw_inv (c.length + 1) s c
    rw [h1] at i1
    split
    · exact i1.1
    · rcases h2 : handle_command (c.length + 1) { s1 with rawMode := false } st1 with ⟨ok2, s2, st2⟩
      have i2 := handle_command_inv (c.length + 1) { s1 with rawMode := false } st1
      rw [h2] at i2
      simpa using i2.1.trans i1.1
  · rcases h2 : handle_command (c.length + 1) s c with ⟨ok2, s2, st2⟩
    have i2 := handle_command_inv (c.length + 1) s c
    rw [h2] at i2
    exact i2.1

theorem digest_error_not_cleared (s : IMAPResponse) (c : List Char) :
    (digest s c).2.error = false → s.error = false := by
  simp only [digest]
  split
  · rcases h1 : handle_raw (c.length + 1) s c with ⟨ok, s1, st1⟩
    have i1 := handle_raw_inv (c.length + 1) s c
    rw [h1] at i1
    split
    · exact i1.2.2
    · rcases h2 : handle_command (c.length + 1) { s1 with rawMode := false } st1 with ⟨ok2, s2, st2⟩
      have i2 := handle_command_inv (c.length + 1) { s1 with rawMode := false } st1
      rw [h2] at i2
      intro h
      exact i1.2.2 (by simpa using i2.2.1 h)
  · rcases h2 : handle_command (c.length + 1) s c with ⟨ok2, s2, st2⟩
    have i2 := handle_command_inv (c.length + 1) s c
    rw [h2] at i2
    exact i2.2.1

theorem digest_tagged_needmore (s : IMAPResponse) (c : List Char) :
    (digest s c).1 = false → (digest s c).2.tagged = s.tagged := by
  simp only [digest]
  split
  · rcases h1 : handle_raw (c.length + 1) s c with ⟨ok, s1, st1⟩
    have i1 := handle_raw_inv (c.length + 1) s c
    rw [h1] at i1
    split
    · intro _
      exact i1.2.1
    · rcases h2 : handle_command (c.length + 1) { s1 with rawMode := false } st1 with ⟨ok2, s2, st2⟩
      have i2 := handle_command_inv (c.length + 1) { s1 with rawMode := false } st1
      rw [h2] at i2
      intro h
      simp only at h
      rw [show s2.tagged = s1.tagged from by simpa using i2.2.2.1 (by simpa using h)]
      exact i1.2.1
  · rcases h2 : handle_command (c.length + 1) s c with ⟨ok2, s2, st2⟩
    have i2 := handle_command_inv (c.length + 1) s c
    rw [h2] at i2
    intro h
    exact i2.2.2.1 (by simpa using h)

theorem digest_tagged_complete (s : IMAPResponse) (c : List Char) :
    (digest s c).1 = true → s.tag ≠ CONNECT_TAG →
    ∃ x, (digest s c).2.tagged = s.tagged ++ [x] := by
  simp only [digest]
  split
  · rcases h1 : handle_raw (c.length + 1) s c with ⟨ok, s1, st1⟩
    have i1 := handle_raw_inv (c.length + 1) s c
    rw [h1] at i1
    split
    · intro h
      exact absurd h (by simp)
    · rcases h2 : handle_command (c.length + 1) { s1 with rawMode := false } st1 with ⟨ok2, s2, st2⟩
      have i2 := handle_command_inv (c.length + 1) { s1 with rawMode := false } st1
      rw [h2] at i2
      intro h hne
      have : s1.tag ≠ CONNECT_TAG := by
        rw [i1.1]
        exact hne
      rcases i2.2.2.2 (by simpa using h) (by simpa using this) with ⟨x, hx⟩
      refine ⟨x, ?_⟩
      simp only
      rw [show s2.tagged = s1.tagged ++ [x] from by simpa using hx, i1.2.1]
  · rcases h2 : handle_command (c.length + 1) s c with ⟨ok2, s2, st2⟩
    have i2 := handle_command_inv (c.length + 1) s c
    rw [h2] at i2
    intro h hne
    exact i2.2.2.2 (by simpa using h) hne
theorem feed_tagged_complete (cs : List (List Char)) :
    ∀ (s : IMAPResponse) (c : List Char), s.tag ≠ CONNECT_TAG →
      IntermediateIncomplete s c cs → (feed s c cs).1 = true →
      ∃ x, (feed s c cs).2.tagged = s.tagged ++ [x] := by
  induction cs with
  | nil =>
    intro s c hne _ htrue
    exact digest_tagged_complete s c htrue hne
  | cons c2 cs ih =>
    intro s c hne hinc htrue
    rcases hinc with ⟨hf, hrest⟩
    have htag : (digest s c).2.tag = s.tag := digest_tag s c
    rcases ih (digest s c).2 c2 (by rw [htag]; exact hne) hrest
        (by simpa [feed] using htrue) with ⟨x, hx⟩
    refine ⟨x, ?_⟩
    have hpres := digest_tagged_needmore s c hf
    simpa [feed, hpres] using hx

/-! ## C6 — the error flag -/

/-- C6 (amended): the `error` flag is sticky in the sense that no later
`digest` call ever clears it: from any accumulator state with the flag
set, any further `digest` call leaves the flag set. (As the
counterexample shows, such a call still consumes input and can extend
the result lists, so the original claim's "consumes no further input"
part does not hold of the code.) -/
theorem digest_error_flag_sticky (s : IMAPResponse) (c : List Char)
    (h : s.error = true) : (digest s c).2.error = true := by
  cases he : (digest s c).2.error
  · rw [digest_error_not_cleared s c he] at h
    exact h
  · rfl

/-- C6 witness: the sticky-flag theorem applied to a concretely errored
accumulator. -/
theorem digest_error_flag_sticky_witness :
    (digest (IMAPResponse.fresh "A000".data) "garbage\r\n".data).2.error = true ∧
    (digest (digest (IMAPResponse.fresh "A000".data) "garbage\r\n".data).2
      "* OK x\r\n".data).2.error = true :=
  ⟨by decide, digest_error_flag_sticky _ _ (by decide)⟩

/-- C6 counterexample: `digest` never tests the error flag, so a call on
an errored accumulator still consumes the new chunk and appends to the
untagged list, refuting "no further input is consumed and the lists are
unchanged". -/
theorem digest_after_error_consumes :
    (digest (IMAPResponse.fresh "A000".data) "garbage\r\n".data).2.error = true ∧
    (digest (digest (IMAPResponse.fresh "A000".data) "garbage\r\n".data).2
        "* OK hello\r\n".data).2.untagged ≠
      (digest (IMAPResponse.fresh "A000".data) "garbage\r\n".data).2.untagged := by
  decide

/-! ## C4 — the LOGIN handler -/

/-- C4 (amended): the LOGIN handler requires exactly one tagged entry
(otherwise `Unexpected`); for it, `NO` yields a `Login` error with the
line's message, `BAD` yields `BadCommand`, and every other code — not
only `OK` — yields success. -/
theorem login_handler_triage (resp : IMAPResponse) :
    (resp.tagged.length ≠ 1 →
      imap_handle_login resp = .error .E_UNEXPECTED msgUnexpectedTagged) ∧
    ∀ ty msg, resp.tagged = [(ty, msg)] →
      (ty = RCode.NO → imap_handle_login resp = .error .E_LOGIN msg) ∧
      (ty = RCode.BAD → imap_handle_login resp = .error .E_BADCOMMAND msg) ∧
      (ty ≠ RCode.NO → ty ≠ RCode.BAD → imap_handle_login resp = .success) := by
  constructor
  · intro hlen
    rcases hr : resp.tagged with _ | ⟨t0, ts⟩
    · simp only [imap_handle_login, hr]
    · rcases ts with _ | ⟨t1, ts⟩
      · exact absurd (by rw [hr]; rfl) hlen
      · simp only [imap_handle_login, hr]
  · intro ty msg hr
    simp only [imap_handle_login, hr]
    refine ⟨?_, ?_, ?_⟩
    · intro h
      rw [if_pos h]
    · intro h
      subst h
      rfl
    · intro hno hbad
      rw [if_neg hno, if_neg hbad]

/-- C4 witness: a `NO` reply to LOGIN produces the `Login` error with the
server's message. -/
theorem login_handler_triage_witness :
    imap_handle_login
        { tag := "A000".data, tagged := [(RCode.NO, "bad credentials".data)] } =
      .error .E_LOGIN "bad credentials".data :=
  ((login_handler_triage _).2 RCode.NO "bad credentials".data (by decide)).1 rfl

/-- C4 counterexample: a tagged code that is neither `OK`, `NO` nor `BAD`
(here `PREAUTH`) makes the handler fire the success callback, not an
`Unexpected` error as claimed. -/
theorem login_handler_other_code_succeeds :
    imap_handle_login { tag := "A000".data, tagged := [(RCode.PREAUTH, "x".data)] } =
        .success ∧
      imap_handle_login { tag := "A000".data, tagged := [(RCode.PREAUTH, "x".data)] } ≠
        .error .E_UNEXPECTED msgUnexpectedTagged := by
  decide

/-! ## C9 — the tag generator -/

theorem afterCalls_idx (L : Char) (k : Nat) :
    (TagGenerator.afterCalls { tag := L } k).idx = k % 1000 ∧
    (TagGenerator.afterCalls { tag := L } k).tag = L := by
  induction k with
  | zero => exact ⟨rfl, rfl⟩
  | succ k ih =>
    rcases ih with ⟨hidx, htag⟩
    constructor
    · simp only [TagGenerator.afterCalls, TagGenerator.generate, MAX_TAG_INDEX]
      rw [hidx]
      split
      · omega
      · omega
    · simp only [TagGenerator.afterCalls, TagGenerator.generate]
      exact htag

set_option maxRecDepth 4000 in
theorem pad3_length : ∀ m < 1000, (padLeft (decimalRepr m) 3 '0').length = 3 := by
  decide

/-- C9: starting from a fresh generator with letter `L`, the `k`-th call
to `generate` returns `L` followed by the zero-padded three-digit decimal
representation of `k mod 1000`; the index after `k` calls is `k mod 1000`
and each call advances it by one modulo 1000 (wrapping past 999);
`label` returns `L` followed by `XXX`. -/
theorem tag_generator_sequence (L : Char) (k : Nat) :
    (TagGenerator.afterCalls { tag := L } k).generate.1 =
      L :: padLeft (decimalRepr (k % 1000)) 3 '0' ∧
    (padLeft (decimalRepr (k % 1000)) 3 '0').length = 3 ∧
    (TagGenerator.afterCalls { tag := L } k).idx = k % 1000 ∧
    (TagGenerator.afterCalls { tag := L } (k + 1)).idx =
      ((TagGenerator.afterCalls { tag := L } k).idx + 1) % 1000 ∧
    (TagGenerator.afterCalls { tag := L } k).label = L :: "XXX".data := by
  rcases afterCalls_idx L k with ⟨hidx, htag⟩
  rcases afterCalls_idx L (k + 1) with ⟨hidx1, _⟩
  refine ⟨?_, ?_, hidx, ?_, ?_⟩
  · simp only [TagGenerator.generate]
    rw [hidx, htag]
  · exact pad3_length (k % 1000) (Nat.mod_lt k (by norm_num))
  · rw [hidx1, hidx]
    omega
  · simp only [TagGenerator.label]
    rw [htag]

/-! ## C8 — commands while disconnected -/

/-- C8: every command method invoked while the connection state is
`S_DISCONNECT` fails with `E_NOTCONNECTED`: no queue entry is appended,
no tag is generated, no callback is registered and no bytes are written;
only the recorded error (and the `error_occurred` emission) change. -/
theorem disconnected_command_rejected (s : ClientState)
    (user pass path pat mailbox : List Char) (crit : Criteria)
    (i range : Nat) (field : FetchField)
    (h : s.status = Status.S_DISCONNECT) :
    clientLogin s user pass = trig_error s .E_NOTCONNECTED msgNotEstablished ∧
    clientLogout s = trig_error s .E_NOTCONNECTED msgNotEstablished ∧
    clientList s path pat = trig_error s .E_NOTCONNECTED msgNotEstablished ∧
    clientSelect s mailbox = trig_error s .E_NOTCONNECTED msgNotEstablished ∧
    clientNoop s = trig_error s .E_NOTCONNECTED msgNotEstablished ∧
    clientSearch s crit = trig_error s .E_NOTCONNECTED msgNotEstablished ∧
    clientFetch s i field range = trig_error s .E_NOTCONNECTED msgNotEstablished ∧
    (trig_error s .E_NOTCONNECTED msgNotEstablished).resp = s.resp ∧
    (trig_error s .E_NOTCONNECTED msgNotEstablished).tags = s.tags ∧
    (trig_error s .E_NOTCONNECTED msgNotEstablished).respCallback = s.respCallback ∧
    (trig_error s .E_NOTCONNECTED msgNotEstablished).written = s.written ∧
    (trig_error s .E_NOTCONNECTED msgNotEstablished).status = s.status ∧
    (trig_error s .E_NOTCONNECTED msgNotEstablished).error = .E_NOTCONNECTED := by
  refine ⟨?_, ?_, ?_, ?_, ?_, ?_, ?_, rfl, rfl, rfl, rfl, rfl, rfl⟩
  · simp [clientLogin, request, h]
  · simp [clientLogout, request, h]
  · simp [clientList, request, h]
  · simp [clientSelect, request, h]
  · simp [clientNoop, request, h]
  · simp [clientSearch, request, h]
  · simp [clientFetch, request, h]

/-- C8 witness: a concrete disconnected client rejecting LIST. -/
theorem disconnected_command_rejected_witness :
    clientList { status := .S_DISCONNECT, tags := { tag := 'A' } } "\"\"".data "*".data =
      trig_error { status := .S_DISCONNECT, tags := { tag := 'A' } }
        .E_NOTCONNECTED msgNotEstablished :=
  (disconnected_command_rejected { status := .S_DISCONNECT, tags := { tag := 'A' } }
    [] [] "\"\"".data "*".data [] Criteria.ALL 1 1 FetchField.TEXT rfl).2.2.1

/-! ## C7 — FETCH command construction -/

/-- C7 (amended): `IMAP::fetch(id, field, range)` on a client that is
not disconnected writes exactly `<tag> FETCH <range> <token>\r\n`: the
range part is the id alone when `range ≤ 1` and `id:id+range-1`
otherwise, and the command carries the single `FETCH_FIELD` token of
the one field argument — no parentheses and no per-set-bit
concatenation of tokens. -/
theorem fetch_command_text (s : ClientState) (i range : Nat) (field : FetchField)
    (h : s.status ≠ Status.S_DISCONNECT) :
    (clientFetch s i field range).written =
      s.written ++ (s.tags.generate.1 ++ [' '] ++
        ("FETCH ".data ++
          (if range ≤ 1 then decimalRepr i
           else decimalRepr i ++ [':'] ++ decimalRepr (i + range - 1)) ++
          [' '] ++ FETCH_FIELD field) ++ CRLF) := by
  simp only [clientFetch, request, fetchRange]
  rw [if_neg h]
  split <;> simp

/-- C7 witness: a connected client fetching ids 3 to 6 with the TEXT
field. -/
theorem fetch_command_text_witness :
    (clientFetch { status := .S_CONNECT, tags := { tag := 'A' } } 3 FetchField.TEXT 4).written =
      [] ++ (({ tag := 'A' } : TagGenerator).generate.1 ++ [' '] ++
        ("FETCH ".data ++
          (if (4 : Nat) ≤ 1 then decimalRepr 3
           else decimalRepr 3 ++ [':'] ++ decimalRepr (3 + 4 - 1)) ++
          [' '] ++ FETCH_FIELD FetchField.TEXT) ++ CRLF) :=
  fetch_command_text { status := .S_CONNECT, tags := { tag := 'A' } } 3 4 FetchField.TEXT
    (by decide)

/-- C7 counterexample: the claimed `FETCH <range> (<tokens>)`
construction (one token per set bit, each with a trailing space, inside
parentheses) is not what the code writes. For a TEXT fetch of id 3 the
client writes `A000 FETCH 3 BODY[1]\r\n`, while the claimed command
text for the TEXT bit is `FETCH 3 (BODY[1] )`; the two texts differ. -/
theorem fetch_claim_text_differs :
    (clientFetch { status := .S_CONNECT, tags := { tag := 'A' } } 3 FetchField.TEXT 1).written =
      "A000 FETCH 3 BODY[1]\r\n".data ∧
    claimFetchCmd 3 (FetchField.bit .TEXT) 1 = "FETCH 3 (BODY[1] )".data ∧
    (clientFetch { status := .S_CONNECT, tags := { tag := 'A' } } 3 FetchField.TEXT 1).written ≠
      [] ++ ("A000".data ++ [' '] ++ claimFetchCmd 3 (FetchField.bit .TEXT) 1 ++ CRLF) := by
  refine ⟨by decide, by decide, by decide⟩

/-! ## C10 — callback discipline of the ready-read dispatch -/

theorem count_append_erase (l f : List (List Char)) (a t : List Char)
    (ha : a ∈ l) (h : f.count t + l.count t ≤ 1) :
    (f ++ [a]).count t + (l.erase a).count t ≤ 1 := by
  by_cases ht : t = a
  · subst ht
    have hpos : 0 < l.count t := List.count_pos_iff.mpr ha
    have hcf : f.count t = 0 := by omega
    have hcl : l.count t = 1 := by omega
    rw [List.count_append, hcf, List.count_erase_self, hcl]
    simp
  · rw [List.count_append]
    have h1 : List.count t ([a] : List (List Char)) = 0 := by
      simp [List.count_cons, ht]
    rw [h1, List.count_erase_of_ne ht]
    omega

theorem onReadyRead_count (H : Command → IMAPResponse → Bool) (st : EngineState)
    (bytes : List Char) (t : List Char)
    (h : st.fired.count t + st.cbs.count t ≤ 1) :
    (onReadyRead H st bytes).fired.count t + (onReadyRead H st bytes).cbs.count t ≤ 1 := by
  rcases hr : st.resp with _ | ⟨p, rest⟩
  · simp only [onReadyRead, hr]
    exact h
  · simp only [onReadyRead, hr]
    by_cases h1 : (digest p.resp bytes).1 = false
    · rw [if_pos h1]
      by_cases h2 : (digest p.resp bytes).2.error = true
      · rw [if_pos h2]
        exact h
      · rw [if_neg h2]
        exact h
    · rw [if_neg h1]
      by_cases h3 : H p.ty (digest p.resp bytes).2 = true
      · rw [if_pos h3]
        by_cases h4 : (digest p.resp bytes).2.tag ∈ st.cbs
        · rw [if_pos h4]
          exact count_append_erase st.cbs st.fired (digest p.resp bytes).2.tag t h4 h
        · rw [if_neg h4]
          exact h
      · rw [if_neg h3]
        exact h

theorem onDisconnected_count (st : EngineState) (t : List Char)
    (h : st.fired.count t + st.cbs.count t ≤ 1) :
    (onDisconnected st).fired.count t + (onDisconnected st).cbs.count t ≤ 1 := by
  simp only [onDisconnected]
  by_cases h4 : "DISCONNECT".data ∈ st.cbs
  · rw [if_pos h4]
    exact count_append_erase st.cbs st.fired "DISCONNECT".data t h4 h
  · rw [if_neg h4]
    exact h

theorem engineStep_count (H : Command → IMAPResponse → Bool) (st : EngineState)
    (e : IMAPEvent) (t : List Char)
    (h : st.fired.count t + st.cbs.count t ≤ 1) :
    (engineStep H st e).fired.count t + (engineStep H st e).cbs.count t ≤ 1 := by
  cases e with
  | readyRead bytes =>
    simp only [engineStep]
    by_cases hc : st.connected = true
    · rw [if_pos hc]
      exact onReadyRead_count H st bytes t h
    · rw [if_neg hc]
      exact h
  | sockError => exact h
  | disconnected =>
    simp only [engineStep]
    by_cases hc : st.connected = true
    · rw [if_pos hc]
      exact onDisconnected_count st t h
    · rw [if_neg hc]
      exact h

theorem engineRun_count (H : Command → IMAPResponse → Bool) (t : List Char) :
    ∀ (tr : List IMAPEvent) (st : EngineState),
      st.fired.count t + st.cbs.count t ≤ 1 →
      (engineRun H st tr).fired.count t + (engineRun H st tr).cbs.count t ≤ 1 := by
  intro tr
  induction tr with
  | nil => intro st h; exact h
  | cons e tr ih =>
    intro st h
    exact ih (engineStep H st e) (engineStep_count H st e t h)

/-- C10 (amended): over every sequence of socket-readiness, socket-error
and close events, and for every behaviour of the response handlers, a
callback registered under a key fires at most once: only the success
continuation of `_on_ready_read` fires it, removing the key from
`_resp_callback`, and nothing re-registers it. (The callback need not
fire at all: a parse error erases the pending command and reports only
through the global `_trig_error`, the handler's error continuation is
`_trig_error` itself, and `_on_disconnected` notifies no per-command
callback — so "exactly one of its callbacks fires, exactly once" fails;
see the counterexample.) -/
theorem callback_at_most_once (H : Command → IMAPResponse → Bool)
    (st : EngineState) (t : List Char) (tr : List IMAPEvent)
    (h : st.fired.count t + st.cbs.count t ≤ 1) :
    (engineRun H st tr).fired.count t ≤ 1 :=
  le_trans (Nat.le_add_right _ _) (engineRun_count H t tr st h)

/-- C10 witness: a command whose response completes and whose handler
succeeds fires its registered callback exactly once, and the bound of
the at-most-once theorem applies to it. -/
theorem callback_at_most_once_witness :
    (engineRun (fun _ _ => true)
        { resp := [⟨Command.NOOP, IMAPResponse.fresh "A000".data⟩],
          cbs := ["A000".data] }
        [IMAPEvent.readyRead "* OK x\r\nA000 OK done\r\n".data,
         IMAPEvent.disconnected]).fired = ["A000".data] ∧
    (engineRun (fun _ _ => true)
        { resp := [⟨Command.NOOP, IMAPResponse.fresh "A000".data⟩],
          cbs := ["A000".data] }
        [IMAPEvent.readyRead "* OK x\r\nA000 OK done\r\n".data,
         IMAPEvent.disconnected]).fired.count "A000".data ≤ 1 :=
  ⟨by decide,
   callback_at_most_once (fun _ _ => true)
     { resp := [⟨Command.NOOP, IMAPResponse.fresh "A000".data⟩],
       cbs := ["A000".data] }
     "A000".data
     [IMAPEvent.readyRead "* OK x\r\nA000 OK done\r\n".data,
      IMAPEvent.disconnected]
     (by decide)⟩

/-- C10 counterexample: a submitted command whose callback never fires.
The command is pending with its callback registered; the socket delivers
an unparseable response, so `_on_ready_read` sets the accumulator's
error flag, reports `E_PARSE` through the global `_trig_error` and
erases the entry without touching `_resp_callback`; the transport then
closes, and `_on_disconnected` notifies no per-command callback. No
callback of the command ever fires, refuting "exactly one of its
callbacks fires, exactly once". -/
theorem callback_never_fires_on_parse_error :
    "A000".data ∈ ({ resp := [⟨Command.NOOP, IMAPResponse.fresh "A000".data⟩],
                     cbs := ["A000".data] } : EngineState).cbs ∧
    (engineRun (fun _ _ => true)
        { resp := [⟨Command.NOOP, IMAPResponse.fresh "A000".data⟩],
          cbs := ["A000".data] }
        [IMAPEvent.readyRead "garbage\r\n".data, IMAPEvent.disconnected]).fired = [] ∧
    (engineRun (fun _ _ => true)
        { resp := [⟨Command.NOOP, IMAPResponse.fresh "A000".data⟩],
          cbs := ["A000".data] }
        [IMAPEvent.readyRead "garbage\r\n".data, IMAPEvent.disconnected]).resp = [] ∧
    (engineRun (fun _ _ => true)
        { resp := [⟨Command.NOOP, IMAPResponse.fresh "A000".data⟩],
          cbs := ["A000".data] }
        [IMAPEvent.readyRead "garbage\r\n".data, IMAPEvent.disconnected]).connected = false := by
  refine ⟨by decide, by decide, by decide, by decide⟩
/-! ## Stream-shape lemmas -/

theorem takeWhile_append_all {p : Char → Bool} (a b : List Char)
    (h : ∀ c ∈ a, p c = true) : (a ++ b).takeWhile p = a ++ b.takeWhile p := by
  induction a with
  | nil => rfl
  | cons c a ih =>
    simp only [List.cons_append, List.takeWhile_cons, h c (by simp)]
    simp [ih (fun x hx => h x (by simp [hx]))]

theorem dropWhile_append_all {p : Char → Bool} (a b : List Char)
    (h : ∀ c ∈ a, p c = true) : (a ++ b).dropWhile p = b.dropWhile p := by
  induction a with
  | nil => rfl
  | cons c a ih =>
    simp only [List.cons_append, List.dropWhile_cons, h c (by simp)]
    exact ih (fun x hx => h x (by simp [hx]))

theorem takeWhile_all {p : Char → Bool} (a : List Char) (h : ∀ c ∈ a, p c = true) :
    a.takeWhile p = a := by
  have := takeWhile_append_all a [] h
  simpa using this

theorem dropWhile_head_false {p : Char → Bool} (c : Char) (l : List Char)
    (h : p c = false) : (c :: l).dropWhile p = c :: l := by
  simp [List.dropWhile_cons, h]

theorem dropWhile_append_stable {p : Char → Bool} (a b : List Char) (hne : a ≠ [])
    (h : a.dropWhile p = a) : (a ++ b).dropWhile p = a ++ b := by
  rcases a with _ | ⟨c, a⟩
  · exact absurd rfl hne
  · have hc : p c = false := by
      have := List.dropWhile_eq_self_iff.mp h (by simp)
      simpa using this
    simp [List.dropWhile_cons, hc]

theorem qReadLine_append (a b : List Char) (h : ∀ c ∈ a, c ≠ '\n') :
    qReadLine (a ++ '\n' :: b) = (a ++ ['\n'], b) := by
  induction a with
  | nil => simp [qReadLine]
  | cons c a ih =>
    have hc : c ≠ '\n' := h c (by simp)
    simp only [List.cons_append, qReadLine, if_neg hc, List.append_eq]
    rw [ih (fun x hx => h x (by simp [hx]))]

theorem qReadLine_no_nl (a : List Char) (h : ∀ c ∈ a, c ≠ '\n') :
    qReadLine a = (a, []) := by
  induction a with
  | nil => rfl
  | cons c a ih =>
    have hc : c ≠ '\n' := h c (by simp)
    simp only [qReadLine, if_neg hc]
    rw [ih (fun x hx => h x (by simp [hx]))]

theorem endsCRLF_append (a : List Char) : endsCRLF (a ++ ['\r', '\n']) = true := by
  simp [endsCRLF, List.isSuffixOf, List.isPrefixOf]

theorem scanFirst_cons {α : Type} (f : List Char → Option α) (c : Char) (l : List Char) :
    scanFirst f (c :: l) = match f (c :: l) with
      | some r => some r
      | none => scanFirst f l := rfl

/-! ## C3 — the SELECT scenario -/

set_option maxRecDepth 20000 in
/-- C3: digesting the SELECT response
`* FLAGS (\Answered \Seen)`, `* 12 EXISTS`, `* 3 RECENT`,
`* OK [UNSEEN 5] first unseen`, `* OK [UIDVALIDITY 1234] uid valid`,
`* OK [PERMANENTFLAGS (\Seen)] perm`, `A002 OK [READ-WRITE] SELECT done`
reports complete, and the SELECT handler fires the success callback with
exactly `{exists:12, recent:3, unseen:5, uidvalidity:1234,
flags:[Answered, Seen], permanent_flags:[Seen],
permission:READ-WRITE}`. -/
theorem select_scenario_result :
    (digest (IMAPResponse.fresh "A002".data)
        ("* FLAGS (\\Answered \\Seen)\r\n* 12 EXISTS\r\n* 3 RECENT\r\n* OK [UNSEEN 5] first unseen\r\n* OK [UIDVALIDITY 1234] uid valid\r\n* OK [PERMANENTFLAGS (\\Seen)] perm\r\nA002 OK [READ-WRITE] SELECT done\r\n").data).1 =
      true ∧
    imap_handle_select (digest (IMAPResponse.fresh "A002".data)
        ("* FLAGS (\\Answered \\Seen)\r\n* 12 EXISTS\r\n* 3 RECENT\r\n* OK [UNSEEN 5] first unseen\r\n* OK [UIDVALIDITY 1234] uid valid\r\n* OK [PERMANENTFLAGS (\\Seen)] perm\r\nA002 OK [READ-WRITE] SELECT done\r\n").data).2 =
      .success { exists_ := 12, recent := 3, unseen := 5, uidvalidity := 1234,
                 flags := ["Answered".data, "Seen".data],
                 permanent_flags := ["Seen".data],
                 permission := "READ-WRITE".data } := by
  decide

theorem typeChar_props (c : Char) (h : isTypeChar c = true) :
    c ≠ '\n' ∧ c ≠ '*' ∧ c ≠ '\r' ∧ isDigitC c = false ∧ isWSpace c = false := by
  refine ⟨?_, ?_, ?_, ?_, ?_⟩
  · intro hc
    rw [hc] at h
    exact absurd h (by decide)
  · intro hc
    rw [hc] at h
    exact absurd h (by decide)
  · intro hc
    rw [hc] at h
    exact absurd h (by decide)
  · simp [isTypeChar, isUpperAZ] at h
    simp [isDigitC]
    intro h0
    rcases h with ⟨h1, h2⟩ | h3
    · exact lt_of_lt_of_le (by decide : ('9' : Char) < 'A') h1
    · subst h3
      exact absurd h0 (by decide)
  · simp [isTypeChar, isUpperAZ] at h
    rcases h with ⟨h1, h2⟩ | h3
    · apply Bool.eq_false_iff.mpr
      intro hw
      simp [isWSpace] at hw
      rcases hw with (((((hc | hc) | hc) | hc) | hc) | hc) <;> (try subst hc) <;>
        exact absurd h1 (by decide)
    · subst h3
      decide

theorem scanFirst_none_no_star {α : Type} (f : List Char → Option α)
    (hnil : f [] = none) (hcons : ∀ c l, c ≠ '*' → f (c :: l) = none) :
    ∀ l, (∀ c ∈ l, c ≠ '*') → scanFirst f l = none := by
  intro l
  induction l with
  | nil => intro _; exact hnil
  | cons c rest ih =>
    intro h
    rw [scanFirst_cons, hcons c rest (h c (by simp))]
    exact ih (fun x hx => h x (by simp [hx]))

theorem untaggedFetchMatchAt_not_star (c : Char) (l : List Char) (h : c ≠ '*') :
    untaggedFetchMatchAt (c :: l) = none := by
  rw [untaggedFetchMatchAt.eq_def]
  split
  · rename_i heq
    rw [List.cons.injEq] at heq
    exact absurd heq.1 h
  · rfl

theorem qTrim_wsfree_tail (a w : List Char) (c0 : Char) (a0 : List Char)
    (ha : a = c0 :: a0) (h0 : isWSpace c0 = false)
    (hw : ∀ c ∈ w, isWSpace c = true)
    (hb : a.reverse.dropWhile isWSpace = a.reverse) :
    qTrim (a ++ w) = a := by
  subst ha
  have hfront : List.dropWhile isWSpace ((c0 :: a0) ++ w) = (c0 :: a0) ++ w := by
    simp [List.dropWhile_cons, h0]
  have hrev : ((c0 :: a0) ++ w).reverse = w.reverse ++ (c0 :: a0).reverse := by
    simp
  simp only [qTrim]
  rw [hfront, hrev]
  rw [dropWhile_append_all w.reverse _ (fun c hc => hw c (by simpa using hc))]
  rw [hb]
  exact List.reverse_reverse _

theorem untagged_greeting_match (T d : List Char) (hT : T ≠ [])
    (hTc : ∀ c ∈ T, isTypeChar c = true) (hd : ∀ c ∈ d, c ≠ '\n' ∧ c ≠ '*') :
    untaggedFetchMatch ('*' :: ' ' :: (T ++ ' ' :: d)) = none ∧
    untaggedMatch ('*' :: ' ' :: (T ++ ' ' :: d)) = some (T, some d) ∧
    untaggedFetchMatch ('*' :: ' ' :: T) = none ∧
    untaggedMatch ('*' :: ' ' :: T) = some (T, none) := by
  rcases hT0 : T with _ | ⟨T0, T1⟩
  · exact absurd hT0 hT
  · rw [← hT0]
    have hT0c : isTypeChar T0 = true := hTc T0 (by rw [hT0]; simp)
    have hdig : isDigitC T0 = false := (typeChar_props T0 hT0c).2.2.2.1
    have hfetchAt : ∀ t : List Char, untaggedFetchMatchAt ('*' :: ' ' :: (T ++ t)) = none := by
      intro t
      rw [hT0]
      simp only [untaggedFetchMatchAt, List.cons_append, List.takeWhile_cons, hdig]
      simp
    have hnostar : ∀ l : List Char, (∀ c ∈ l, c ≠ '*') →
        scanFirst untaggedFetchMatchAt l = none :=
      scanFirst_none_no_star untaggedFetchMatchAt rfl untaggedFetchMatchAt_not_star
    have hTstar : ∀ c ∈ T, c ≠ '*' := fun c hc => (typeChar_props c (hTc c hc)).2.1
    have htyTakeCons : ∀ (t0 : Char) (t1 : List Char), isTypeChar t0 = false →
        (T ++ t0 :: t1).takeWhile isTypeChar = T := by
      intro t0 t1 ht
      rw [takeWhile_append_all T _ hTc]
      simp [List.takeWhile_cons, ht]
    have htyDropCons : ∀ (t0 : Char) (t1 : List Char), isTypeChar t0 = false →
        (T ++ t0 :: t1).dropWhile isTypeChar = t0 :: t1 := by
      intro t0 t1 ht
      rw [dropWhile_append_all T _ hTc]
      simp [List.dropWhile_cons, ht]
    refine ⟨?_, ?_, ?_, ?_⟩
    · show scanFirst untaggedFetchMatchAt _ = none
      rw [scanFirst_cons, hfetchAt (' ' :: d)]
      apply hnostar
      intro c hc
      simp at hc
      rcases hc with hc | hc | hc | hc
      · subst hc
        decide
      · exact hTstar c hc
      · subst hc
        decide
      · exact (hd c hc).2
    · show scanFirst untaggedMatchAt _ = some (T, some d)
      rw [scanFirst_cons]
      have hAt : untaggedMatchAt ('*' :: ' ' :: (T ++ ' ' :: d)) = some (T, some d) := by
        simp only [untaggedMatchAt]
        rw [htyTakeCons ' ' d (by decide), htyDropCons ' ' d (by decide)]
        rw [if_pos hT]
        show some (T, some (List.takeWhile (fun ch => decide (ch ≠ '\n')) d)) =
          some (T, some d)
        rw [takeWhile_all d (fun c hc => by simp [(hd c hc).1])]
      rw [hAt]
    · show scanFirst untaggedFetchMatchAt _ = none
      have h0 : '*' :: ' ' :: T = '*' :: ' ' :: (T ++ []) := by simp
      rw [h0, scanFirst_cons, hfetchAt []]
      apply hnostar
      intro c hc
      simp at hc
      rcases hc with hc | hc
      · subst hc
        decide
      · exact hTstar c hc
    · show scanFirst untaggedMatchAt _ = some (T, none)
      rw [scanFirst_cons]
      have hAt : untaggedMatchAt ('*' :: ' ' :: T) = some (T, none) := by
        simp only [untaggedMatchAt]
        rw [takeWhile_all T hTc, if_pos hT]
        have hdropT : T.dropWhile isTypeChar = [] := by
          have := dropWhile_append_all T [] hTc
          simpa using this
        rw [hdropT]
      rw [hAt]

theorem handle_command_connect_step (f : Nat) (s : IMAPResponse) (st : List Char)
    (s1 s2 : IMAPResponse) (st1 st2 : List Char)
    (h1 : read_line_to_buffer s st = (true, s1, st1))
    (hhead : headIs s1.buffer '*' = true)
    (htag : s1.tag = CONNECT_TAG)
    (h2 : handle_untagged f s1 (qTrim s1.buffer) st1 = (true, s2, st2)) :
    handle_command (f + 1) s st = (true, s2, st2) := by
  simp only [handle_command, h1, hhead, h2, htag]
  simp

theorem digest_eq_handle_command (s : IMAPResponse) (data : List Char)
    (h : s.rawMode = false) :
    digest s data = ((handle_command (data.length + 1) s data).1,
      (handle_command (data.length + 1) s data).2.1) := by
  simp only [digest, h]
  simp

set_option maxHeartbeats 1000000 in
theorem connect_greeting_digest (T d rest : List Char) (hT : T ≠ [])
    (hTc : ∀ c ∈ T, isTypeChar c = true)
    (hd : ∀ c ∈ d, c ≠ '\n' ∧ c ≠ '*')
    (hdr : d.reverse.dropWhile isWSpace = d.reverse) :
    digest (IMAPResponse.fresh CONNECT_TAG)
        (('*' :: ' ' :: (T ++ ' ' :: (d ++ ['\r', '\n']))) ++ rest) =
      (true, { tag := CONNECT_TAG,
               buffer := '*' :: ' ' :: (T ++ ' ' :: (d ++ ['\r', '\n'])),
               untagged := [(enumValue T, d)] }) := by
  rcases hT0 : T with _ | ⟨T0, T1⟩
  · exact absurd hT0 hT
  rw [← hT0]
  have hql : qReadLine (('*' :: ' ' :: (T ++ ' ' :: (d ++ ['\r', '\n']))) ++ rest) =
      ('*' :: ' ' :: (T ++ ' ' :: (d ++ ['\r', '\n'])), rest) := by
    have hshape : ('*' :: ' ' :: (T ++ ' ' :: (d ++ ['\r', '\n']))) ++ rest =
        ('*' :: ' ' :: (T ++ ' ' :: (d ++ ['\r']))) ++ '\n' :: rest := by
      simp
    rw [hshape]
    rw [qReadLine_append _ rest ?hno]
    case hno =>
      intro c hc
      rcases List.mem_cons.mp hc with hc | hc
      · subst hc
        decide
      rcases List.mem_cons.mp hc with hc | hc
      · subst hc
        decide
      rcases List.mem_append.mp hc with hc | hc
      · exact (typeChar_props c (hTc c hc)).1
      rcases List.mem_cons.mp hc with hc | hc
      · subst hc
        decide
      rcases List.mem_append.mp hc with hc | hc
      · exact (hd c hc).1
      rcases List.mem_cons.mp hc with hc | hc
      · subst hc
        decide
      · cases hc
    simp
  have hends : endsCRLF ('*' :: ' ' :: (T ++ ' ' :: (d ++ ['\r', '\n']))) = true := by
    have hLA : '*' :: ' ' :: (T ++ ' ' :: (d ++ ['\r', '\n'])) =
        ('*' :: ' ' :: (T ++ ' ' :: d)) ++ ['\r', '\n'] := by
      simp
    rw [hLA]
    exact endsCRLF_append _
  have hrl : read_line_to_buffer (IMAPResponse.fresh CONNECT_TAG)
      (('*' :: ' ' :: (T ++ ' ' :: (d ++ ['\r', '\n']))) ++ rest) =
      (true, { IMAPResponse.fresh CONNECT_TAG with
                 buffer := '*' :: ' ' :: (T ++ ' ' :: (d ++ ['\r', '\n'])) }, rest) := by
    simp only [read_line_to_buffer, hql]
    simp [IMAPResponse.fresh, hends, show endsCRLF ['\r', '\n'] = true from by decide]
  have hmatch := untagged_greeting_match T d hT hTc hd
  have htrim : qTrim ('*' :: ' ' :: (T ++ ' ' :: (d ++ ['\r', '\n']))) =
      (if d = [] then '*' :: ' ' :: T else '*' :: ' ' :: (T ++ ' ' :: d)) := by
    rcases hd0 : d with _ | ⟨d0, d1⟩
    · rw [if_pos rfl]
      have hLA : '*' :: ' ' :: (T ++ ' ' :: (([] : List Char) ++ ['\r', '\n'])) =
          ('*' :: ' ' :: T) ++ [' ', '\r', '\n'] := by
        simp
      rw [hLA]
      apply qTrim_wsfree_tail _ _ '*' (' ' :: T) rfl (by decide)
      · intro c hc
        simp at hc
        rcases hc with rfl | rfl | rfl <;> decide
      · have hra : ('*' :: ' ' :: T).reverse = T.reverse ++ [' ', '*'] := by
          simp
        rw [hra]
        rcases hTr : T.reverse with _ | ⟨c, r⟩
        · simp at hTr
          exact absurd hTr hT
        · apply dropWhile_append_stable
          · simp
          · apply dropWhile_head_false
            have hcT : c ∈ T := by
              have hcr : c ∈ T.reverse := by rw [hTr]; simp
              simpa using hcr
            exact (typeChar_props c (hTc c hcT)).2.2.2.2
    · rw [if_neg (by simp [hd0])]
      rw [← hd0]
      have hLA : '*' :: ' ' :: (T ++ ' ' :: (d ++ ['\r', '\n'])) =
          ('*' :: ' ' :: (T ++ ' ' :: d)) ++ ['\r', '\n'] := by
        simp
      rw [hLA]
      apply qTrim_wsfree_tail _ _ '*' (' ' :: (T ++ ' ' :: d)) rfl (by decide)
      · intro c hc
        simp at hc
        rcases hc with rfl | rfl <;> decide
      · have hra : ('*' :: ' ' :: (T ++ ' ' :: d)).reverse =
            d.reverse ++ ([' '] ++ (T.reverse ++ [' ', '*'])) := by
          simp
        rw [hra]
        apply dropWhile_append_stable
        · simp [hd0]
        · exact hdr
  have hunt : handle_untagged (('*' :: ' ' :: (T ++ ' ' :: (d ++ ['\r', '\n']))) ++ rest).length
      { IMAPResponse.fresh CONNECT_TAG with
          buffer := '*' :: ' ' :: (T ++ ' ' :: (d ++ ['\r', '\n'])) }
      (qTrim ('*' :: ' ' :: (T ++ ' ' :: (d ++ ['\r', '\n'])))) rest =
      (true, { IMAPResponse.fresh CONNECT_TAG with
                 buffer := '*' :: ' ' :: (T ++ ' ' :: (d ++ ['\r', '\n'])),
                 untagged := [(enumValue T, d)] }, rest) := by
    rw [htrim]
    rcases hd0 : d with _ | ⟨d0, d1⟩
    · rw [if_pos rfl]
      simp only [handle_untagged, hmatch.2.2.1, hmatch.2.2.2]
      simp [IMAPResponse.fresh]
    · rw [if_neg (by simp [hd0])]
      rw [← hd0]
      simp only [handle_untagged, hmatch.1, hmatch.2.1]
      simp [IMAPResponse.fresh]
  have hcmd : handle_command
      ((('*' :: ' ' :: (T ++ ' ' :: (d ++ ['\r', '\n']))) ++ rest).length + 1)
      (IMAPResponse.fresh CONNECT_TAG)
      (('*' :: ' ' :: (T ++ ' ' :: (d ++ ['\r', '\n']))) ++ rest) =
      (true, { IMAPResponse.fresh CONNECT_TAG with
                 buffer := '*' :: ' ' :: (T ++ ' ' :: (d ++ ['\r', '\n'])),
                 untagged := [(enumValue T, d)] }, rest) :=
    handle_command_connect_step _ _ _ _ _ _ _ hrl rfl rfl hunt
  rw [digest_eq_handle_command _ _ rfl, hcmd]
  rfl

/-! ## C5 — one tagged entry on completion; the connect greeting -/

/-- C5 (amended): when `digest` (called repeatedly, each earlier call
returning `false`) reports complete on a fresh accumulator whose awaited
tag is not the reserved CONNECT tag, the tagged list holds exactly one
entry; and on the CONNECT accumulator a greeting line that matches the
leading untagged pattern (`* TYPE data`) completes immediately with an
empty tagged list and exactly one untagged-leading entry. (As the
counterexample shows, a first `*` line that only matches the trailing or
FETCH patterns also completes the CONNECT digest but leaves the
untagged-leading list empty, so the unconditional "exactly one
untagged-leading entry" of the original claim is false.) -/
theorem connect_and_tagged_completion (tag c : List Char) (cs : List (List Char))
    (hne : tag ≠ CONNECT_TAG)
    (hinc : IntermediateIncomplete (IMAPResponse.fresh tag) c cs)
    (htrue : (feed (IMAPResponse.fresh tag) c cs).1 = true) :
    (∃ x, (feed (IMAPResponse.fresh tag) c cs).2.tagged = [x]) ∧
    ∀ (T d rest : List Char), T ≠ [] → (∀ ch ∈ T, isTypeChar ch = true) →
      (∀ ch ∈ d, ch ≠ '\n' ∧ ch ≠ '*') →
      d.reverse.dropWhile isWSpace = d.reverse →
      digest (IMAPResponse.fresh CONNECT_TAG)
          (('*' :: ' ' :: (T ++ ' ' :: (d ++ ['\r', '\n']))) ++ rest) =
        (true, { tag := CONNECT_TAG,
                 buffer := '*' :: ' ' :: (T ++ ' ' :: (d ++ ['\r', '\n'])),
                 untagged := [(enumValue T, d)] }) := by
  constructor
  · have h := feed_tagged_complete cs (IMAPResponse.fresh tag) c
      (by simpa [IMAPResponse.fresh] using hne) hinc htrue
    simpa [IMAPResponse.fresh] using h
  · intro T d rest hT hTc hd hdr
    exact connect_greeting_digest T d rest hT hTc hd hdr

/-- C5 witness: the completion theorem applied to the single tagged line
`A000 OK done` awaited by tag `A000`, and to the CONNECT greeting
`* OK ready`. -/
theorem connect_and_tagged_completion_witness :
    "A000".data ≠ CONNECT_TAG ∧
    (feed (IMAPResponse.fresh "A000".data) "A000 OK done\r\n".data []).1 = true ∧
    (∃ x, (feed (IMAPResponse.fresh "A000".data) "A000 OK done\r\n".data []).2.tagged = [x]) ∧
    digest (IMAPResponse.fresh CONNECT_TAG)
        (('*' :: ' ' :: ("OK".data ++ ' ' :: ("ready".data ++ ['\r', '\n']))) ++ []) =
      (true, { tag := CONNECT_TAG,
               buffer := '*' :: ' ' :: ("OK".data ++ ' ' :: ("ready".data ++ ['\r', '\n'])),
               untagged := [(enumValue "OK".data, "ready".data)] }) :=
  ⟨by decide, by decide,
   (connect_and_tagged_completion "A000".data "A000 OK done\r\n".data []
      (by decide) trivial (by decide)).1,
   (connect_and_tagged_completion "A000".data "A000 OK done\r\n".data []
      (by decide) trivial (by decide)).2 "OK".data "ready".data []
      (by decide) (by decide) (by decide) (by decide)⟩

/-- C5 counterexample: the greeting line `* 12 EXISTS` only matches the
trailing untagged pattern, yet the CONNECT digest still reports complete
— with the untagged-leading list empty, refuting the original claim's
"exactly one untagged-leading entry" for every greeting. -/
theorem connect_greeting_without_leading_entry :
    (digest (IMAPResponse.fresh CONNECT_TAG) "* 12 EXISTS\r\n".data).1 = true ∧
    (digest (IMAPResponse.fresh CONNECT_TAG) "* 12 EXISTS\r\n".data).2.untagged = [] ∧
    (digest (IMAPResponse.fresh CONNECT_TAG) "* 12 EXISTS\r\n".data).2.error = false := by
  decide

/-! ## Fuel monotonicity: a successful parse is unchanged by extra fuel -/

theorem digitC_props (c : Char) (h : isDigitC c = true) :
    c ≠ '\n' ∧ isWSpace c = false := by
  simp [isDigitC] at h
  constructor
  · intro hc
    subst hc
    exact absurd h.1 (by decide)
  · apply Bool.eq_false_iff.mpr
    intro hw
    simp [isWSpace] at hw
    rcases hw with (((((hc | hc) | hc) | hc) | hc) | hc) <;> (try subst hc) <;>
      exact absurd h.1 (by decide)


theorem handle_raw_step_readfail (f : Nat) (s s1 : IMAPResponse) (st st1 : List Char)
    (hb : s.bytesToRead ≤ 0) (h1 : read_line_to_buffer s st = (false, s1, st1)) :
    handle_raw (f + 1) s st = (false, s1, st1) := by
  simp only [handle_raw, h1, if_pos hb]
  simp

theorem handle_raw_step_close (f : Nat) (s s1 : IMAPResponse) (st st1 : List Char)
    (hb : s.bytesToRead ≤ 0) (h1 : read_line_to_buffer s st = (true, s1, st1))
    (hh : headIs s1.buffer ')' = true) :
    handle_raw (f + 1) s st = (true, s1, st1) := by
  simp only [handle_raw, h1, if_pos hb, hh]
  simp

theorem handle_raw_step_metafail (f : Nat) (s s1 s2 : IMAPResponse) (st st1 : List Char)
    (hb : s.bytesToRead ≤ 0) (h1 : read_line_to_buffer s st = (true, s1, st1))
    (hh : headIs s1.buffer ')' = false)
    (h2 : handle_raw_meta s1 (qTrim s1.buffer) = (false, s2)) :
    handle_raw (f + 1) s st = (false, s2, st1) := by
  simp only [handle_raw, h1, if_pos hb, hh, h2]
  simp

theorem handle_raw_step_meta (f : Nat) (s s1 s2 s3 : IMAPResponse)
    (st st1 st3 : List Char) (more : Bool)
    (hb : s.bytesToRead ≤ 0) (h1 : read_line_to_buffer s st = (true, s1, st1))
    (hh : headIs s1.buffer ')' = false)
    (h2 : handle_raw_meta s1 (qTrim s1.buffer) = (true, s2))
    (h3 : rawReadStep s2 st1 = (s3, st3, more)) :
    handle_raw (f + 1) s st = if more then (false, s3, st3) else handle_raw f s3 st3 := by
  simp only [handle_raw, h1, if_pos hb, hh, h2, h3]
  simp

theorem handle_raw_step_read (f : Nat) (s s3 : IMAPResponse) (st st3 : List Char)
    (more : Bool) (hb : ¬ s.bytesToRead ≤ 0) (h3 : rawReadStep s st = (s3, st3, more)) :
    handle_raw (f + 1) s st = if more then (false, s3, st3) else handle_raw f s3 st3 := by
  simp only [handle_raw, if_neg hb, h3]

theorem handle_untagged_nofetch (f : Nat) (s : IMAPResponse) (data st : List Char)
    (hm : untaggedFetchMatch data = none) :
    handle_untagged f s data st =
      (match untaggedMatch data with
       | some (ty, d) =>
         (true, { s with untagged := s.untagged ++ [(enumValue ty, d.getD [])] }, st)
       | none =>
         match untaggedTrailingMatch data with
         | some (d, ty) =>
           (true, { s with untaggedTrailing := s.untaggedTrailing ++ [(enumValue ty, d)] }, st)
         | none => (false, { s with error := true }, st)) := by
  simp only [handle_untagged, hm]

theorem handle_untagged_fetch_badid (f : Nat) (s : IMAPResponse) (data st : List Char)
    (ids fdata : List Char)
    (hm : untaggedFetchMatch data = some (ids, fdata))
    (hq : qToULongLong ids = none) :
    handle_untagged f s data st = (false, { s with mid := 0, error := true }, st) := by
  simp only [handle_untagged, hm, hq]

theorem handle_untagged_fetch_metafail (f : Nat) (s s2 : IMAPResponse) (data st : List Char)
    (ids fdata : List Char) (i : Nat)
    (hm : untaggedFetchMatch data = some (ids, fdata))
    (hq : qToULongLong ids = some i)
    (h2 : handle_raw_meta { s with mid := i } fdata = (false, s2)) :
    handle_untagged f s data st = (false, s2, st) := by
  simp only [handle_untagged, hm, hq, h2]
  simp

theorem handle_untagged_fetch_inline (f : Nat) (s s2 : IMAPResponse) (data st : List Char)
    (ids fdata : List Char) (i : Nat)
    (hm : untaggedFetchMatch data = some (ids, fdata))
    (hq : qToULongLong ids = some i)
    (h2 : handle_raw_meta { s with mid := i } fdata = (true, s2))
    (hbz : s2.bytesToRead = 0) :
    handle_untagged f s data st = (true, s2, st) := by
  simp only [handle_untagged, hm, hq, h2]
  simp [hbz]

theorem handle_untagged_fetch_raw (f : Nat) (s s2 : IMAPResponse) (data st : List Char)
    (ids fdata : List Char) (i : Nat)
    (hm : untaggedFetchMatch data = some (ids, fdata))
    (hq : qToULongLong ids = some i)
    (h2 : handle_raw_meta { s with mid := i } fdata = (true, s2))
    (hbz : s2.bytesToRead ≠ 0) :
    handle_untagged f s data st =
      (if (handle_raw f { s2 with rawMode := true } st).1 = false
       then (false, (handle_raw f { s2 with rawMode := true } st).2.1,
             (handle_raw f { s2 with rawMode := true } st).2.2)
       else (true, { (handle_raw f { s2 with rawMode := true } st).2.1 with rawMode := false },
             (handle_raw f { s2 with rawMode := true } st).2.2)) := by
  simp only [handle_untagged, hm, hq, h2, if_pos hbz]
  simp

theorem handle_command_step_readfail (f : Nat) (s s1 : IMAPResponse) (st st1 : List Char)
    (h1 : read_line_to_buffer s st = (false, s1, st1)) :
    handle_command (f + 1) s st = (false, s1, st1) := by
  simp only [handle_command, h1]
  simp

theorem handle_command_step_untagged_fail (f : Nat) (s s1 s2 : IMAPResponse)
    (st st1 st2 : List Char)
    (h1 : read_line_to_buffer s st = (true, s1, st1))
    (hh : headIs s1.buffer '*' = true)
    (h2 : handle_untagged f s1 (qTrim s1.buffer) st1 = (false, s2, st2)) :
    handle_command (f + 1) s st = (false, s2, st2) := by
  simp only [handle_command, h1, hh, h2]
  simp

theorem handle_command_step_untagged_ok (f : Nat) (s s1 s2 : IMAPResponse)
    (st st1 st2 : List Char)
    (h1 : read_line_to_buffer s st = (true, s1, st1))
    (hh : headIs s1.buffer '*' = true)
    (h2 : handle_untagged f s1 (qTrim s1.buffer) st1 = (true, s2, st2))
    (ht : s1.tag ≠ CONNECT_TAG) :
    handle_command (f + 1) s st = handle_command f s2 st2 := by
  simp only [handle_command, h1, hh, h2, if_neg ht]
  simp

theorem handle_command_step_tagged (f : Nat) (s s1 : IMAPResponse) (st st1 : List Char)
    (h1 : read_line_to_buffer s st = (true, s1, st1))
    (hh : headIs s1.buffer '*' = false)
    (hp : List.isPrefixOf s1.tag s1.buffer = true) :
    handle_command (f + 1) s st =
      ((handle_tagged s1 (qTrim s1.buffer)).1, (handle_tagged s1 (qTrim s1.buffer)).2, st1) := by
  simp only [handle_command, h1, hh, hp]
  simp

theorem handle_command_step_garbage (f : Nat) (s s1 : IMAPResponse) (st st1 : List Char)
    (h1 : read_line_to_buffer s st = (true, s1, st1))
    (hh : headIs s1.buffer '*' = false)
    (hp : List.isPrefixOf s1.tag s1.buffer = false) :
    handle_command (f + 1) s st = (false, { s1 with error := true }, st1) := by
  simp only [handle_command, h1, hh, hp]
  simp

theorem handle_raw_mono (f : Nat) : ∀ (g : Nat), f ≤ g →
    ∀ (s : IMAPResponse) (st : List Char),
      (handle_raw f s st).1 = true → handle_raw g s st = handle_raw f s st := by
  induction f with
  | zero =>
    intro g _ s st h
    exact absurd h (by simp [handle_raw])
  | succ f ih =>
    intro g hfg s st h
    rcases g with _ | g
    · exact absurd hfg (by omega)
    have hfg2 : f ≤ g := by omega
    by_cases hb : s.bytesToRead ≤ 0
    · rcases h1 : read_line_to_buffer s st with ⟨ok1, s1, st1⟩
      cases ok1
      · rw [handle_raw_step_readfail g s s1 st st1 hb h1,
            handle_raw_step_readfail f s s1 st st1 hb h1]
      · by_cases hh : headIs s1.buffer ')' = true
        · rw [handle_raw_step_close g s s1 st st1 hb h1 hh,
              handle_raw_step_close f s s1 st st1 hb h1 hh]
        · have hh2 : headIs s1.buffer ')' = false := by
            cases hx : headIs s1.buffer ')'
            · rfl
            · exact absurd hx hh
          rcases h2 : handle_raw_meta s1 (qTrim s1.buffer) with ⟨ok2, s2⟩
          cases ok2
          · rw [handle_raw_step_metafail g s s1 s2 st st1 hb h1 hh2 h2,
                handle_raw_step_metafail f s s1 s2 st st1 hb h1 hh2 h2]
          · rcases h3 : rawReadStep s2 st1 with ⟨s3, st3, more⟩
            rw [handle_raw_step_meta f s s1 s2 s3 st st1 st3 more hb h1 hh2 h2 h3] at h
            rw [handle_raw_step_meta g s s1 s2 s3 st st1 st3 more hb h1 hh2 h2 h3,
                handle_raw_step_meta f s s1 s2 s3 st st1 st3 more hb h1 hh2 h2 h3]
            cases more
            · simp only [Bool.false_eq_true, if_false] at h ⊢
              exact ih g hfg2 s3 st3 h
            · simp at h
    · rcases h3 : rawReadStep s st with ⟨s3, st3, more⟩
      rw [handle_raw_step_read f s s3 st st3 more hb h3] at h
      rw [handle_raw_step_read g s s3 st st3 more hb h3,
          handle_raw_step_read f s s3 st st3 more hb h3]
      cases more
      · simp only [Bool.false_eq_true, if_false] at h ⊢
        exact ih g hfg2 s3 st3 h
      · simp at h

theorem handle_untagged_mono (f g : Nat) (hfg : f ≤ g) (s : IMAPResponse)
    (data st : List Char) (h : (handle_untagged f s data st).1 = true) :
    handle_untagged g s data st = handle_untagged f s data st := by
  rcases hm : untaggedFetchMatch data with _ | ⟨ids, fdata⟩
  · rw [handle_untagged_nofetch g s data st hm, handle_untagged_nofetch f s data st hm]
  · rcases hq : qToULongLong ids with _ | i
    · rw [handle_untagged_fetch_badid g s data st ids fdata hm hq,
          handle_untagged_fetch_badid f s data st ids fdata hm hq]
    · rcases h2 : handle_raw_meta { s with mid := i } fdata with ⟨ok2, s2⟩
      cases ok2
      · rw [handle_untagged_fetch_metafail g s s2 data st ids fdata i hm hq h2,
            handle_untagged_fetch_metafail f s s2 data st ids fdata i hm hq h2]
      · by_cases hbz : s2.bytesToRead = 0
        · rw [handle_untagged_fetch_inline g s s2 data st ids fdata i hm hq h2 hbz,
              handle_untagged_fetch_inline f s s2 data st ids fdata i hm hq h2 hbz]
        · rw [handle_untagged_fetch_raw f s s2 data st ids fdata i hm hq h2 hbz] at h
          rw [handle_untagged_fetch_raw g s s2 data st ids fdata i hm hq h2 hbz,
              handle_untagged_fetch_raw f s s2 data st ids fdata i hm hq h2 hbz]
          rcases hr : handle_raw f { s2 with rawMode := true } st with ⟨okr, sr, str⟩
          rw [hr] at h
          cases okr
          · simp at h
          · have hrg : handle_raw g { s2 with rawMode := true } st = (true, sr, str) := by
              rw [handle_raw_mono f g hfg _ _ (by rw [hr]), hr]
            rw [hrg]

theorem handle_command_mono (f : Nat) : ∀ (g : Nat), f ≤ g →
    ∀ (s : IMAPResponse) (st : List Char),
      (handle_command f s st).1 = true → handle_command g s st = handle_command f s st := by
  induction f with
  | zero =>
    intro g _ s st h
    exact absurd h (by simp [handle_command])
  | succ f ih =>
    intro g hfg s st h
    rcases g with _ | g
    · exact absurd hfg (by omega)
    have hfg2 : f ≤ g := by omega
    rcases h1 : read_line_to_buffer s st with ⟨ok1, s1, st1⟩
    cases ok1
    · rw [handle_command_step_readfail g s s1 st st1 h1,
          handle_command_step_readfail f s s1 st st1 h1]
    · by_cases hh : headIs s1.buffer '*' = true
      · rcases h2 : handle_untagged f s1 (qTrim s1.buffer) st1 with ⟨ok2, s2, st2⟩
        cases ok2
        · rw [handle_command_step_untagged_fail f s s1 s2 st st1 st2 h1 hh h2] at h
          simp at h
        · have hg2 : handle_untagged g s1 (qTrim s1.buffer) st1 = (true, s2, st2) := by
            rw [handle_untagged_mono f g hfg2 s1 _ st1 (by rw [h2]), h2]
          by_cases ht : s1.tag = CONNECT_TAG
          · rw [handle_command_connect_step g s st s1 s2 st1 st2 h1 hh ht hg2,
                handle_command_connect_step f s st s1 s2 st1 st2 h1 hh ht h2]
          · rw [handle_command_step_untagged_ok f s s1 s2 st st1 st2 h1 hh h2 ht] at h
            rw [handle_command_step_untagged_ok g s s1 s2 st st1 st2 h1 hh hg2 ht,
                handle_command_step_untagged_ok f s s1 s2 st st1 st2 h1 hh h2 ht]
            exact ih g hfg2 s2 st2 h
      · have hh2 : headIs s1.buffer '*' = false := by
          cases hx : headIs s1.buffer '*'
          · rfl
          · exact absurd hx hh
        by_cases hp : List.isPrefixOf s1.tag s1.buffer = true
        · rw [handle_command_step_tagged g s s1 st st1 h1 hh2 hp,
              handle_command_step_tagged f s s1 st st1 h1 hh2 hp]
        · have hp2 : List.isPrefixOf s1.tag s1.buffer = false := by
            cases hx : List.isPrefixOf s1.tag s1.buffer
            · rfl
            · exact absurd hx hp
          rw [handle_command_step_garbage g s s1 st st1 h1 hh2 hp2,
              handle_command_step_garbage f s s1 st st1 h1 hh2 hp2]

/-! ## C2 — the FETCH literal byte count -/

theorem pfs_step (acc : List Char) (c c2 : Char) (r : List Char)
    (hc : fieldClass c = true) (hc2 : c2 ≠ ' ') :
    pairedFieldSearch acc (c :: c2 :: r) = pairedFieldSearch (acc ++ [c]) (c2 :: r) := by
  simp only [pairedFieldSearch]
  rw [if_pos hc]
  split
  · rename_i r2 heq
    rw [List.cons.injEq] at heq
    exact absurd heq.1 hc2
  · rfl

theorem pfs_hit (acc : List Char) (c : Char) (r2 : List Char)
    (hc : fieldClass c = true) (sz dt : Option (List Char)) (rem : List Char)
    (hpa : pairedAlt r2 = some (sz, dt, rem)) :
    pairedFieldSearch acc (c :: ' ' :: r2) =
      some ({ field := acc ++ [c], size := sz, data := dt }, rem) := by
  simp only [pairedFieldSearch]
  rw [if_pos hc]
  split
  · rename_i sz2 dt2 r3 heq
    have h3 := hpa.symm.trans heq
    simp only [Option.some.injEq, Prod.mk.injEq] at h3
    rcases h3 with ⟨h4, h5, h6⟩
    rw [h4, h5, h6]
  · rename_i hno
    rw [hpa] at hno
    cases hno

theorem pairedAlt_size (ds : List Char) (hds : ∀ c ∈ ds, isDigitC c = true)
    (hne : ds ≠ []) :
    pairedAlt ('{' :: (ds ++ ['}'])) = some (some ds, none, []) := by
  simp only [pairedAlt]
  rw [takeWhile_append_all ds ['}'] hds, dropWhile_append_all ds ['}'] hds]
  rw [show List.takeWhile isDigitC ['}'] = [] from rfl,
      show List.dropWhile isDigitC ['}'] = ['}'] from rfl]
  rw [if_pos (by simpa using hne)]
  simp

theorem pairedGlobalAux_nil (f : Nat) : pairedGlobalAux f [] = [] := by
  cases f
  · rfl
  · rfl

theorem pairedGlobalAux_step (f : Nat) (s2 : List Char) (m : PairMatch) (rem : List Char)
    (h : pairedScan s2 = some (m, rem)) :
    pairedGlobalAux (f + 1) s2 = m :: pairedGlobalAux f rem := by
  simp only [pairedGlobalAux, h]

theorem fetch_meta_result (s : IMAPResponse) (ds : List Char) (N : Int)
    (hds : ∀ c ∈ ds, isDigitC c = true) (hne : ds ≠ [])
    (hql : qToLongLong ds = some N) :
    handle_raw_meta s ("BODY[1] \x7b".data ++ (ds ++ ['}'])) =
      (true, { s with bytesToRead := N, field := "BODY[1]".data }) := by
  have hpfs : pairedFieldSearch [] ('B' :: ("ODY[1] \x7b".data ++ (ds ++ ['}']))) =
      some ({ field := "BODY[1]".data, size := some ds, data := none }, []) := by
    rw [show ('B' :: ("ODY[1] \x7b".data ++ (ds ++ ['}']))) =
        'B' :: 'O' :: 'D' :: 'Y' :: '[' :: '1' :: ']' :: ' ' :: ('{' :: (ds ++ ['}'])) from rfl]
    rw [pfs_step _ _ _ _ (by decide) (by decide)]
    rw [pfs_step _ _ _ _ (by decide) (by decide)]
    rw [pfs_step _ _ _ _ (by decide) (by decide)]
    rw [pfs_step _ _ _ _ (by decide) (by decide)]
    rw [pfs_step _ _ _ _ (by decide) (by decide)]
    rw [pfs_step _ _ _ _ (by decide) (by decide)]
    rw [pfs_hit _ _ _ (by decide) _ _ _ (pairedAlt_size ds hds hne)]
    simp
  have hpm : pairedMatchAt ('B' :: ("ODY[1] \x7b".data ++ (ds ++ ['}']))) =
      some ({ field := "BODY[1]".data, size := some ds, data := none }, []) := by
    simp only [pairedMatchAt]
    rw [if_neg (by decide : ¬ (isWSpace 'B' = true))]
    exact hpfs
  have hscan : pairedScan ('B' :: ("ODY[1] \x7b".data ++ (ds ++ ['}']))) =
      some ({ field := "BODY[1]".data, size := some ds, data := none }, []) := by
    simp only [pairedScan, hpm]
  have hglob : pairedGlobal ('B' :: ("ODY[1] \x7b".data ++ (ds ++ ['}']))) =
      [{ field := "BODY[1]".data, size := some ds, data := none }] := by
    simp only [pairedGlobal]
    rw [pairedGlobalAux_step _ _ _ _ hscan]
    rw [pairedGlobalAux_nil]
  rw [show ("BODY[1] \x7b".data ++ (ds ++ ['}'])) =
      'B' :: ("ODY[1] \x7b".data ++ (ds ++ ['}'])) from rfl]
  simp only [handle_raw_meta, hglob]
  simp only [handle_raw_meta_list, hql]

theorem fetch_line_match (ds : List Char) (hds : ∀ c ∈ ds, isDigitC c = true) :
    untaggedFetchMatch ("* 1 FETCH (BODY[1] \x7b".data ++ (ds ++ ['}'])) =
      some (['1'], "BODY[1] \x7b".data ++ (ds ++ ['}'])) := by
  have htw : ("BODY[1] \x7b".data ++ (ds ++ ['}'])).takeWhile (fun ch => ch ≠ '\n') =
      "BODY[1] \x7b".data ++ (ds ++ ['}']) := by
    have hBody : ∀ c ∈ "BODY[1] \x7b".data, decide (c ≠ '\n') = true := by decide
    have hBrace : ∀ c ∈ ['\x7d'], decide (c ≠ '\n') = true := by decide
    apply takeWhile_all
    intro c hc
    rcases List.mem_append.mp hc with hc | hc
    · exact hBody c hc
    · rcases List.mem_append.mp hc with hc | hc
      · simp [(digitC_props c (hds c hc)).1]
      · exact hBrace c hc
  have hAt : untaggedFetchMatchAt
      ('*' :: ' ' :: ('1' :: (" FETCH (BODY[1] \x7b".data ++ (ds ++ ['}'])))) =
      some (['1'], "BODY[1] \x7b".data ++ (ds ++ ['}'])) := by
    simp only [untaggedFetchMatchAt]
    rw [show List.takeWhile isDigitC ('1' :: (" FETCH (BODY[1] \x7b".data ++ (ds ++ ['}']))) =
        ['1'] from rfl]
    rw [show List.dropWhile isDigitC ('1' :: (" FETCH (BODY[1] \x7b".data ++ (ds ++ ['}']))) =
        ' ' :: ("FETCH (BODY[1] \x7b".data ++ (ds ++ ['}'])) from rfl]
    rw [if_pos (by rfl)]
    rw [show ((' ' :: ("FETCH (BODY[1] \x7b".data ++ (ds ++ ['}']))).drop 8) =
        "BODY[1] \x7b".data ++ (ds ++ ['}']) from rfl]
    rw [htw]
  rw [show ("* 1 FETCH (BODY[1] \x7b".data ++ (ds ++ ['}'])) =
      '*' :: ' ' :: ('1' :: (" FETCH (BODY[1] \x7b".data ++ (ds ++ ['}']))) from rfl]
  simp only [untaggedFetchMatch]
  rw [scanFirst_cons, hAt]

theorem rawAppend_first (bs : List Char) :
    rawAppend [] 1 "BODY[1]".data bs = [(1, [("BODY[1]".data, bs)])] := by
  simp [rawAppend, assocUpdate, assocUpdateS]

theorem rawAppend_nilbytes (bs : List Char) :
    rawAppend [(1, [("BODY[1]".data, bs)])] 1 "BODY[1]".data [] =
      [(1, [("BODY[1]".data, bs)])] := by
  simp [rawAppend, assocUpdate, assocUpdateS]

theorem rawReadStep_zero (s : IMAPResponse) (st : List Char) (h : s.bytesToRead = 0)
    (hraw : rawAppend s.raw s.mid s.field [] = s.raw) :
    rawReadStep s st = (s, st, false) := by
  cases s with
  | mk tag rawMode buffer mid bytesToRead field error tagged untagged untaggedTrailing raw =>
    simp only at h hraw
    subst h
    simp only [rawReadStep]
    simp [hraw]

theorem fetch_raw_phase (bs : List Char) (hbs : bs ≠ []) (buf0 : List Char)
    (hbufCRLF : endsCRLF buf0 = true) :
    handle_raw 7 { tag := "A000".data, rawMode := true, buffer := buf0, mid := 1,
                   bytesToRead := (bs.length : Int), field := "BODY[1]".data }
      (bs ++ "\r\n)\r\nA000 OK done\r\n".data) =
      (true, { tag := "A000".data, rawMode := true, buffer := ")\r\n".data, mid := 1,
               bytesToRead := 0, field := "BODY[1]".data,
               raw := [(1, [("BODY[1]".data, bs)])] },
        "A000 OK done\r\n".data) := by
  have hlen0 : bs.length ≠ 0 := by simpa using hbs
  have hb1 : ¬ ((bs.length : Int) ≤ 0) := by omega
  have hrs1 : rawReadStep
      { tag := "A000".data, rawMode := true, buffer := buf0, mid := 1,
        bytesToRead := (bs.length : Int), field := "BODY[1]".data }
      (bs ++ "\r\n)\r\nA000 OK done\r\n".data) =
      ({ tag := "A000".data, rawMode := true, buffer := buf0, mid := 1,
         bytesToRead := 0, field := "BODY[1]".data,
         raw := [(1, [("BODY[1]".data, bs)])] },
       "\r\n)\r\nA000 OK done\r\n".data, false) := by
    simp only [rawReadStep]
    rw [show Int.toNat ((bs.length : Int)) = bs.length from by simp]
    rw [List.take_left, List.drop_left, rawAppend_first]
    simp
  rw [show (7 : Nat) = 6 + 1 from rfl,
      handle_raw_step_read 6 _ _ _ _ false hb1 hrs1]
  rw [if_neg (by simp)]
  have hrl2 : read_line_to_buffer
      { tag := "A000".data, rawMode := true, buffer := buf0, mid := 1,
        bytesToRead := 0, field := "BODY[1]".data,
        raw := [(1, [("BODY[1]".data, bs)])] }
      ("\r\n)\r\nA000 OK done\r\n".data) =
      (true, { tag := "A000".data, rawMode := true, buffer := "\r\n".data, mid := 1,
               bytesToRead := 0, field := "BODY[1]".data,
               raw := [(1, [("BODY[1]".data, bs)])] },
       ")\r\nA000 OK done\r\n".data) := by
    simp only [read_line_to_buffer,
      show qReadLine ("\r\n)\r\nA000 OK done\r\n".data) =
        (['\r', '\n'], ")\r\nA000 OK done\r\n".data) from rfl]
    simp [hbufCRLF, show endsCRLF ['\r', '\n'] = true from by decide]
  rw [show (6 : Nat) = 5 + 1 from rfl,
      handle_raw_step_meta 5 _ _ _ _ _ _ _ false (by simp) hrl2 rfl rfl
        (rawReadStep_zero _ _ rfl (rawAppend_nilbytes bs))]
  rw [if_neg (by simp)]
  have hrl3 : read_line_to_buffer
      { tag := "A000".data, rawMode := true, buffer := "\r\n".data, mid := 1,
        bytesToRead := 0, field := "BODY[1]".data,
        raw := [(1, [("BODY[1]".data, bs)])] }
      (")\r\nA000 OK done\r\n".data) =
      (true, { tag := "A000".data, rawMode := true, buffer := ")\r\n".data, mid := 1,
               bytesToRead := 0, field := "BODY[1]".data,
               raw := [(1, [("BODY[1]".data, bs)])] },
       "A000 OK done\r\n".data) := by
    simp only [read_line_to_buffer,
      show qReadLine (")\r\nA000 OK done\r\n".data) =
        ([')', '\r', '\n'], "A000 OK done\r\n".data) from rfl]
    simp [show endsCRLF ['\r', '\n'] = true from by decide,
      show endsCRLF [')', '\r', '\n'] = true from by decide]
  rw [show (5 : Nat) = 4 + 1 from rfl,
      handle_raw_step_close 4 _ _ _ _ (by simp) hrl3 rfl]

/-- C2 (amended): when the literal bytes of a FETCH response follow on
the wire after the `{N}` line, the accumulator reads exactly `N` bytes
into `_raw[id][field]` — the stored value is exactly the announced byte
block `bs` (of length `N`), regardless of CR/LF sequences embedded in it,
and the CR LF pair that follows the literal is not stored as content.
(As the counterexample shows, the inline-data path of `PAIRED_FETCH_REG`
stores whatever text follows `{N}` on the same line verbatim, ignoring
`N`, so the original claim's "exactly N bytes" is false for every
field whose data arrives inline.) -/
theorem fetch_literal_stream_digest (ds bs : List Char)
    (hds : ∀ c ∈ ds, isDigitC c = true) (hne : ds ≠ [])
    (hql : qToLongLong ds = some (bs.length : Int)) (hbs : bs ≠ []) :
    digest (IMAPResponse.fresh "A000".data)
        ((("* 1 FETCH (BODY[1] \x7b".data ++ (ds ++ ['\x7d'])) ++ ['\r', '\n']) ++
          (bs ++ "\r\n)\r\nA000 OK done\r\n".data)) =
      (true, { tag := "A000".data, buffer := "A000 OK done\r\n".data, mid := 1,
               field := "BODY[1]".data,
               tagged := [(RCode.OK, "done".data)],
               raw := [(1, [("BODY[1]".data, bs)])] }) := by
  have hlen0 : bs.length ≠ 0 := by simpa using hbs
  have hA : ∀ c ∈ "* 1 FETCH (BODY[1] \x7b".data, c ≠ '\n' := by decide
  have hBr : ∀ c ∈ ['\x7d'], c ≠ '\n' := by decide
  have hCR : ∀ c ∈ ['\r'], c ≠ '\n' := by decide
  have hnl : ∀ c ∈ ("* 1 FETCH (BODY[1] \x7b".data ++ (ds ++ ['\x7d'])) ++ ['\r'],
      c ≠ '\n' := by
    intro c hc
    rcases List.mem_append.mp hc with hc | hc
    · rcases List.mem_append.mp hc with hc | hc
      · exact hA c hc
      · rcases List.mem_append.mp hc with hc | hc
        · exact (digitC_props c (hds c hc)).1
        · exact hBr c hc
    · exact hCR c hc
  have hql1 : qReadLine ((("* 1 FETCH (BODY[1] \x7b".data ++ (ds ++ ['\x7d'])) ++
        ['\r', '\n']) ++ (bs ++ "\r\n)\r\nA000 OK done\r\n".data)) =
      (("* 1 FETCH (BODY[1] \x7b".data ++ (ds ++ ['\x7d'])) ++ ['\r', '\n'],
       bs ++ "\r\n)\r\nA000 OK done\r\n".data) := by
    have hsh : ((("* 1 FETCH (BODY[1] \x7b".data ++ (ds ++ ['\x7d'])) ++ ['\r', '\n']) ++
        (bs ++ "\r\n)\r\nA000 OK done\r\n".data)) =
        ((("* 1 FETCH (BODY[1] \x7b".data ++ (ds ++ ['\x7d'])) ++ ['\r']) ++
          '\n' :: (bs ++ "\r\n)\r\nA000 OK done\r\n".data)) := by
      simp
    rw [hsh, qReadLine_append _ _ hnl]
    simp
  have hends1 : endsCRLF (("* 1 FETCH (BODY[1] \x7b".data ++ (ds ++ ['\x7d'])) ++
      ['\r', '\n']) = true :=
    endsCRLF_append _
  have hrl1 : read_line_to_buffer (IMAPResponse.fresh "A000".data)
      ((("* 1 FETCH (BODY[1] \x7b".data ++ (ds ++ ['\x7d'])) ++ ['\r', '\n']) ++
        (bs ++ "\r\n)\r\nA000 OK done\r\n".data)) =
      (true, { tag := "A000".data,
               buffer := ("* 1 FETCH (BODY[1] \x7b".data ++ (ds ++ ['\x7d'])) ++
                 ['\r', '\n'] },
       bs ++ "\r\n)\r\nA000 OK done\r\n".data) := by
    simp only [read_line_to_buffer, hql1]
    simp [IMAPResponse.fresh, hends1, show endsCRLF ['\r', '\n'] = true from by decide,
      -List.cons_append, -List.append_assoc]
    exact endsCRLF_append ("* 1 FETCH (BODY[1] \x7b".data ++ (ds ++ ['\x7d']))
  have htrim1 : qTrim (("* 1 FETCH (BODY[1] \x7b".data ++ (ds ++ ['\x7d'])) ++
      ['\r', '\n']) = "* 1 FETCH (BODY[1] \x7b".data ++ (ds ++ ['\x7d']) := by
    apply qTrim_wsfree_tail _ _ '*'
      (" 1 FETCH (BODY[1] \x7b".data ++ (ds ++ ['\x7d'])) rfl (by decide)
    · intro c hc
      simp at hc
      rcases hc with rfl | rfl <;> decide
    · rw [show ('*' :: (" 1 FETCH (BODY[1] \x7b".data ++ (ds ++ ['\x7d']))).reverse =
          '\x7d' :: (ds.reverse ++ (" 1 FETCH (BODY[1] \x7b".data.reverse ++ ['*']))
          from by simp]
      exact dropWhile_head_false _ _ (by decide)
  have hunt : handle_untagged 7
      ({ tag := "A000".data,
         buffer := ("* 1 FETCH (BODY[1] \x7b".data ++ (ds ++ ['\x7d'])) ++
           ['\r', '\n'] } : IMAPResponse)
      ("* 1 FETCH (BODY[1] \x7b".data ++ (ds ++ ['\x7d']))
      (bs ++ "\r\n)\r\nA000 OK done\r\n".data) =
      (true, { tag := "A000".data, buffer := ")\r\n".data, mid := 1,
               bytesToRead := 0, field := "BODY[1]".data,
               raw := [(1, [("BODY[1]".data, bs)])] },
       "A000 OK done\r\n".data) := by
    rw [handle_untagged_fetch_raw 7
        { tag := "A000".data,
          buffer := ("* 1 FETCH (BODY[1] \x7b".data ++ (ds ++ ['\x7d'])) ++ ['\r', '\n'] }
        { tag := "A000".data,
          buffer := ("* 1 FETCH (BODY[1] \x7b".data ++ (ds ++ ['\x7d'])) ++ ['\r', '\n'],
          mid := 1, bytesToRead := (bs.length : Int), field := "BODY[1]".data }
        ("* 1 FETCH (BODY[1] \x7b".data ++ (ds ++ ['\x7d']))
        (bs ++ "\r\n)\r\nA000 OK done\r\n".data)
        ['1'] ("BODY[1] \x7b".data ++ (ds ++ ['\x7d'])) 1
        (fetch_line_match ds hds) (by decide)
        (fetch_meta_result
          { tag := "A000".data,
            buffer := ("* 1 FETCH (BODY[1] \x7b".data ++ (ds ++ ['\x7d'])) ++ ['\r', '\n'],
            mid := 1 }
          ds ((bs.length : Int)) hds hne hql)
        (by show ((bs.length : Int)) ≠ 0; exact_mod_cast hlen0)]
    have hX : handle_raw 7
        ({ ({ tag := "A000".data,
              buffer := ("* 1 FETCH (BODY[1] \x7b".data ++ (ds ++ ['\x7d'])) ++ ['\r', '\n'],
              mid := 1, bytesToRead := (bs.length : Int),
              field := "BODY[1]".data } : IMAPResponse) with rawMode := true })
        (bs ++ "\r\n)\r\nA000 OK done\r\n".data) =
        (true, { tag := "A000".data, rawMode := true, buffer := ")\r\n".data, mid := 1,
                 bytesToRead := 0, field := "BODY[1]".data,
                 raw := [(1, [("BODY[1]".data, bs)])] },
         "A000 OK done\r\n".data) :=
      fetch_raw_phase bs hbs _ hends1
    rw [hX]
    simp
  have hunt2 : handle_untagged 7
      ({ tag := "A000".data,
         buffer := ("* 1 FETCH (BODY[1] \x7b".data ++ (ds ++ ['\x7d'])) ++
           ['\r', '\n'] } : IMAPResponse)
      (qTrim (("* 1 FETCH (BODY[1] \x7b".data ++ (ds ++ ['\x7d'])) ++ ['\r', '\n']))
      (bs ++ "\r\n)\r\nA000 OK done\r\n".data) =
      (true, { tag := "A000".data, buffer := ")\r\n".data, mid := 1,
               bytesToRead := 0, field := "BODY[1]".data,
               raw := [(1, [("BODY[1]".data, bs)])] },
       "A000 OK done\r\n".data) := by
    rw [htrim1]
    exact hunt
  have hstep1 : handle_command (7 + 1) (IMAPResponse.fresh "A000".data)
      ((("* 1 FETCH (BODY[1] \x7b".data ++ (ds ++ ['\x7d'])) ++ ['\r', '\n']) ++
        (bs ++ "\r\n)\r\nA000 OK done\r\n".data)) =
      handle_command 7
        { tag := "A000".data, buffer := ")\r\n".data, mid := 1,
          bytesToRead := 0, field := "BODY[1]".data,
          raw := [(1, [("BODY[1]".data, bs)])] }
        ("A000 OK done\r\n".data) :=
    handle_command_step_untagged_ok 7 _ _ _ _ _ _ hrl1 rfl hunt2
      (by show ("A000".data : List Char) ≠ CONNECT_TAG; decide)
  have hrl4 : read_line_to_buffer
      ({ tag := "A000".data, buffer := ")\r\n".data, mid := 1,
         bytesToRead := 0, field := "BODY[1]".data,
         raw := [(1, [("BODY[1]".data, bs)])] } : IMAPResponse)
      ("A000 OK done\r\n".data) =
      (true, { tag := "A000".data, buffer := "A000 OK done\r\n".data, mid := 1,
               bytesToRead := 0, field := "BODY[1]".data,
               raw := [(1, [("BODY[1]".data, bs)])] },
       []) := by
    simp only [read_line_to_buffer,
      show qReadLine ("A000 OK done\r\n".data) = ("A000 OK done\r\n".data, []) from rfl]
    simp [show endsCRLF (")\r\n".data) = true from by decide,
      show endsCRLF ("A000 OK done\r\n".data) = true from by decide]
  have htg : handle_tagged
      ({ tag := "A000".data, buffer := "A000 OK done\r\n".data, mid := 1,
         bytesToRead := 0, field := "BODY[1]".data,
         raw := [(1, [("BODY[1]".data, bs)])] } : IMAPResponse)
      (qTrim ("A000 OK done\r\n".data)) =
      (true, { tag := "A000".data, buffer := "A000 OK done\r\n".data, mid := 1,
               bytesToRead := 0, field := "BODY[1]".data,
               tagged := [(RCode.OK, "done".data)],
               raw := [(1, [("BODY[1]".data, bs)])] }) := rfl
  have hstep2 : handle_command (6 + 1)
      ({ tag := "A000".data, buffer := ")\r\n".data, mid := 1,
         bytesToRead := 0, field := "BODY[1]".data,
         raw := [(1, [("BODY[1]".data, bs)])] } : IMAPResponse)
      ("A000 OK done\r\n".data) =
      (true, { tag := "A000".data, buffer := "A000 OK done\r\n".data, mid := 1,
               bytesToRead := 0, field := "BODY[1]".data,
               tagged := [(RCode.OK, "done".data)],
               raw := [(1, [("BODY[1]".data, bs)])] },
       []) := by
    rw [handle_command_step_tagged 6 _ _ _ _ hrl4 rfl rfl]
    rw [htg]
  have hc8 : handle_command 8 (IMAPResponse.fresh "A000".data)
      ((("* 1 FETCH (BODY[1] \x7b".data ++ (ds ++ ['\x7d'])) ++ ['\r', '\n']) ++
        (bs ++ "\r\n)\r\nA000 OK done\r\n".data)) =
      (true, { tag := "A000".data, buffer := "A000 OK done\r\n".data, mid := 1,
               bytesToRead := 0, field := "BODY[1]".data,
               tagged := [(RCode.OK, "done".data)],
               raw := [(1, [("BODY[1]".data, bs)])] },
       []) := by
    rw [show (8 : Nat) = 7 + 1 from rfl, hstep1,
        show (7 : Nat) = 6 + 1 from rfl, hstep2]
  have hlen8 : 8 ≤ (((("* 1 FETCH (BODY[1] \x7b".data ++ (ds ++ ['\x7d'])) ++
      ['\r', '\n']) ++ (bs ++ "\r\n)\r\nA000 OK done\r\n".data)).length + 1) := by
    have h19 : ("\r\n)\r\nA000 OK done\r\n".data).length = 19 := rfl
    have h2 : (['\r', '\n'] : List Char).length = 2 := rfl
    simp only [List.length_append, h19, h2]
    omega
  rw [digest_eq_handle_command _ _ rfl,
      handle_command_mono 8 _ hlen8 _ _ (by rw [hc8]), hc8]


/-- C2 witness: the amended theorem applied to the announced size `5` and
the five literal bytes `a b CR LF c` — the stored literal is exactly
those five bytes including the embedded CR LF, and the terminating CR LF
after the literal is not stored. -/
theorem fetch_literal_stream_digest_witness :
    (∀ c ∈ "5".data, isDigitC c = true) ∧
    qToLongLong "5".data = some (("ab\r\nc".data).length : Int) ∧
    digest (IMAPResponse.fresh "A000".data)
        ((("* 1 FETCH (BODY[1] \x7b".data ++ ("5".data ++ ['\x7d'])) ++ ['\r', '\n']) ++
          ("ab\r\nc".data ++ "\r\n)\r\nA000 OK done\r\n".data)) =
      (true, { tag := "A000".data, buffer := "A000 OK done\r\n".data, mid := 1,
               field := "BODY[1]".data,
               tagged := [(RCode.OK, "done".data)],
               raw := [(1, [("BODY[1]".data, "ab\r\nc".data)])] }) :=
  ⟨by decide, by decide,
   fetch_literal_stream_digest "5".data "ab\r\nc".data (by decide) (by decide)
     (by decide) (by decide)⟩

/-- C2 counterexample: when the FETCH data arrives inline on the meta
line, the code stores the inline text verbatim — here six bytes
`abcde)` despite the announced size `{3}` — refuting "exactly N bytes
have been placed into the literal map" for the inline path. -/
theorem fetch_inline_data_ignores_size :
    (digest (IMAPResponse.fresh "A000".data)
        "* 1 FETCH (BODY[1] \x7b3\x7d abcde)\r\nA000 OK x\r\n".data).1 = true ∧
    (digest (IMAPResponse.fresh "A000".data)
        "* 1 FETCH (BODY[1] \x7b3\x7d abcde)\r\nA000 OK x\r\n".data).2.raw =
      [(1, [("BODY[1]".data, "abcde)".data)])] ∧
    ("abcde)".data).length ≠ 3 := by
  decide

/-! ## C1 — chunked feeding: stream composition facts -/

theorem qReadLine_join : ∀ st : List Char, (qReadLine st).1 ++ (qReadLine st).2 = st := by
  intro st
  induction st with
  | nil => rfl
  | cons c r ih =>
    simp only [qReadLine]
    by_cases hc : c = '\n'
    · rw [if_pos hc]
      simp [hc]
    · rw [if_neg hc]
      simpa using ih

theorem qReadLine_head_ne : ∀ st : List Char, st ≠ [] → (qReadLine st).1 ≠ [] := by
  intro st hst
  rcases st with _ | ⟨c, r⟩
  · exact absurd rfl hst
  · simp only [qReadLine]
    by_cases hc : c = '\n'
    · rw [if_pos hc]
      simp
    · rw [if_neg hc]
      simp

theorem qReadLine_comp : ∀ (a b : List Char), (∀ ch ∈ a, ch ≠ '\n') →
    qReadLine (a ++ b) = (a ++ (qReadLine b).1, (qReadLine b).2) := by
  intro a
  induction a with
  | nil => intro b _; rfl
  | cons c r ih =>
    intro b h
    have hc : c ≠ '\n' := h c (by simp)
    simp only [List.cons_append, qReadLine, if_neg hc, List.append_eq]
    rw [ih b (fun x hx => h x (by simp [hx]))]

theorem qReadLine_extend : ∀ (a b l r : List Char), qReadLine a = (l, r) →
    l.getLast? = some '\n' → qReadLine (a ++ b) = (l, r ++ b) := by
  intro a
  induction a with
  | nil =>
    intro b l r h hl
    simp only [qReadLine] at h
    injection h with h1 h2
    subst h1
    simp at hl
  | cons c a2 ih =>
    intro b l r h hl
    simp only [qReadLine] at h
    by_cases hc : c = '\n'
    · rw [if_pos hc] at h
      injection h with h1 h2
      subst h1
      subst h2
      simp only [List.cons_append, qReadLine, if_pos hc, List.append_eq]
    · rw [if_neg hc] at h
      rcases hq : qReadLine a2 with ⟨l2, r2⟩
      rw [hq] at h
      simp only at h
      injection h with h1 h2
      subst h2
      subst h1
      have hl2 : l2.getLast? = some '\n' := by
        rcases l2 with _ | ⟨d, l3⟩
        · simp at hl
          exact absurd hl hc
        · simpa using hl
      simp only [List.cons_append, qReadLine, if_neg hc, List.append_eq]
      rw [ih b l2 r2 hq hl2]

theorem qReadLine_rest_lt (st : List Char) (hst : st ≠ []) :
    (qReadLine st).2.length < st.length := by
  have hj := qReadLine_join st
  have hh := qReadLine_head_ne st hst
  rcases hq : qReadLine st with ⟨l, r⟩
  rw [hq] at hj hh
  simp only at hj hh
  rw [← hj]
  rcases l with _ | ⟨c, l2⟩
  · exact absurd rfl hh
  · simp
    omega

theorem endsCRLF_getLast (l : List Char) (h : endsCRLF l = true) :
    l.getLast? = some '\n' := by
  simp only [endsCRLF, List.isSuffixOf] at h
  rcases hrev : l.reverse with _ | ⟨c, r⟩
  · rw [hrev] at h
    exact absurd h (by decide)
  · rw [hrev] at h
    simp [List.isPrefixOf] at h
    have hc : c = '\n' := by
      rcases h with ⟨h1, _⟩
      exact h1.symm
    have hhead : l.getLast? = l.reverse.head? := by
      rw [← List.head?_reverse]
    rw [hhead, hrev, hc]
    rfl

theorem read_line_rest (s : IMAPResponse) (st : List Char) :
    (read_line_to_buffer s st).2.2 = (qReadLine st).2 := by
  simp only [read_line_to_buffer]
  split_ifs <;> rfl

theorem read_line_success_ne (s : IMAPResponse) (st : List Char)
    (h : (read_line_to_buffer s st).1 = true) : st ≠ [] := by
  intro hst
  subst hst
  cases hb : endsCRLF s.buffer
  · simp [read_line_to_buffer, qReadLine, hb] at h
    split at h
    · simp at h
    · simp at h
  · simp [read_line_to_buffer, qReadLine, hb] at h

theorem read_line_success_lt (s : IMAPResponse) (st : List Char)
    (h : (read_line_to_buffer s st).1 = true) :
    (read_line_to_buffer s st).2.2.length < st.length := by
  rw [read_line_rest]
  exact qReadLine_rest_lt st (read_line_success_ne s st h)

theorem rawReadStep_rest_le (s : IMAPResponse) (st : List Char) :
    (rawReadStep s st).2.1.length ≤ st.length := by
  simp only [rawReadStep]
  simp

theorem handle_raw_rest_le (f : Nat) : ∀ (s : IMAPResponse) (st : List Char),
    (handle_raw f s st).2.2.length ≤ st.length := by
  induction f with
  | zero => intro s st; simp [handle_raw]
  | succ f ih =>
    intro s st
    by_cases hb : s.bytesToRead ≤ 0
    · rcases h1 : read_line_to_buffer s st with ⟨ok1, s1, st1⟩
      have hst1 : st1.length ≤ st.length := by
        have := read_line_rest s st
        rw [h1] at this
        simp only at this
        rw [this]
        have hj := qReadLine_join st
        rcases hq : qReadLine st with ⟨l, r⟩
        rw [hq] at hj
        simp only at hj ⊢
        rw [← hj]
        simp
      cases ok1
      · rw [handle_raw_step_readfail f s s1 st st1 hb h1]
        exact hst1
      · by_cases hh : headIs s1.buffer ')' = true
        · rw [handle_raw_step_close f s s1 st st1 hb h1 hh]
          exact hst1
        · have hh2 : headIs s1.buffer ')' = false := by
            cases hx : headIs s1.buffer ')'
            · rfl
            · exact absurd hx hh
          rcases h2 : handle_raw_meta s1 (qTrim s1.buffer) with ⟨ok2, s2⟩
          cases ok2
          · rw [handle_raw_step_metafail f s s1 s2 st st1 hb h1 hh2 h2]
            exact hst1
          · rcases h3 : rawReadStep s2 st1 with ⟨s3, st3, more⟩
            have hst3 : st3.length ≤ st1.length := by
              have := rawReadStep_rest_le s2 st1
              rw [h3] at this
              exact this
            rw [handle_raw_step_meta f s s1 s2 s3 st st1 st3 more hb h1 hh2 h2 h3]
            cases more
            · simp only [Bool.false_eq_true, if_false]
              exact le_trans (le_trans (ih s3 st3) hst3) hst1
            · simp only [if_true]
              exact le_trans hst3 hst1
    · rcases h3 : rawReadStep s st with ⟨s3, st3, more⟩
      have hst3 : st3.length ≤ st.length := by
        have := rawReadStep_rest_le s st
        rw [h3] at this
        exact this
      rw [handle_raw_step_read f s s3 st st3 more hb h3]
      cases more
      · simp only [Bool.false_eq_true, if_false]
        exact le_trans (ih s3 st3) hst3
      · simp only [if_true]
        exact hst3

theorem handle_untagged_rest_le (f : Nat) (s : IMAPResponse) (d st : List Char) :
    (handle_untagged f s d st).2.2.length ≤ st.length := by
  rcases hm : untaggedFetchMatch d with _ | ⟨ids, fdata⟩
  · rw [handle_untagged_nofetch f s d st hm]
    rcases untaggedMatch d with _ | ⟨ty, dd⟩
    · rcases untaggedTrailingMatch d with _ | ⟨dd2, ty2⟩ <;> simp
    · simp
  · rcases hq : qToULongLong ids with _ | i
    · rw [handle_untagged_fetch_badid f s d st ids fdata hm hq]
    · rcases h2 : handle_raw_meta { s with mid := i } fdata with ⟨ok2, s2⟩
      cases ok2
      · rw [handle_untagged_fetch_metafail f s s2 d st ids fdata i hm hq h2]
      · by_cases hbz : s2.bytesToRead = 0
        · rw [handle_untagged_fetch_inline f s s2 d st ids fdata i hm hq h2 hbz]
        · rw [handle_untagged_fetch_raw f s s2 d st ids fdata i hm hq h2 hbz]
          split
          · simp only
            exact handle_raw_rest_le f _ st
          · simp only
            exact handle_raw_rest_le f _ st

theorem rawReadStep_more_nil (s : IMAPResponse) (h : ¬ s.bytesToRead ≤ 0) :
    (rawReadStep s []).2.2 = true := by
  simp only [rawReadStep]
  simp
  omega

theorem rawReadStep_rest_lt (s : IMAPResponse) (st : List Char)
    (h : ¬ s.bytesToRead ≤ 0) (hst : st ≠ []) :
    (rawReadStep s st).2.1.length < st.length := by
  simp only [rawReadStep]
  simp only [List.length_drop]
  have h1 : 1 ≤ s.bytesToRead.toNat := by omega
  have h2 : 1 ≤ st.length := by
    rcases st with _ | _
    · exact absurd rfl hst
    · simp
  omega

theorem handle_raw_nil (s : IMAPResponse) (f g : Nat) (hf : 1 ≤ f) (hg : 1 ≤ g) :
    handle_raw f s [] = handle_raw g s [] := by
  rcases f with _ | f
  · omega
  rcases g with _ | g
  · omega
  by_cases hb : s.bytesToRead ≤ 0
  · rcases h1 : read_line_to_buffer s [] with ⟨ok1, s1, st1⟩
    cases ok1
    · rw [handle_raw_step_readfail f s s1 [] st1 hb h1,
          handle_raw_step_readfail g s s1 [] st1 hb h1]
    · exact absurd rfl (read_line_success_ne s [] (by rw [h1]))
  · rcases h3 : rawReadStep s [] with ⟨s3, st3, more⟩
    have hm : more = true := by
      have := rawReadStep_more_nil s hb
      rw [h3] at this
      exact this
    subst hm
    rw [handle_raw_step_read f s s3 [] st3 true hb h3,
        handle_raw_step_read g s s3 [] st3 true hb h3]
    rfl

theorem handle_raw_suff : ∀ (n : Nat) (s : IMAPResponse) (st : List Char), st.length ≤ n →
    ∀ f, st.length + 1 ≤ f → handle_raw f s st = handle_raw (st.length + 1) s st := by
  intro n
  induction n with
  | zero =>
    intro s st hst f hf
    have h0 : st = [] := by
      rcases st with _ | _
      · rfl
      · simp at hst
    subst h0
    exact handle_raw_nil s f _ (by omega) (by simp)
  | succ n ih =>
    intro s st hst f hf
    by_cases hstnil : st = []
    · subst hstnil
      exact handle_raw_nil s f _ (by omega) (by simp)
    rcases f with _ | f
    · omega
    have hf2 : st.length ≤ f := by omega
    by_cases hb : s.bytesToRead ≤ 0
    · rcases h1 : read_line_to_buffer s st with ⟨ok1, s1, st1⟩
      cases ok1
      · rw [handle_raw_step_readfail f s s1 st st1 hb h1,
            handle_raw_step_readfail st.length s s1 st st1 hb h1]
      · have hlt1 : st1.length < st.length := by
          have := read_line_success_lt s st (by rw [h1])
          rw [h1] at this
          exact this
        by_cases hh : headIs s1.buffer ')' = true
        · rw [handle_raw_step_close f s s1 st st1 hb h1 hh,
              handle_raw_step_close st.length s s1 st st1 hb h1 hh]
        · have hh2 : headIs s1.buffer ')' = false := by
            cases hx : headIs s1.buffer ')'
            · rfl
            · exact absurd hx hh
          rcases h2 : handle_raw_meta s1 (qTrim s1.buffer) with ⟨ok2, s2⟩
          cases ok2
          · rw [handle_raw_step_metafail f s s1 s2 st st1 hb h1 hh2 h2,
                handle_raw_step_metafail st.length s s1 s2 st st1 hb h1 hh2 h2]
          · rcases h3 : rawReadStep s2 st1 with ⟨s3, st3, more⟩
            have hle3 : st3.length < st.length := by
              have := rawReadStep_rest_le s2 st1
              rw [h3] at this
              simp only at this
              omega
            rw [handle_raw_step_meta f s s1 s2 s3 st st1 st3 more hb h1 hh2 h2 h3,
                handle_raw_step_meta st.length s s1 s2 s3 st st1 st3 more hb h1 hh2 h2 h3]
            cases more
            · simp only [Bool.false_eq_true, if_false]
              rw [ih s3 st3 (by omega) f (by omega),
                  ih s3 st3 (by omega) st.length (by omega)]
            · rfl
    · rcases h3 : rawReadStep s st with ⟨s3, st3, more⟩
      have hle3 : st3.length < st.length := by
        have := rawReadStep_rest_lt s st hb hstnil
        rw [h3] at this
        exact this
      rw [handle_raw_step_read f s s3 st st3 more hb h3,
          handle_raw_step_read st.length s s3 st st3 more hb h3]
      cases more
      · simp only [Bool.false_eq_true, if_false]
        rw [ih s3 st3 (by omega) f (by omega),
            ih s3 st3 (by omega) st.length (by omega)]
      · rfl

theorem handle_untagged_suff (f : Nat) (s : IMAPResponse) (d st : List Char)
    (hf : st.length + 1 ≤ f) :
    handle_untagged f s d st = handle_untagged (st.length + 1) s d st := by
  rcases hm : untaggedFetchMatch d with _ | ⟨ids, fdata⟩
  · rw [handle_untagged_nofetch f s d st hm,
        handle_untagged_nofetch (st.length + 1) s d st hm]
  · rcases hq : qToULongLong ids with _ | i
    · rw [handle_untagged_fetch_badid f s d st ids fdata hm hq,
          handle_untagged_fetch_badid (st.length + 1) s d st ids fdata hm hq]
    · rcases h2 : handle_raw_meta { s with mid := i } fdata with ⟨ok2, s2⟩
      cases ok2
      · rw [handle_untagged_fetch_metafail f s s2 d st ids fdata i hm hq h2,
            handle_untagged_fetch_metafail (st.length + 1) s s2 d st ids fdata i hm hq h2]
      · by_cases hbz : s2.bytesToRead = 0
        · rw [handle_untagged_fetch_inline f s s2 d st ids fdata i hm hq h2 hbz,
              handle_untagged_fetch_inline (st.length + 1) s s2 d st ids fdata i hm hq h2 hbz]
        · rw [handle_untagged_fetch_raw f s s2 d st ids fdata i hm hq h2 hbz,
              handle_untagged_fetch_raw (st.length + 1) s s2 d st ids fdata i hm hq h2 hbz]
          rw [handle_raw_suff st.length _ st le_rfl f hf]

theorem handle_command_nil (s : IMAPResponse) (f g : Nat) (hf : 1 ≤ f) (hg : 1 ≤ g) :
    handle_command f s [] = handle_command g s [] := by
  rcases f with _ | f
  · omega
  rcases g with _ | g
  · omega
  rcases h1 : read_line_to_buffer s [] with ⟨ok1, s1, st1⟩
  cases ok1
  · rw [handle_command_step_readfail f s s1 [] st1 h1,
        handle_command_step_readfail g s s1 [] st1 h1]
  · exact absurd rfl (read_line_success_ne s [] (by rw [h1]))

theorem handle_command_suff : ∀ (n : Nat) (s : IMAPResponse) (st : List Char),
    st.length ≤ n → ∀ f, st.length + 1 ≤ f →
      handle_command f s st = handle_command (st.length + 1) s st := by
  intro n
  induction n with
  | zero =>
    intro s st hst f hf
    have h0 : st = [] := by
      rcases st with _ | _
      · rfl
      · simp at hst
    subst h0
    exact handle_command_nil s f _ (by omega) (by simp)
  | succ n ih =>
    intro s st hst f hf
    by_cases hstnil : st = []
    · subst hstnil
      exact handle_command_nil s f _ (by omega) (by simp)
    rcases f with _ | f
    · omega
    rcases h1 : read_line_to_buffer s st with ⟨ok1, s1, st1⟩
    cases ok1
    · rw [handle_command_step_readfail f s s1 st st1 h1,
          handle_command_step_readfail st.length s s1 st st1 h1]
    · have hlt1 : st1.length < st.length := by
        have := read_line_success_lt s st (by rw [h1])
        rw [h1] at this
        exact this
      by_cases hh : headIs s1.buffer '*' = true
      · have hu1 : handle_untagged f s1 (qTrim s1.buffer) st1 =
            handle_untagged (st1.length + 1) s1 (qTrim s1.buffer) st1 :=
          handle_untagged_suff f s1 _ st1 (by omega)
        have hu2 : handle_untagged st.length s1 (qTrim s1.buffer) st1 =
            handle_untagged (st1.length + 1) s1 (qTrim s1.buffer) st1 :=
          handle_untagged_suff st.length s1 _ st1 (by omega)
        rcases h2 : handle_untagged (st1.length + 1) s1 (qTrim s1.buffer) st1
          with ⟨ok2, s2, st2⟩
        have h2f : handle_untagged f s1 (qTrim s1.buffer) st1 = (ok2, s2, st2) := by
          rw [hu1, h2]
        have h2g : handle_untagged st.length s1 (qTrim s1.buffer) st1 = (ok2, s2, st2) := by
          rw [hu2, h2]
        cases ok2
        · rw [handle_command_step_untagged_fail f s s1 s2 st st1 st2 h1 hh h2f,
              handle_command_step_untagged_fail st.length s s1 s2 st st1 st2 h1 hh h2g]
        · by_cases ht : s1.tag = CONNECT_TAG
          · rw [handle_command_connect_step f s st s1 s2 st1 st2 h1 hh ht h2f,
                handle_command_connect_step st.length s st s1 s2 st1 st2 h1 hh ht h2g]
          · have hle2 : st2.length ≤ st1.length := by
              have := handle_untagged_rest_le (st1.length + 1) s1 (qTrim s1.buffer) st1
              rw [h2] at this
              exact this
            rw [handle_command_step_untagged_ok f s s1 s2 st st1 st2 h1 hh h2f ht,
                handle_command_step_untagged_ok st.length s s1 s2 st st1 st2 h1 hh h2g ht]
            rw [ih s2 st2 (by omega) f (by omega),
                ih s2 st2 (by omega) st.length (by omega)]
      · have hh2 : headIs s1.buffer '*' = false := by
          cases hx : headIs s1.buffer '*'
          · rfl
          · exact absurd hx hh
        by_cases hp : List.isPrefixOf s1.tag s1.buffer = true
        · rw [handle_command_step_tagged f s s1 st st1 h1 hh2 hp,
              handle_command_step_tagged st.length s s1 st st1 h1 hh2 hp]
        · have hp2 : List.isPrefixOf s1.tag s1.buffer = false := by
            cases hx : List.isPrefixOf s1.tag s1.buffer
            · rfl
            · exact absurd hx hp
          rw [handle_command_step_garbage f s s1 st st1 h1 hh2 hp2,
              handle_command_step_garbage st.length s s1 st st1 h1 hh2 hp2]

theorem handle_raw_anyfuel (f F : Nat) (s : IMAPResponse) (st : List Char)
    (s1 : IMAPResponse) (r : List Char)
    (h : handle_raw f s st = (true, s1, r)) (hF : st.length + 1 ≤ F) :
    handle_raw F s st = (true, s1, r) := by
  rcases le_total f F with hle | hle
  · rw [handle_raw_mono f F hle s st (by rw [h]), h]
  · rw [handle_raw_suff st.length s st le_rfl F hF,
        ← handle_raw_suff st.length s st le_rfl f (le_trans hF hle), h]

theorem handle_untagged_anyfuel (f F : Nat) (s : IMAPResponse) (d st : List Char)
    (s1 : IMAPResponse) (r : List Char)
    (h : handle_untagged f s d st = (true, s1, r)) (hF : st.length + 1 ≤ F) :
    handle_untagged F s d st = (true, s1, r) := by
  rcases le_total f F with hle | hle
  · rw [handle_untagged_mono f F hle s d st (by rw [h]), h]
  · rw [handle_untagged_suff F s d st hF,
        ← handle_untagged_suff f s d st (le_trans hF hle), h]

theorem handle_command_anyfuel (f F : Nat) (s : IMAPResponse) (st : List Char)
    (s1 : IMAPResponse) (r : List Char)
    (h : handle_command f s st = (true, s1, r)) (hF : st.length + 1 ≤ F) :
    handle_command F s st = (true, s1, r) := by
  rcases le_total f F with hle | hle
  · rw [handle_command_mono f F hle s st (by rw [h]), h]
  · rw [handle_command_suff st.length s st le_rfl F hF,
        ← handle_command_suff st.length s st le_rfl f (le_trans hF hle), h]

theorem getLast_append_ne (a b : List Char) (hb : b ≠ []) :
    (a ++ b).getLast? = b.getLast? := by
  rw [← List.head?_reverse, List.reverse_append]
  rcases hbr : b.reverse with _ | ⟨c, r⟩
  · have hb0 : b = [] := by
      have := congrArg List.reverse hbr
      simpa using this
    exact absurd hb0 hb
  · rw [← List.head?_reverse, hbr]
    simp

theorem read_line_extend (s : IMAPResponse) (st b : List Char) (s1 : IMAPResponse)
    (r : List Char) (h : read_line_to_buffer s st = (true, s1, r)) :
    read_line_to_buffer s (st ++ b) = (true, s1, r ++ b) := by
  have hne := read_line_success_ne s st (by rw [h])
  rcases hq : qReadLine st with ⟨l, r0⟩
  have hl : l ≠ [] := by
    have := qReadLine_head_ne st hne
    rw [hq] at this
    exact this
  simp only [read_line_to_buffer, hq] at h
  by_cases hb2 : endsCRLF s.buffer = true
  · rw [if_pos hb2, if_neg hl] at h
    by_cases hcrlf : endsCRLF l = true
    · rw [if_pos hcrlf] at h
      have hlast : l.getLast? = some '\n' := endsCRLF_getLast l hcrlf
      have hq2 : qReadLine (st ++ b) = (l, r0 ++ b) := qReadLine_extend st b l r0 hq hlast
      simp only [read_line_to_buffer, hq2]
      rw [if_pos hb2, if_neg hl, if_pos hcrlf]
      injection h with h1 h2
      injection h2 with h2a h2b
      rw [h2a, h2b]
    · rw [if_neg hcrlf] at h
      exact absurd h (by simp)
  · have hbne : ¬ (s.buffer ++ l = []) := by simp [hl]
    rw [if_neg hb2, if_neg hbne] at h
    by_cases hcrlf : endsCRLF (s.buffer ++ l) = true
    · rw [if_pos hcrlf] at h
      have hlast : l.getLast? = some '\n' := by
        have hbl := endsCRLF_getLast _ hcrlf
        rw [getLast_append_ne _ _ hl] at hbl
        exact hbl
      have hq2 : qReadLine (st ++ b) = (l, r0 ++ b) := qReadLine_extend st b l r0 hq hlast
      simp only [read_line_to_buffer, hq2]
      rw [if_neg hb2, if_neg hbne, if_pos hcrlf]
      injection h with h1 h2
      injection h2 with h2a h2b
      rw [h2a, h2b]
    · rw [if_neg hcrlf] at h
      exact absurd h (by simp)

theorem rawReadStep_extend (s : IMAPResponse) (st b : List Char) (s3 : IMAPResponse)
    (st3 : List Char) (h : rawReadStep s st = (s3, st3, false)) :
    rawReadStep s (st ++ b) = (s3, st3 ++ b, false) := by
  have hk : s.bytesToRead.toNat ≤ st.length := by
    by_contra hgt
    simp only [rawReadStep] at h
    injection h with h1 h2
    injection h2 with h2a h2b
    have hlen : (st.take s.bytesToRead.toNat).length = st.length := by
      simp
      omega
    rw [hlen] at h2b
    have hgt2 : s.bytesToRead - (st.length : Int) > 0 := by omega
    simp [hgt2] at h2b
  simp only [rawReadStep] at h ⊢
  rw [List.take_append_of_le_length hk, List.drop_append_of_le_length hk]
  injection h with h1 h2
  injection h2 with h2a h2b
  subst h1
  subst h2a
  rw [h2b]

theorem handle_raw_extend (f : Nat) : ∀ (s : IMAPResponse) (st b : List Char)
    (s1 : IMAPResponse) (r : List Char),
    handle_raw f s st = (true, s1, r) →
    handle_raw f s (st ++ b) = (true, s1, r ++ b) := by
  induction f with
  | zero =>
    intro s st b s1 r h
    exact absurd h (by simp [handle_raw])
  | succ f ih =>
    intro s st b s1 r h
    by_cases hb : s.bytesToRead ≤ 0
    · rcases h1 : read_line_to_buffer s st with ⟨ok1, sA, stA⟩
      cases ok1
      · rw [handle_raw_step_readfail f s sA st stA hb h1] at h
        exact absurd h (by simp)
      · have h1e := read_line_extend s st b sA stA h1
        by_cases hh : headIs sA.buffer ')' = true
        · rw [handle_raw_step_close f s sA st stA hb h1 hh] at h
          rw [handle_raw_step_close f s sA (st ++ b) (stA ++ b) hb h1e hh]
          injection h with h1x h2x
          injection h2x with h2a h2b
          rw [h2a, h2b]
        · have hh2 : headIs sA.buffer ')' = false := by
            cases hx : headIs sA.buffer ')'
            · rfl
            · exact absurd hx hh
          rcases h2 : handle_raw_meta sA (qTrim sA.buffer) with ⟨ok2, s2⟩
          cases ok2
          · rw [handle_raw_step_metafail f s sA s2 st stA hb h1 hh2 h2] at h
            exact absurd h (by simp)
          · rcases h3 : rawReadStep s2 stA with ⟨s3, st3, more⟩
            rw [handle_raw_step_meta f s sA s2 s3 st stA st3 more hb h1 hh2 h2 h3] at h
            cases more
            · simp only [Bool.false_eq_true, if_false] at h
              have h3e := rawReadStep_extend s2 stA b s3 st3 h3
              rw [handle_raw_step_meta f s sA s2 s3 (st ++ b) (stA ++ b) (st3 ++ b)
                    false hb h1e hh2 h2 h3e]
              simp only [Bool.false_eq_true, if_false]
              exact ih s3 st3 b s1 r h
            · simp at h
    · rcases h3 : rawReadStep s st with ⟨s3, st3, more⟩
      rw [handle_raw_step_read f s s3 st st3 more hb h3] at h
      cases more
      · simp only [Bool.false_eq_true, if_false] at h
        have h3e := rawReadStep_extend s st b s3 st3 h3
        rw [handle_raw_step_read f s s3 (st ++ b) (st3 ++ b) false hb h3e]
        simp only [Bool.false_eq_true, if_false]
        exact ih s3 st3 b s1 r h
      · simp at h

theorem handle_untagged_plain (f : Nat) (s : IMAPResponse) (d st : List Char)
    (ty : List Char) (dd : Option (List Char))
    (hm : untaggedFetchMatch d = none) (hu : untaggedMatch d = some (ty, dd)) :
    handle_untagged f s d st =
      (true, { s with untagged := s.untagged ++ [(enumValue ty, dd.getD [])] }, st) := by
  simp only [handle_untagged, hm, hu]

theorem handle_untagged_trailing_step (f : Nat) (s : IMAPResponse) (d st : List Char)
    (dd ty : List Char)
    (hm : untaggedFetchMatch d = none) (hu : untaggedMatch d = none)
    (ht : untaggedTrailingMatch d = some (dd, ty)) :
    handle_untagged f s d st =
      (true, { s with untaggedTrailing := s.untaggedTrailing ++ [(enumValue ty, dd)] }, st) := by
  simp only [handle_untagged, hm, hu, ht]

theorem handle_untagged_unmatched (f : Nat) (s : IMAPResponse) (d st : List Char)
    (hm : untaggedFetchMatch d = none) (hu : untaggedMatch d = none)
    (ht : untaggedTrailingMatch d = none) :
    handle_untagged f s d st = (false, { s with error := true }, st) := by
  simp only [handle_untagged, hm, hu, ht]

theorem handle_untagged_extend (f : Nat) (s : IMAPResponse) (d st b : List Char)
    (s1 : IMAPResponse) (r : List Char)
    (h : handle_untagged f s d st = (true, s1, r)) :
    handle_untagged f s d (st ++ b) = (true, s1, r ++ b) := by
  rcases hm : untaggedFetchMatch d with _ | ⟨ids, fdata⟩
  · rcases hu : untaggedMatch d with _ | ⟨ty, dd⟩
    · rcases ht : untaggedTrailingMatch d with _ | ⟨dd2, ty2⟩
      · rw [handle_untagged_unmatched f s d st hm hu ht] at h
        exact absurd h (by simp)
      · rw [handle_untagged_trailing_step f s d st dd2 ty2 hm hu ht] at h
        rw [handle_untagged_trailing_step f s d (st ++ b) dd2 ty2 hm hu ht]
        injection h with h1x h2x
        injection h2x with h2a h2b
        rw [h2a, h2b]
    · rw [handle_untagged_plain f s d st ty dd hm hu] at h
      rw [handle_untagged_plain f s d (st ++ b) ty dd hm hu]
      injection h with h1x h2x
      injection h2x with h2a h2b
      rw [h2a, h2b]
  · rcases hq : qToULongLong ids with _ | i
    · rw [handle_untagged_fetch_badid f s d st ids fdata hm hq] at h
      exact absurd h (by simp)
    · rcases h2 : handle_raw_meta { s with mid := i } fdata with ⟨ok2, s2⟩
      cases ok2
      · rw [handle_untagged_fetch_metafail f s s2 d st ids fdata i hm hq h2] at h
        exact absurd h (by simp)
      · by_cases hbz : s2.bytesToRead = 0
        · rw [handle_untagged_fetch_inline f s s2 d st ids fdata i hm hq h2 hbz] at h
          rw [handle_untagged_fetch_inline f s s2 d (st ++ b) ids fdata i hm hq h2 hbz]
          injection h with h1x h2x
          injection h2x with h2a h2b
          rw [h2a, h2b]
        · rw [handle_untagged_fetch_raw f s s2 d st ids fdata i hm hq h2 hbz] at h
          rw [handle_untagged_fetch_raw f s s2 d (st ++ b) ids fdata i hm hq h2 hbz]
          rcases hr : handle_raw f { s2 with rawMode := true } st with ⟨okr, sr, str⟩
          rw [hr] at h
          cases okr
          · simp at h
          · have hre := handle_raw_extend f { s2 with rawMode := true } st b sr str hr
            rw [hre]
            simp only at h ⊢
            rw [if_neg (by simp)] at h ⊢
            injection h with h1x h2x
            injection h2x with h2a h2b
            rw [h2a, h2b]

theorem read_line_rawMode (s : IMAPResponse) (st : List Char) :
    (read_line_to_buffer s st).2.1.rawMode = s.rawMode := by
  simp only [read_line_to_buffer]
  split_ifs <;> rfl

theorem handle_raw_meta_list_rawMode (s : IMAPResponse) :
    ∀ ms : List PairMatch, (handle_raw_meta_list s ms).2.rawMode = s.rawMode := by
  intro ms
  induction ms generalizing s with
  | nil => rfl
  | cons m rest ih =>
    rcases m with ⟨mf, msz, md⟩
    simp only [handle_raw_meta_list]
    rcases msz with _ | ds
    · exact ih s
    · rcases hn : qToLongLong ds with _ | n
      · simp only [hn]
      · simp only [hn]
        rcases md with _ | d
        · rfl
        · exact ih _

theorem handle_raw_meta_rawMode (s : IMAPResponse) (d : List Char) :
    (handle_raw_meta s d).2.rawMode = s.rawMode :=
  handle_raw_meta_list_rawMode s (pairedGlobal d)

theorem rawReadStep_rawMode (s : IMAPResponse) (st : List Char) :
    (rawReadStep s st).1.rawMode = s.rawMode := rfl

theorem handle_raw_rawMode (f : Nat) : ∀ (s : IMAPResponse) (st : List Char),
    (handle_raw f s st).2.1.rawMode = s.rawMode := by
  induction f with
  | zero => intro s st; rfl
  | succ f ih =>
    intro s st
    by_cases hb : s.bytesToRead ≤ 0
    · rcases h1 : read_line_to_buffer s st with ⟨ok1, s1, st1⟩
      have e1 : s1.rawMode = s.rawMode := by
        have := read_line_rawMode s st
        rw [h1] at this
        exact this
      cases ok1
      · rw [handle_raw_step_readfail f s s1 st st1 hb h1]
        exact e1
      · by_cases hh : headIs s1.buffer ')' = true
        · rw [handle_raw_step_close f s s1 st st1 hb h1 hh]
          exact e1
        · have hh2 : headIs s1.buffer ')' = false := by
            cases hx : headIs s1.buffer ')'
            · rfl
            · exact absurd hx hh
          rcases h2 : handle_raw_meta s1 (qTrim s1.buffer) with ⟨ok2, s2⟩
          have e2 : s2.rawMode = s1.rawMode := by
            have := handle_raw_meta_rawMode s1 (qTrim s1.buffer)
            rw [h2] at this
            exact this
          cases ok2
          · rw [handle_raw_step_metafail f s s1 s2 st st1 hb h1 hh2 h2]
            exact e2.trans e1
          · rcases h3 : rawReadStep s2 st1 with ⟨s3, st3, more⟩
            have e3 : s3.rawMode = s2.rawMode := by
              have := rawReadStep_rawMode s2 st1
              rw [h3] at this
              exact this
            rw [handle_raw_step_meta f s s1 s2 s3 st st1 st3 more hb h1 hh2 h2 h3]
            cases more
            · simp only [Bool.false_eq_true, if_false]
              rw [ih s3 st3, e3, e2, e1]
            · simp only [if_true]
              rw [e3, e2, e1]
    · rcases h3 : rawReadStep s st with ⟨s3, st3, more⟩
      have e3 : s3.rawMode = s.rawMode := by
        have := rawReadStep_rawMode s st
        rw [h3] at this
        exact this
      rw [handle_raw_step_read f s s3 st st3 more hb h3]
      cases more
      · simp only [Bool.false_eq_true, if_false]
        rw [ih s3 st3, e3]
      · simp only [if_true]
        exact e3

theorem handle_raw_meta_list_false_error (s : IMAPResponse) :
    ∀ ms, (handle_raw_meta_list s ms).1 = false →
      (handle_raw_meta_list s ms).2.error = true := by
  intro ms
  induction ms generalizing s with
  | nil =>
    intro h
    simp [handle_raw_meta_list] at h
  | cons m rest ih =>
    rcases m with ⟨mf, msz, md⟩
    simp only [handle_raw_meta_list]
    rcases msz with _ | ds
    · exact ih s
    · rcases hn : qToLongLong ds with _ | n
      · simp only [hn]
        intro _
        trivial
      · simp only [hn]
        rcases md with _ | dd
        · intro h
          simp at h
        · exact ih _

theorem handle_untagged_false_inv (f : Nat) (s : IMAPResponse) (d st : List Char)
    (h : (handle_untagged f s d st).1 = false) :
    (handle_untagged f s d st).2.1.error = true ∨
    (handle_untagged f s d st).2.1.rawMode = true := by
  rcases hm : untaggedFetchMatch d with _ | ⟨ids, fdata⟩
  · rcases hu : untaggedMatch d with _ | ⟨ty, dd⟩
    · rcases ht : untaggedTrailingMatch d with _ | ⟨dd2, ty2⟩
      · rw [handle_untagged_unmatched f s d st hm hu ht]
        simp
      · rw [handle_untagged_trailing_step f s d st dd2 ty2 hm hu ht] at h
        simp at h
    · rw [handle_untagged_plain f s d st ty dd hm hu] at h
      simp at h
  · rcases hq : qToULongLong ids with _ | i
    · rw [handle_untagged_fetch_badid f s d st ids fdata hm hq]
      simp
    · rcases h2 : handle_raw_meta { s with mid := i } fdata with ⟨ok2, s2⟩
      cases ok2
      · rw [handle_untagged_fetch_metafail f s s2 d st ids fdata i hm hq h2]
        left
        have hml := handle_raw_meta_list_false_error { s with mid := i } (pairedGlobal fdata)
        have h2x : handle_raw_meta_list { s with mid := i } (pairedGlobal fdata) = (false, s2) := h2
        rw [h2x] at hml
        simp only at hml ⊢
        exact hml trivial
      · by_cases hbz : s2.bytesToRead = 0
        · rw [handle_untagged_fetch_inline f s s2 d st ids fdata i hm hq h2 hbz] at h
          simp at h
        · rw [handle_untagged_fetch_raw f s s2 d st ids fdata i hm hq h2 hbz] at h ⊢
          rcases hr : handle_raw f { s2 with rawMode := true } st with ⟨okr, sr, str⟩
          rw [hr] at h
          cases okr
          · right
            simp only at h ⊢
            rw [if_pos trivial]
            simp only
            have := handle_raw_rawMode f { s2 with rawMode := true } st
            rw [hr] at this
            exact this
          · simp at h

theorem handle_tagged_false_error (s : IMAPResponse) (d : List Char)
    (h : (handle_tagged s d).1 = false) : (handle_tagged s d).2.error = true := by
  simp only [handle_tagged] at h ⊢
  split at h
  · simp at h
  · rename_i heq
    simp only [heq]

theorem read_line_merge (s : IMAPResponse) (c c2 : List Char) (s1 : IMAPResponse)
    (h : read_line_to_buffer s c = (false, s1, [])) (herr : s1.error = false)
    (hnl : ∀ ch ∈ s1.buffer, ch ≠ '\n') :
    read_line_to_buffer s (c ++ c2) = read_line_to_buffer s1 c2 := by
  have hrest : (qReadLine c).2 = [] := by
    have := read_line_rest s c
    rw [h] at this
    exact this.symm
  rcases hq : qReadLine c with ⟨l, r0⟩
  rw [hq] at hrest
  simp only at hrest
  subst hrest
  have hlc : l = c := by
    have := qReadLine_join c
    rw [hq] at this
    simpa using this
  subst hlc
  simp only [read_line_to_buffer, hq] at h
  by_cases hb2 : endsCRLF s.buffer = true
  · rw [if_pos hb2] at h
    by_cases hbe : l = []
    · rw [if_pos hbe] at h
      injection h with h1x h2x
      injection h2x with h2a h2b
      rw [← h2a] at herr
      simp at herr
    · rw [if_neg hbe] at h
      by_cases hcr : endsCRLF l = true
      · rw [if_pos hcr] at h
        exact absurd h (by simp)
      · rw [if_neg hcr] at h
        injection h with h1x h2x
        injection h2x with h2a h2b
        subst h2a
        have hnc : ∀ ch ∈ l, ch ≠ '\n' := fun ch hch => hnl ch hch
        have hq2 := qReadLine_comp l c2 hnc
        simp only [read_line_to_buffer, hq2]
        rw [if_pos hb2,
            if_neg (show ¬ (endsCRLF
              ({ s with buffer := l } : IMAPResponse).buffer = true) from hcr)]
  · rw [if_neg hb2] at h
    by_cases hbe : s.buffer ++ l = []
    · rw [if_pos hbe] at h
      injection h with h1x h2x
      injection h2x with h2a h2b
      rw [← h2a] at herr
      simp at herr
    · rw [if_neg hbe] at h
      by_cases hcr : endsCRLF (s.buffer ++ l) = true
      · rw [if_pos hcr] at h
        exact absurd h (by simp)
      · rw [if_neg hcr] at h
        injection h with h1x h2x
        injection h2x with h2a h2b
        subst h2a
        have hnc : ∀ ch ∈ l, ch ≠ '\n' := by
          intro ch hch
          exact hnl ch (by simp [hch])
        have hq2 := qReadLine_comp l c2 hnc
        simp only [read_line_to_buffer, hq2]
        rw [if_neg hb2,
            if_neg (show ¬ (endsCRLF
              ({ s with buffer := s.buffer ++ l } : IMAPResponse).buffer = true) from hcr)]
        rw [show s.buffer ++ (l ++ (qReadLine c2).1) =
            (s.buffer ++ l) ++ (qReadLine c2).1 from by simp]

theorem handle_command_read_congr (F G : Nat) (s sB : IMAPResponse) (st stB : List Char)
    (hread : read_line_to_buffer s st = read_line_to_buffer sB stB)
    (hF : st.length ≤ F) (hG : stB.length ≤ G) :
    handle_command (F + 1) s st = handle_command (G + 1) sB stB := by
  rcases hr : read_line_to_buffer s st with ⟨ok, sM, stM⟩
  have hrB : read_line_to_buffer sB stB = (ok, sM, stM) := by rw [← hread, hr]
  cases ok
  · rw [handle_command_step_readfail F s sM st stM hr,
        handle_command_step_readfail G sB sM stB stM hrB]
  · have hlt : stM.length < st.length := by
      have := read_line_success_lt s st (by rw [hr])
      rw [hr] at this
      exact this
    have hltB : stM.length < stB.length := by
      have := read_line_success_lt sB stB (by rw [hrB])
      rw [hrB] at this
      exact this
    by_cases hh : headIs sM.buffer '*' = true
    · have huF : handle_untagged F sM (qTrim sM.buffer) stM =
          handle_untagged (stM.length + 1) sM (qTrim sM.buffer) stM :=
        handle_untagged_suff F sM _ stM (by omega)
      have huG : handle_untagged G sM (qTrim sM.buffer) stM =
          handle_untagged (stM.length + 1) sM (qTrim sM.buffer) stM :=
        handle_untagged_suff G sM _ stM (by omega)
      rcases h2 : handle_untagged (stM.length + 1) sM (qTrim sM.buffer) stM
        with ⟨ok2, s2, st2⟩
      have h2F : handle_untagged F sM (qTrim sM.buffer) stM = (ok2, s2, st2) := by
        rw [huF, h2]
      have h2G : handle_untagged G sM (qTrim sM.buffer) stM = (ok2, s2, st2) := by
        rw [huG, h2]
      cases ok2
      · rw [handle_command_step_untagged_fail F s sM s2 st stM st2 hr hh h2F,
            handle_command_step_untagged_fail G sB sM s2 stB stM st2 hrB hh h2G]
      · by_cases ht : sM.tag = CONNECT_TAG
        · rw [handle_command_connect_step F s st sM s2 stM st2 hr hh ht h2F,
              handle_command_connect_step G sB stB sM s2 stM st2 hrB hh ht h2G]
        · have hle2 : st2.length ≤ stM.length := by
            have := handle_untagged_rest_le (stM.length + 1) sM (qTrim sM.buffer) stM
            rw [h2] at this
            exact this
          rw [handle_command_step_untagged_ok F s sM s2 st stM st2 hr hh h2F ht,
              handle_command_step_untagged_ok G sB sM s2 stB stM st2 hrB hh h2G ht]
          rw [handle_command_suff st2.length s2 st2 le_rfl F (by omega),
              handle_command_suff st2.length s2 st2 le_rfl G (by omega)]
    · have hh2 : headIs sM.buffer '*' = false := by
        cases hx : headIs sM.buffer '*'
        · rfl
        · exact absurd hx hh
      by_cases hp : List.isPrefixOf sM.tag sM.buffer = true
      · rw [handle_command_step_tagged F s sM st stM hr hh2 hp,
            handle_command_step_tagged G sB sM stB stM hrB hh2 hp]
      · have hp2 : List.isPrefixOf sM.tag sM.buffer = false := by
          cases hx : List.isPrefixOf sM.tag sM.buffer
          · rfl
          · exact absurd hx hp
        rw [handle_command_step_garbage F s sM st stM hr hh2 hp2,
            handle_command_step_garbage G sB sM stB stM hrB hh2 hp2]

theorem handle_command_append : ∀ (f : Nat) (s : IMAPResponse) (c : List Char)
    (s' : IMAPResponse),
    handle_command f s c = (false, s', []) → s'.error = false → s'.rawMode = false →
    (∀ ch ∈ s'.buffer, ch ≠ '\n') →
    ∀ (c2 : List Char) (F G : Nat), (c ++ c2).length + 1 ≤ F → c2.length + 1 ≤ G →
      handle_command F s (c ++ c2) = handle_command G s' c2 := by
  intro f
  induction f with
  | zero =>
    intro s c s' h herr hrm hnl c2 F G hF hG
    simp only [handle_command] at h
    injection h with h1x h2x
    injection h2x with h2a h2b
    subst h2a
    subst h2b
    simp only [List.nil_append]
    rw [handle_command_suff c2.length s c2 le_rfl F (by simpa using hF),
        handle_command_suff c2.length s c2 le_rfl G hG]
  | succ f ih =>
    intro s c s' h herr hrm hnl c2 F G hF hG
    rcases h1 : read_line_to_buffer s c with ⟨ok1, s1, st1⟩
    cases ok1
    · rw [handle_command_step_readfail f s s1 c st1 h1] at h
      injection h with h1x h2x
      injection h2x with h2a h2b
      subst h2a
      subst h2b
      have hmerge := read_line_merge s c c2 s1 h1 herr hnl
      rcases F with _ | F
      · omega
      rcases G with _ | G
      · omega
      exact handle_command_read_congr F G s s1 (c ++ c2) c2 hmerge
        (by simp only [List.length_append] at hF ⊢; omega) (by omega)
    · by_cases hh : headIs s1.buffer '*' = true
      · rcases h2 : handle_untagged f s1 (qTrim s1.buffer) st1 with ⟨ok2, s2, st2⟩
        cases ok2
        · rw [handle_command_step_untagged_fail f s s1 s2 c st1 st2 h1 hh h2] at h
          injection h with h1x h2x
          injection h2x with h2a h2b
          subst h2a
          have hfi := handle_untagged_false_inv f s1 (qTrim s1.buffer) st1 (by rw [h2])
          rw [h2] at hfi
          simp only at hfi
          rcases hfi with hfi | hfi
          · rw [hfi] at herr
            cases herr
          · rw [hfi] at hrm
            cases hrm
        · by_cases ht : s1.tag = CONNECT_TAG
          · rw [handle_command_connect_step f s c s1 s2 st1 st2 h1 hh ht h2] at h
            exact absurd h (by simp)
          · rw [handle_command_step_untagged_ok f s s1 s2 c st1 st2 h1 hh h2 ht] at h
            have hlt1 : st1.length < c.length := by
              have := read_line_success_lt s c (by rw [h1])
              rw [h1] at this
              exact this
            have hle2 : st2.length ≤ st1.length := by
              have := handle_untagged_rest_le f s1 (qTrim s1.buffer) st1
              rw [h2] at this
              exact this
            have h1e := read_line_extend s c c2 s1 st1 h1
            have h2e := handle_untagged_extend f s1 (qTrim s1.buffer) st1 c2 s2 st2 h2
            rcases F with _ | F
            · omega
            have h2F : handle_untagged F s1 (qTrim s1.buffer) (st1 ++ c2) =
                (true, s2, st2 ++ c2) :=
              handle_untagged_anyfuel f F s1 _ (st1 ++ c2) s2 (st2 ++ c2) h2e
                (by simp only [List.length_append] at hF ⊢; omega)
            rw [handle_command_step_untagged_ok F s s1 s2 (c ++ c2) (st1 ++ c2)
                  (st2 ++ c2) h1e hh h2F ht]
            exact ih s2 st2 s' h herr hrm hnl c2 F G
              (by simp only [List.length_append] at hF ⊢; omega) hG
      · have hh2 : headIs s1.buffer '*' = false := by
          cases hx : headIs s1.buffer '*'
          · rfl
          · exact absurd hx hh
        by_cases hp : List.isPrefixOf s1.tag s1.buffer = true
        · rw [handle_command_step_tagged f s s1 c st1 h1 hh2 hp] at h
          rcases hht : handle_tagged s1 (qTrim s1.buffer) with ⟨okT, sT⟩
          rw [hht] at h
          simp only at h
          injection h with h1x h2x
          injection h2x with h2a h2b
          cases okT
          · have hte := handle_tagged_false_error s1 (qTrim s1.buffer) (by rw [hht])
            rw [hht] at hte
            simp only at hte
            rw [h2a] at hte
            rw [hte] at herr
            cases herr
          · cases h1x
        · have hp2 : List.isPrefixOf s1.tag s1.buffer = false := by
            cases hx : List.isPrefixOf s1.tag s1.buffer
            · rfl
            · exact absurd hx hp
          rw [handle_command_step_garbage f s s1 c st1 h1 hh2 hp2] at h
          injection h with h1x h2x
          injection h2x with h2a h2b
          rw [← h2a] at herr
          simp at herr

theorem qReadLine_no_nl_rest : ∀ st : List Char,
    (∀ ch ∈ (qReadLine st).1, ch ≠ '\n') → (qReadLine st).2 = [] := by
  intro st
  induction st with
  | nil => intro _; rfl
  | cons c r ih =>
    intro h
    simp only [qReadLine] at h ⊢
    by_cases hc : c = '\n'
    · rw [if_pos hc] at h
      exact absurd hc (h c (by simp))
    · rw [if_neg hc] at h ⊢
      exact ih (fun x hx => h x (by simp [hx]))

theorem read_line_buffer (s : IMAPResponse) (st : List Char) :
    (read_line_to_buffer s st).2.1.buffer =
      (if endsCRLF s.buffer then (qReadLine st).1 else s.buffer ++ (qReadLine st).1) := by
  simp only [read_line_to_buffer]
  split_ifs <;> rfl

theorem handle_command_false_rem : ∀ (f : Nat) (s : IMAPResponse) (c : List Char)
    (s' : IMAPResponse) (rem : List Char), c.length + 1 ≤ f →
    handle_command f s c = (false, s', rem) → s'.error = false → s'.rawMode = false →
    (∀ ch ∈ s'.buffer, ch ≠ '\n') → rem = [] := by
  intro f
  induction f with
  | zero =>
    intro s c s' rem hf
    omega
  | succ f ih =>
    intro s c s' rem hf h herr hrm hnl
    rcases h1 : read_line_to_buffer s c with ⟨ok1, s1, st1⟩
    cases ok1
    · rw [handle_command_step_readfail f s s1 c st1 h1] at h
      injection h with h1x h2x
      injection h2x with h2a h2b
      subst h2a
      subst h2b
      have hbuf : s1.buffer =
          (if endsCRLF s.buffer then (qReadLine c).1
           else s.buffer ++ (qReadLine c).1) := by
        have := read_line_buffer s c
        rw [h1] at this
        exact this
      have hln : ∀ ch ∈ (qReadLine c).1, ch ≠ '\n' := by
        intro ch hch
        apply hnl
        rw [hbuf]
        by_cases hb2 : endsCRLF s.buffer = true
        · rw [if_pos hb2]
          exact hch
        · rw [if_neg hb2]
          simp [hch]
      have hrest : st1 = (qReadLine c).2 := by
        have := read_line_rest s c
        rw [h1] at this
        exact this
      rw [hrest]
      exact qReadLine_no_nl_rest c hln
    · have hlt1 : st1.length < c.length := by
        have := read_line_success_lt s c (by rw [h1])
        rw [h1] at this
        exact this
      by_cases hh : headIs s1.buffer '*' = true
      · rcases h2 : handle_untagged f s1 (qTrim s1.buffer) st1 with ⟨ok2, s2, st2⟩
        cases ok2
        · rw [handle_command_step_untagged_fail f s s1 s2 c st1 st2 h1 hh h2] at h
          injection h with h1x h2x
          injection h2x with h2a h2b
          subst h2a
          have hfi := handle_untagged_false_inv f s1 (qTrim s1.buffer) st1 (by rw [h2])
          rw [h2] at hfi
          simp only at hfi
          rcases hfi with hfi | hfi
          · rw [hfi] at herr
            cases herr
          · rw [hfi] at hrm
            cases hrm
        · by_cases ht : s1.tag = CONNECT_TAG
          · rw [handle_command_connect_step f s c s1 s2 st1 st2 h1 hh ht h2] at h
            exact absurd h (by simp)
          · rw [handle_command_step_untagged_ok f s s1 s2 c st1 st2 h1 hh h2 ht] at h
            have hle2 : st2.length ≤ st1.length := by
              have := handle_untagged_rest_le f s1 (qTrim s1.buffer) st1
              rw [h2] at this
              exact this
            exact ih s2 st2 s' rem (by omega) h herr hrm hnl
      · have hh2 : headIs s1.buffer '*' = false := by
          cases hx : headIs s1.buffer '*'
          · rfl
          · exact absurd hx hh
        by_cases hp : List.isPrefixOf s1.tag s1.buffer = true
        · rw [handle_command_step_tagged f s s1 c st1 h1 hh2 hp] at h
          rcases hht : handle_tagged s1 (qTrim s1.buffer) with ⟨okT, sT⟩
          rw [hht] at h
          simp only at h
          injection h with h1x h2x
          injection h2x with h2a h2b
          cases okT
          · have hte := handle_tagged_false_error s1 (qTrim s1.buffer) (by rw [hht])
            rw [hht] at hte
            simp only at hte
            rw [h2a] at hte
            rw [hte] at herr
            cases herr
          · cases h1x
        · have hp2 : List.isPrefixOf s1.tag s1.buffer = false := by
            cases hx : List.isPrefixOf s1.tag s1.buffer
            · rfl
            · exact absurd hx hp
          rw [handle_command_step_garbage f s s1 c st1 h1 hh2 hp2] at h
          injection h with h1x h2x
          injection h2x with h2a h2b
          rw [← h2a] at herr
          simp at herr

theorem read_line_bytes (s : IMAPResponse) (st : List Char) :
    (read_line_to_buffer s st).2.1.bytesToRead = s.bytesToRead := by
  simp only [read_line_to_buffer]
  split_ifs <;> rfl

theorem assocUpdate_comp {α : Type} : ∀ (m : List (Nat × α)) (k : Nat) (dflt : α)
    (f g : α → α),
    assocUpdate (assocUpdate m k dflt f) k dflt g =
      assocUpdate m k dflt (fun v => g (f v)) := by
  intro m
  induction m with
  | nil =>
    intro k dflt f g
    simp [assocUpdate]
  | cons p rest ih =>
    intro k dflt f g
    rcases p with ⟨k0, v⟩
    by_cases hk : k0 = k
    · simp [assocUpdate, hk]
    · simp only [assocUpdate, if_neg hk]
      rw [ih]

theorem assocUpdateS_comp {α : Type} : ∀ (m : List (List Char × α)) (k : List Char)
    (dflt : α) (f g : α → α),
    assocUpdateS (assocUpdateS m k dflt f) k dflt g =
      assocUpdateS m k dflt (fun v => g (f v)) := by
  intro m
  induction m with
  | nil =>
    intro k dflt f g
    simp [assocUpdateS]
  | cons p rest ih =>
    intro k dflt f g
    rcases p with ⟨k0, v⟩
    by_cases hk : k0 = k
    · simp [assocUpdateS, hk]
    · simp only [assocUpdateS, if_neg hk]
      rw [ih]

theorem rawAppend_rawAppend (m : RawMap) (i : Nat) (fl a b : List Char) :
    rawAppend (rawAppend m i fl a) i fl b = rawAppend m i fl (a ++ b) := by
  simp only [rawAppend]
  rw [assocUpdate_comp]
  congr 1
  funext sub
  rw [assocUpdateS_comp]
  congr 1
  funext old
  simp

theorem rawReadStep_more_rest (s : IMAPResponse) (st : List Char)
    (h : (rawReadStep s st).2.2 = true) : (rawReadStep s st).2.1 = [] := by
  simp only [rawReadStep, decide_eq_true_eq] at h ⊢
  rw [List.drop_eq_nil_iff]
  rw [List.length_take] at h
  omega

theorem rawReadStep_merge (s s3 : IMAPResponse) (st c2 : List Char)
    (h : rawReadStep s st = (s3, [], true)) :
    rawReadStep s (st ++ c2) = rawReadStep s3 c2 := by
  simp only [rawReadStep] at h
  injection h with h1 h2
  injection h2 with h2a h2b
  have hlen : st.length ≤ s.bytesToRead.toNat := by
    have hl := congrArg List.length h2a
    simp only [List.length_drop, List.length_nil] at hl
    omega
  have htake : st.take s.bytesToRead.toNat = st := List.take_of_length_le hlen
  rw [htake] at h1 h2b
  have hpos : (st.length : Int) < s.bytesToRead := by
    have := of_decide_eq_true h2b
    simp only at this
    omega
  have hN : (s.bytesToRead - (st.length : Int)).toNat = s.bytesToRead.toNat - st.length := by
    omega
  subst h1
  simp only [rawReadStep, List.take_append_eq_append_take, List.drop_append_eq_append_drop,
    htake, h2a, hN, List.nil_append]
  rw [← rawAppend_rawAppend s.raw s.mid s.field st
        (c2.take (s.bytesToRead.toNat - st.length))]
  have harith : ∀ t2 : List Char,
      s.bytesToRead - ((st ++ t2).length : Int) =
        s.bytesToRead - (st.length : Int) - (t2.length : Int) := by
    intro t2
    simp only [List.length_append]
    push_cast
    ring
  rw [harith]

theorem handle_raw_read_congr (F G : Nat) (s sB : IMAPResponse) (st stB : List Char)
    (hb : s.bytesToRead ≤ 0) (hbB : sB.bytesToRead ≤ 0)
    (hread : read_line_to_buffer s st = read_line_to_buffer sB stB)
    (hF : st.length ≤ F) (hG : stB.length ≤ G) :
    handle_raw (F + 1) s st = handle_raw (G + 1) sB stB := by
  rcases hr : read_line_to_buffer s st with ⟨ok, sM, stM⟩
  have hrB : read_line_to_buffer sB stB = (ok, sM, stM) := by rw [← hread, hr]
  cases ok
  · rw [handle_raw_step_readfail F s sM st stM hb hr,
        handle_raw_step_readfail G sB sM stB stM hbB hrB]
  · have hlt : stM.length < st.length := by
      have := read_line_success_lt s st (by rw [hr])
      rw [hr] at this
      exact this
    have hltB : stM.length < stB.length := by
      have := read_line_success_lt sB stB (by rw [hrB])
      rw [hrB] at this
      exact this
    by_cases hh : headIs sM.buffer ')' = true
    · rw [handle_raw_step_close F s sM st stM hb hr hh,
          handle_raw_step_close G sB sM stB stM hbB hrB hh]
    · have hh2 : headIs sM.buffer ')' = false := by
        cases hx : headIs sM.buffer ')'
        · rfl
        · exact absurd hx hh
      rcases h2 : handle_raw_meta sM (qTrim sM.buffer) with ⟨ok2, s2⟩
      cases ok2
      · rw [handle_raw_step_metafail F s sM s2 st stM hb hr hh2 h2,
            handle_raw_step_metafail G sB sM s2 stB stM hbB hrB hh2 h2]
      · rcases h3 : rawReadStep s2 stM with ⟨s3, st3, more⟩
        have hle3 : st3.length ≤ stM.length := by
          have := rawReadStep_rest_le s2 stM
          rw [h3] at this
          exact this
        rw [handle_raw_step_meta F s sM s2 s3 st stM st3 more hb hr hh2 h2 h3,
            handle_raw_step_meta G sB sM s2 s3 stB stM st3 more hbB hrB hh2 h2 h3]
        cases more
        · simp only [Bool.false_eq_true, if_false]
          rw [handle_raw_suff st3.length s3 st3 le_rfl F (by omega),
              handle_raw_suff st3.length s3 st3 le_rfl G (by omega)]
        · rfl

theorem handle_raw_append : ∀ (f : Nat) (s : IMAPResponse) (c : List Char)
    (s' : IMAPResponse),
    handle_raw f s c = (false, s', []) → s'.error = false →
    (0 < s'.bytesToRead ∨ ∀ ch ∈ s'.buffer, ch ≠ '\n') →
    ∀ (c2 : List Char) (F G : Nat), (c ++ c2).length + 1 ≤ F → c2.length + 1 ≤ G →
      handle_raw F s (c ++ c2) = handle_raw G s' c2 := by
  intro f
  induction f with
  | zero =>
    intro s c s' h herr hcl c2 F G hF hG
    simp only [handle_raw] at h
    injection h with h1x h2x
    injection h2x with h2a h2b
    subst h2a
    subst h2b
    simp only [List.nil_append]
    rw [handle_raw_suff c2.length s c2 le_rfl F (by simpa using hF),
        handle_raw_suff c2.length s c2 le_rfl G hG]
  | succ f ih =>
    intro s c s' h herr hcl c2 F G hF hG
    by_cases hb : s.bytesToRead ≤ 0
    · rcases h1 : read_line_to_buffer s c with ⟨ok1, s1, st1⟩
      cases ok1
      · rw [handle_raw_step_readfail f s s1 c st1 hb h1] at h
        injection h with h1x h2x
        injection h2x with h2a h2b
        subst h2a
        subst h2b
        have hbytes : s1.bytesToRead = s.bytesToRead := by
          have := read_line_bytes s c
          rw [h1] at this
          exact this
        have hnl : ∀ ch ∈ s1.buffer, ch ≠ '\n' := by
          rcases hcl with hl | hr
          · exfalso
            rw [hbytes] at hl
            omega
          · exact hr
        have hmerge := read_line_merge s c c2 s1 h1 herr hnl
        rcases F with _ | F
        · omega
        rcases G with _ | G
        · omega
        have hbB : s1.bytesToRead ≤ 0 := by
          rw [hbytes]
          exact hb
        exact handle_raw_read_congr F G s s1 (c ++ c2) c2 hb hbB hmerge
          (by simp only [List.length_append] at hF ⊢; omega) (by omega)
      · have hlt1 : st1.length < c.length := by
          have := read_line_success_lt s c (by rw [h1])
          rw [h1] at this
          exact this
        have h1e := read_line_extend s c c2 s1 st1 h1
        by_cases hh : headIs s1.buffer ')' = true
        · rw [handle_raw_step_close f s s1 c st1 hb h1 hh] at h
          exact absurd h (by simp)
        · have hh2 : headIs s1.buffer ')' = false := by
            cases hx : headIs s1.buffer ')'
            · rfl
            · exact absurd hx hh
          rcases h2 : handle_raw_meta s1 (qTrim s1.buffer) with ⟨ok2, s2⟩
          cases ok2
          · rw [handle_raw_step_metafail f s s1 s2 c st1 hb h1 hh2 h2] at h
            injection h with h1x h2x
            injection h2x with h2a h2b
            have he2 : s2.error = true := by
              have hml := handle_raw_meta_list_false_error s1
                (pairedGlobal (qTrim s1.buffer))
              rw [show handle_raw_meta_list s1 (pairedGlobal (qTrim s1.buffer))
                    = (false, s2) from h2] at hml
              exact hml rfl
            rw [h2a] at he2
            rw [he2] at herr
            cases herr
          · rcases h3 : rawReadStep s2 st1 with ⟨s3, st3, more⟩
            rw [handle_raw_step_meta f s s1 s2 s3 c st1 st3 more hb h1 hh2 h2 h3] at h
            cases more
            · simp only [Bool.false_eq_true, if_false] at h
              have h3e := rawReadStep_extend s2 st1 c2 s3 st3 h3
              rcases F with _ | F
              · omega
              rw [handle_raw_step_meta F s s1 s2 s3 (c ++ c2) (st1 ++ c2) (st3 ++ c2)
                    false hb h1e hh2 h2 h3e]
              simp only [Bool.false_eq_true, if_false]
              have hle3 : st3.length ≤ st1.length := by
                have := rawReadStep_rest_le s2 st1
                rw [h3] at this
                exact this
              exact ih s3 st3 s' h herr hcl c2 F G
                (by simp only [List.length_append] at hF ⊢; omega) hG
            · simp only [if_true] at h
              injection h with h1x h2x
              injection h2x with h2a h2b
              subst h2a
              subst h2b
              have hmm : rawReadStep s2 st1 = (s3, [], true) := h3
              have hmerge := rawReadStep_merge s2 s3 st1 c2 hmm
              have hbpos : ¬ s3.bytesToRead ≤ 0 := by
                have := congrArg (fun x => x.2.2) hmm
                simp only [rawReadStep, decide_eq_true_eq] at this
                have h2c := congrArg IMAPResponse.bytesToRead
                  (congrArg (fun x => x.1) hmm)
                simp only [rawReadStep] at h2c
                omega
              rcases hr2 : rawReadStep s3 c2 with ⟨s4, st4, more2⟩
              rcases F with _ | F
              · omega
              rcases G with _ | G
              · omega
              rw [handle_raw_step_meta F s s1 s2 s4 (c ++ c2) (st1 ++ c2) st4 more2
                    hb h1e hh2 h2 (by rw [hmerge, hr2]),
                  handle_raw_step_read G s3 s4 c2 st4 more2 hbpos hr2]
              cases more2
              · simp only [Bool.false_eq_true, if_false]
                have hc2ne : c2 ≠ [] := by
                  intro hc2
                  subst hc2
                  have := rawReadStep_more_nil s3 hbpos
                  rw [hr2] at this
                  cases this
                have hlt4 : st4.length < c2.length := by
                  have := rawReadStep_rest_lt s3 c2 hbpos hc2ne
                  rw [hr2] at this
                  exact this
                rw [handle_raw_suff st4.length s4 st4 le_rfl F
                      (by simp only [List.length_append] at hF; omega),
                    handle_raw_suff st4.length s4 st4 le_rfl G (by omega)]
              · rfl
    · rcases h3 : rawReadStep s c with ⟨s3, st3, more⟩
      rw [handle_raw_step_read f s s3 c st3 more hb h3] at h
      cases more
      · simp only [Bool.false_eq_true, if_false] at h
        have h3e := rawReadStep_extend s c c2 s3 st3 h3
        rcases F with _ | F
        · omega
        rw [handle_raw_step_read F s s3 (c ++ c2) (st3 ++ c2) false hb h3e]
        simp only [Bool.false_eq_true, if_false]
        have hcne : c ≠ [] := by
          intro hc0
          subst hc0
          have := rawReadStep_more_nil s hb
          rw [h3] at this
          cases this
        have hlt3 : st3.length < c.length := by
          have := rawReadStep_rest_lt s c hb hcne
          rw [h3] at this
          exact this
        exact ih s3 st3 s' h herr hcl c2 F G
          (by simp only [List.length_append] at hF ⊢; omega) hG
      · simp only [if_true] at h
        injection h with h1x h2x
        injection h2x with h2a h2b
        subst h2a
        subst h2b
        have hmm : rawReadStep s c = (s3, [], true) := h3
        have hmerge := rawReadStep_merge s s3 c c2 hmm
        have hbpos : ¬ s3.bytesToRead ≤ 0 := by
          have := congrArg (fun x => x.2.2) hmm
          simp only [rawReadStep, decide_eq_true_eq] at this
          have h2c := congrArg IMAPResponse.bytesToRead
            (congrArg (fun x => x.1) hmm)
          simp only [rawReadStep] at h2c
          omega
        rcases hr2 : rawReadStep s3 c2 with ⟨s4, st4, more2⟩
        rcases F with _ | F
        · omega
        rcases G with _ | G
        · omega
        rw [handle_raw_step_read F s s4 (c ++ c2) st4 more2 hb (by rw [hmerge, hr2]),
            handle_raw_step_read G s3 s4 c2 st4 more2 hbpos hr2]
        cases more2
        · simp only [Bool.false_eq_true, if_false]
          have hc2ne : c2 ≠ [] := by
            intro hc2
            subst hc2
            have := rawReadStep_more_nil s3 hbpos
            rw [hr2] at this
            cases this
          have hlt4 : st4.length < c2.length := by
            have := rawReadStep_rest_lt s3 c2 hbpos hc2ne
            rw [hr2] at this
            exact this
          rw [handle_raw_suff st4.length s4 st4 le_rfl F
                (by simp only [List.length_append] at hF; omega),
              handle_raw_suff st4.length s4 st4 le_rfl G (by omega)]
        · rfl

theorem handle_raw_false_rem : ∀ (f : Nat) (s : IMAPResponse) (c : List Char)
    (s' : IMAPResponse) (rem : List Char), c.length + 1 ≤ f →
    handle_raw f s c = (false, s', rem) → s'.error = false →
    (0 < s'.bytesToRead ∨ ∀ ch ∈ s'.buffer, ch ≠ '\n') → rem = [] := by
  intro f
  induction f with
  | zero =>
    intro s c s' rem hf
    omega
  | succ f ih =>
    intro s c s' rem hf h herr hcl
    by_cases hb : s.bytesToRead ≤ 0
    · rcases h1 : read_line_to_buffer s c with ⟨ok1, s1, st1⟩
      cases ok1
      · rw [handle_raw_step_readfail f s s1 c st1 hb h1] at h
        injection h with h1x h2x
        injection h2x with h2a h2b
        subst h2a
        subst h2b
        have hbytes : s1.bytesToRead = s.bytesToRead := by
          have := read_line_bytes s c
          rw [h1] at this
          exact this
        have hnl : ∀ ch ∈ s1.buffer, ch ≠ '\n' := by
          rcases hcl with hl | hr
          · exfalso
            rw [hbytes] at hl
            omega
          · exact hr
        have hbuf : s1.buffer =
            (if endsCRLF s.buffer then (qReadLine c).1
             else s.buffer ++ (qReadLine c).1) := by
          have := read_line_buffer s c
          rw [h1] at this
          exact this
        have hln : ∀ ch ∈ (qReadLine c).1, ch ≠ '\n' := by
          intro ch hch
          apply hnl
          rw [hbuf]
          by_cases hb2 : endsCRLF s.buffer = true
          · rw [if_pos hb2]
            exact hch
          · rw [if_neg hb2]
            simp [hch]
        have hrest : st1 = (qReadLine c).2 := by
          have := read_line_rest s c
          rw [h1] at this
          exact this
        rw [hrest]
        exact qReadLine_no_nl_rest c hln
      · have hlt1 : st1.length < c.length := by
          have := read_line_success_lt s c (by rw [h1])
          rw [h1] at this
          exact this
        by_cases hh : headIs s1.buffer ')' = true
        · rw [handle_raw_step_close f s s1 c st1 hb h1 hh] at h
          exact absurd h (by simp)
        · have hh2 : headIs s1.buffer ')' = false := by
            cases hx : headIs s1.buffer ')'
            · rfl
            · exact absurd hx hh
          rcases h2 : handle_raw_meta s1 (qTrim s1.buffer) with ⟨ok2, s2⟩
          cases ok2
          · rw [handle_raw_step_metafail f s s1 s2 c st1 hb h1 hh2 h2] at h
            injection h with h1x h2x
            injection h2x with h2a h2b
            have he2 : s2.error = true := by
              have hml := handle_raw_meta_list_false_error s1
                (pairedGlobal (qTrim s1.buffer))
              rw [show handle_raw_meta_list s1 (pairedGlobal (qTrim s1.buffer))
                    = (false, s2) from h2] at hml
              exact hml rfl
            rw [h2a] at he2
            rw [he2] at herr
            cases herr
          · rcases h3 : rawReadStep s2 st1 with ⟨s3, st3, more⟩
            rw [handle_raw_step_meta f s s1 s2 s3 c st1 st3 more hb h1 hh2 h2 h3] at h
            cases more
            · simp only [Bool.false_eq_true, if_false] at h
              have hle3 : st3.length ≤ st1.length := by
                have := rawReadStep_rest_le s2 st1
                rw [h3] at this
                exact this
              exact ih s3 st3 s' rem (by omega) h herr hcl
            · simp only [if_true] at h
              injection h with h1x h2x
              injection h2x with h2a h2b
              subst h2b
              have := rawReadStep_more_rest s2 st1 (by rw [h3])
              rw [h3] at this
              exact this
    · rcases h3 : rawReadStep s c with ⟨s3, st3, more⟩
      rw [handle_raw_step_read f s s3 c st3 more hb h3] at h
      cases more
      · simp only [Bool.false_eq_true, if_false] at h
        have hcne : c ≠ [] := by
          intro hc0
          subst hc0
          have := rawReadStep_more_nil s hb
          rw [h3] at this
          cases this
        have hlt3 : st3.length < c.length := by
          have := rawReadStep_rest_lt s c hb hcne
          rw [h3] at this
          exact this
        exact ih s3 st3 s' rem (by omega) h herr hcl
      · simp only [if_true] at h
        injection h with h1x h2x
        injection h2x with h2a h2b
        subst h2b
        have := rawReadStep_more_rest s c (by rw [h3])
        rw [h3] at this
        exact this

theorem handle_untagged_true_rawMode_false (f : Nat) (s : IMAPResponse) (d st : List Char)
    (hs : s.rawMode = false) (h : (handle_untagged f s d st).1 = true) :
    (handle_untagged f s d st).2.1.rawMode = false := by
  rcases hm : untaggedFetchMatch d with _ | ⟨ids, fdata⟩
  · rcases hu : untaggedMatch d with _ | ⟨ty, dd⟩
    · rcases ht : untaggedTrailingMatch d with _ | ⟨dd2, ty2⟩
      · rw [handle_untagged_unmatched f s d st hm hu ht] at h
        cases h
      · rw [handle_untagged_trailing_step f s d st dd2 ty2 hm hu ht]
        exact hs
    · rw [handle_untagged_plain f s d st ty dd hm hu]
      exact hs
  · rcases hq : qToULongLong ids with _ | i
    · rw [handle_untagged_fetch_badid f s d st ids fdata hm hq] at h
      cases h
    · rcases h2 : handle_raw_meta { s with mid := i } fdata with ⟨ok2, s2⟩
      cases ok2
      · rw [handle_untagged_fetch_metafail f s s2 d st ids fdata i hm hq h2] at h
        cases h
      · by_cases hbz : s2.bytesToRead = 0
        · rw [handle_untagged_fetch_inline f s s2 d st ids fdata i hm hq h2 hbz]
          have hrm2 : s2.rawMode = ({ s with mid := i } : IMAPResponse).rawMode := by
            have := handle_raw_meta_rawMode { s with mid := i } fdata
            rw [h2] at this
            exact this
          simp only at hrm2 ⊢
          rw [hrm2]
          exact hs
        · rw [handle_untagged_fetch_raw f s s2 d st ids fdata i hm hq h2 hbz] at h ⊢
          rcases hr : handle_raw f { s2 with rawMode := true } st with ⟨okr, sr, str⟩
          rw [hr] at h
          cases okr
          · rw [if_pos rfl] at h
            cases h
          · rw [if_neg (by simp)]

theorem handle_untagged_false_rem (f : Nat) (s : IMAPResponse) (d st : List Char)
    (s' : IMAPResponse) (rem : List Char) (hf : st.length + 1 ≤ f)
    (h : handle_untagged f s d st = (false, s', rem)) (herr : s'.error = false)
    (hcl : 0 < s'.bytesToRead ∨ ∀ ch ∈ s'.buffer, ch ≠ '\n') : rem = [] := by
  rcases hm : untaggedFetchMatch d with _ | ⟨ids, fdata⟩
  · rcases hu : untaggedMatch d with _ | ⟨ty, dd⟩
    · rcases ht : untaggedTrailingMatch d with _ | ⟨dd2, ty2⟩
      · rw [handle_untagged_unmatched f s d st hm hu ht] at h
        injection h with h1x h2x
        injection h2x with h2a h2b
        rw [← h2a] at herr
        simp at herr
      · rw [handle_untagged_trailing_step f s d st dd2 ty2 hm hu ht] at h
        exact absurd h (by simp)
    · rw [handle_untagged_plain f s d st ty dd hm hu] at h
      exact absurd h (by simp)
  · rcases hq : qToULongLong ids with _ | i
    · rw [handle_untagged_fetch_badid f s d st ids fdata hm hq] at h
      injection h with h1x h2x
      injection h2x with h2a h2b
      rw [← h2a] at herr
      simp at herr
    · rcases h2 : handle_raw_meta { s with mid := i } fdata with ⟨ok2, s2⟩
      cases ok2
      · rw [handle_untagged_fetch_metafail f s s2 d st ids fdata i hm hq h2] at h
        injection h with h1x h2x
        injection h2x with h2a h2b
        have he2 : s2.error = true := by
          have hml := handle_raw_meta_list_false_error { s with mid := i }
            (pairedGlobal fdata)
          rw [show handle_raw_meta_list { s with mid := i } (pairedGlobal fdata)
                = (false, s2) from h2] at hml
          exact hml rfl
        rw [h2a] at he2
        rw [he2] at herr
        cases herr
      · by_cases hbz : s2.bytesToRead = 0
        · rw [handle_untagged_fetch_inline f s s2 d st ids fdata i hm hq h2 hbz] at h
          exact absurd h (by simp)
        · rw [handle_untagged_fetch_raw f s s2 d st ids fdata i hm hq h2 hbz] at h
          rcases hr : handle_raw f { s2 with rawMode := true } st with ⟨okr, sr, str⟩
          rw [hr] at h
          cases okr
          · rw [if_pos rfl] at h
            injection h with h1x h2x
            injection h2x with h2a h2b
            subst h2a
            subst h2b
            exact handle_raw_false_rem f { s2 with rawMode := true } st sr str hf
              (by rw [hr]) herr hcl
          · rw [if_neg (by simp)] at h
            exact absurd h (by simp)

theorem handle_untagged_append_raw (f : Nat) (s : IMAPResponse) (d st : List Char)
    (s' : IMAPResponse)
    (h : handle_untagged f s d st = (false, s', [])) (herr : s'.error = false)
    (hcl : 0 < s'.bytesToRead ∨ ∀ ch ∈ s'.buffer, ch ≠ '\n') :
    ∀ (c2 : List Char) (F : Nat), (st ++ c2).length + 1 ≤ F →
      handle_untagged F s d (st ++ c2) =
        (if (handle_raw (c2.length + 1) s' c2).1 = false
         then (false, (handle_raw (c2.length + 1) s' c2).2.1,
               (handle_raw (c2.length + 1) s' c2).2.2)
         else (true, { (handle_raw (c2.length + 1) s' c2).2.1 with rawMode := false },
               (handle_raw (c2.length + 1) s' c2).2.2)) := by
  intro c2 F hF
  rcases hm : untaggedFetchMatch d with _ | ⟨ids, fdata⟩
  · rcases hu : untaggedMatch d with _ | ⟨ty, dd⟩
    · rcases ht : untaggedTrailingMatch d with _ | ⟨dd2, ty2⟩
      · rw [handle_untagged_unmatched f s d st hm hu ht] at h
        injection h with h1x h2x
        injection h2x with h2a h2b
        rw [← h2a] at herr
        simp at herr
      · rw [handle_untagged_trailing_step f s d st dd2 ty2 hm hu ht] at h
        exact absurd h (by simp)
    · rw [handle_untagged_plain f s d st ty dd hm hu] at h
      exact absurd h (by simp)
  · rcases hq : qToULongLong ids with _ | i
    · rw [handle_untagged_fetch_badid f s d st ids fdata hm hq] at h
      injection h with h1x h2x
      injection h2x with h2a h2b
      rw [← h2a] at herr
      simp at herr
    · rcases h2 : handle_raw_meta { s with mid := i } fdata with ⟨ok2, s2⟩
      cases ok2
      · rw [handle_untagged_fetch_metafail f s s2 d st ids fdata i hm hq h2] at h
        injection h with h1x h2x
        injection h2x with h2a h2b
        have he2 : s2.error = true := by
          have hml := handle_raw_meta_list_false_error { s with mid := i }
            (pairedGlobal fdata)
          rw [show handle_raw_meta_list { s with mid := i } (pairedGlobal fdata)
                = (false, s2) from h2] at hml
          exact hml rfl
        rw [h2a] at he2
        rw [he2] at herr
        cases herr
      · by_cases hbz : s2.bytesToRead = 0
        · rw [handle_untagged_fetch_inline f s s2 d st ids fdata i hm hq h2 hbz] at h
          exact absurd h (by simp)
        · rw [handle_untagged_fetch_raw f s s2 d st ids fdata i hm hq h2 hbz] at h
          rcases hr : handle_raw f { s2 with rawMode := true } st with ⟨okr, sr, str⟩
          rw [hr] at h
          cases okr
          · rw [if_pos rfl] at h
            injection h with h1x h2x
            injection h2x with h2a h2b
            subst h2a
            subst h2b
            have hEq : handle_raw F { s2 with rawMode := true } (st ++ c2) =
                handle_raw (c2.length + 1) sr c2 :=
              handle_raw_append f { s2 with rawMode := true } st sr (by rw [hr])
                herr hcl c2 F (c2.length + 1) hF le_rfl
            rw [handle_untagged_fetch_raw F s s2 d (st ++ c2) ids fdata i hm hq h2 hbz,
                hEq]
          · rw [if_neg (by simp)] at h
            exact absurd h (by simp)

theorem digest_eq_raw (s : IMAPResponse) (data : List Char) (h : s.rawMode = true) :
    digest s data =
      (if (handle_raw (data.length + 1) s data).1 = false
       then (false, (handle_raw (data.length + 1) s data).2.1)
       else ((handle_command (data.length + 1)
                { (handle_raw (data.length + 1) s data).2.1 with rawMode := false }
                (handle_raw (data.length + 1) s data).2.2).1,
             (handle_command (data.length + 1)
                { (handle_raw (data.length + 1) s data).2.1 with rawMode := false }
                (handle_raw (data.length + 1) s data).2.2).2.1)) := by
  simp only [digest, h]
  simp

theorem handle_command_false_rem2 : ∀ (f : Nat) (s : IMAPResponse) (c : List Char)
    (s' : IMAPResponse) (rem : List Char), c.length + 1 ≤ f → s.rawMode = false →
    handle_command f s c = (false, s', rem) → s'.error = false →
    (s'.rawMode = true → 0 < s'.bytesToRead ∨ ∀ ch ∈ s'.buffer, ch ≠ '\n') →
    (s'.rawMode = false → ∀ ch ∈ s'.buffer, ch ≠ '\n') → rem = [] := by
  intro f
  induction f with
  | zero =>
    intro s c s' rem hf
    omega
  | succ f ih =>
    intro s c s' rem hf hs h herr himp1 himp2
    rcases h1 : read_line_to_buffer s c with ⟨ok1, s1, st1⟩
    cases ok1
    · rw [handle_command_step_readfail f s s1 c st1 h1] at h
      injection h with h1x h2x
      injection h2x with h2a h2b
      subst h2a
      subst h2b
      have hrm1 : s1.rawMode = false := by
        have := read_line_rawMode s c
        rw [h1] at this
        simp only at this
        rw [this]
        exact hs
      have hnl := himp2 hrm1
      have hbuf : s1.buffer =
          (if endsCRLF s.buffer then (qReadLine c).1
           else s.buffer ++ (qReadLine c).1) := by
        have := read_line_buffer s c
        rw [h1] at this
        exact this
      have hln : ∀ ch ∈ (qReadLine c).1, ch ≠ '\n' := by
        intro ch hch
        apply hnl
        rw [hbuf]
        by_cases hb2 : endsCRLF s.buffer = true
        · rw [if_pos hb2]
          exact hch
        · rw [if_neg hb2]
          simp [hch]
      have hrest : st1 = (qReadLine c).2 := by
        have := read_line_rest s c
        rw [h1] at this
        exact this
      rw [hrest]
      exact qReadLine_no_nl_rest c hln
    · have hlt1 : st1.length < c.length := by
        have := read_line_success_lt s c (by rw [h1])
        rw [h1] at this
        exact this
      have hrm1 : s1.rawMode = false := by
        have := read_line_rawMode s c
        rw [h1] at this
        simp only at this
        rw [this]
        exact hs
      by_cases hh : headIs s1.buffer '*' = true
      · rcases h2 : handle_untagged f s1 (qTrim s1.buffer) st1 with ⟨ok2, s2, st2⟩
        cases ok2
        · rw [handle_command_step_untagged_fail f s s1 s2 c st1 st2 h1 hh h2] at h
          injection h with h1x h2x
          injection h2x with h2a h2b
          subst h2a
          subst h2b
          have hfi := handle_untagged_false_inv f s1 (qTrim s1.buffer) st1 (by rw [h2])
          rw [h2] at hfi
          simp only at hfi
          rcases hfi with hfi | hfi
          · rw [hfi] at herr
            cases herr
          · exact handle_untagged_false_rem f s1 (qTrim s1.buffer) st1 s2 st2
              (by omega) h2 herr (himp1 hfi)
        · by_cases ht : s1.tag = CONNECT_TAG
          · rw [handle_command_connect_step f s c s1 s2 st1 st2 h1 hh ht h2] at h
            exact absurd h (by simp)
          · rw [handle_command_step_untagged_ok f s s1 s2 c st1 st2 h1 hh h2 ht] at h
            have hle2 : st2.length ≤ st1.length := by
              have := handle_untagged_rest_le f s1 (qTrim s1.buffer) st1
              rw [h2] at this
              exact this
            have hrm2 : s2.rawMode = false := by
              have := handle_untagged_true_rawMode_false f s1 (qTrim s1.buffer) st1
                hrm1 (by rw [h2])
              rw [h2] at this
              exact this
            exact ih s2 st2 s' rem (by omega) hrm2 h herr himp1 himp2
      · have hh2 : headIs s1.buffer '*' = false := by
          cases hx : headIs s1.buffer '*'
          · rfl
          · exact absurd hx hh
        by_cases hp : List.isPrefixOf s1.tag s1.buffer = true
        · rw [handle_command_step_tagged f s s1 c st1 h1 hh2 hp] at h
          rcases hht : handle_tagged s1 (qTrim s1.buffer) with ⟨okT, sT⟩
          rw [hht] at h
          simp only at h
          injection h with h1x h2x
          injection h2x with h2a h2b
          cases okT
          · have hte := handle_tagged_false_error s1 (qTrim s1.buffer) (by rw [hht])
            rw [hht] at hte
            simp only at hte
            rw [h2a] at hte
            rw [hte] at herr
            cases herr
          · cases h1x
        · have hp2 : List.isPrefixOf s1.tag s1.buffer = false := by
            cases hx : List.isPrefixOf s1.tag s1.buffer
            · rfl
            · exact absurd hx hp
          rw [handle_command_step_garbage f s s1 c st1 h1 hh2 hp2] at h
          injection h with h1x h2x
          injection h2x with h2a h2b
          rw [← h2a] at herr
          simp at herr

theorem handle_command_append_raw : ∀ (f : Nat) (s : IMAPResponse) (c : List Char)
    (s' : IMAPResponse), c.length + 1 ≤ f → s.rawMode = false → s.tag ≠ CONNECT_TAG →
    handle_command f s c = (false, s', []) → s'.error = false → s'.rawMode = true →
    (0 < s'.bytesToRead ∨ ∀ ch ∈ s'.buffer, ch ≠ '\n') →
    ∀ (c2 : List Char) (F : Nat), (c ++ c2).length + 1 ≤ F →
      (handle_command F s (c ++ c2)).1 = (digest s' c2).1 ∧
      (handle_command F s (c ++ c2)).2.1 = (digest s' c2).2 := by
  intro f
  induction f with
  | zero =>
    intro s c s' hf
    omega
  | succ f ih =>
    intro s c s' hf hs htag h herr hrm hcl c2 F hF
    rcases h1 : read_line_to_buffer s c with ⟨ok1, s1, st1⟩
    cases ok1
    · rw [handle_command_step_readfail f s s1 c st1 h1] at h
      injection h with h1x h2x
      injection h2x with h2a h2b
      subst h2a
      have hrm1 : s1.rawMode = false := by
        have := read_line_rawMode s c
        rw [h1] at this
        simp only at this
        rw [this]
        exact hs
      rw [hrm1] at hrm
      cases hrm
    · have hlt1 : st1.length < c.length := by
        have := read_line_success_lt s c (by rw [h1])
        rw [h1] at this
        exact this
      have htag1 : s1.tag = s.tag := by
        have := read_line_to_buffer_tag s c
        rw [h1] at this
        exact this
      have hrm1 : s1.rawMode = false := by
        have := read_line_rawMode s c
        rw [h1] at this
        simp only at this
        rw [this]
        exact hs
      have h1e := read_line_extend s c c2 s1 st1 h1
      by_cases hh : headIs s1.buffer '*' = true
      · rcases h2 : handle_untagged f s1 (qTrim s1.buffer) st1 with ⟨ok2, s2, st2⟩
        cases ok2
        · rw [handle_command_step_untagged_fail f s s1 s2 c st1 st2 h1 hh h2] at h
          injection h with h1x h2x
          injection h2x with h2a h2b
          subst h2a
          subst h2b
          rcases F with _ | F
          · omega
          have hFu : (st1 ++ c2).length + 1 ≤ F := by
            simp only [List.length_append] at hF ⊢
            omega
          have h2e := handle_untagged_append_raw f s1 (qTrim s1.buffer) st1 s2
            h2 herr hcl c2 F hFu
          rcases hrr : handle_raw (c2.length + 1) s2 c2 with ⟨okr, sr, str⟩
          rw [hrr] at h2e
          cases okr
          · rw [if_pos rfl] at h2e
            rw [handle_command_step_untagged_fail F s s1 sr (c ++ c2) (st1 ++ c2) str
                  h1e hh h2e]
            rw [digest_eq_raw s2 c2 hrm, hrr]
            rw [if_pos rfl]
            exact ⟨rfl, rfl⟩
          · rw [if_neg (by simp)] at h2e
            have htag1' : s1.tag ≠ CONNECT_TAG := by
              rw [htag1]
              exact htag
            rw [handle_command_step_untagged_ok F s s1 { sr with rawMode := false }
                  (c ++ c2) (st1 ++ c2) str h1e hh h2e htag1']
            have hstr : str.length ≤ c2.length := by
              have := handle_raw_rest_le (c2.length + 1) s2 c2
              rw [hrr] at this
              exact this
            rw [digest_eq_raw s2 c2 hrm, hrr]
            rw [if_neg (by simp)]
            rw [handle_command_suff str.length { sr with rawMode := false } str le_rfl F
                  (by simp only [List.length_append] at hF; omega),
                handle_command_suff str.length { sr with rawMode := false } str le_rfl
                  (c2.length + 1) (by omega)]
            exact ⟨rfl, rfl⟩
        · by_cases ht : s1.tag = CONNECT_TAG
          · rw [htag1] at ht
            exact absurd ht htag
          · rw [handle_command_step_untagged_ok f s s1 s2 c st1 st2 h1 hh h2 ht] at h
            have hle2 : st2.length ≤ st1.length := by
              have := handle_untagged_rest_le f s1 (qTrim s1.buffer) st1
              rw [h2] at this
              exact this
            have h2ex := handle_untagged_extend f s1 (qTrim s1.buffer) st1 c2 s2 st2 h2
            rcases F with _ | F
            · omega
            have h2F : handle_untagged F s1 (qTrim s1.buffer) (st1 ++ c2) =
                (true, s2, st2 ++ c2) :=
              handle_untagged_anyfuel f F s1 _ (st1 ++ c2) s2 (st2 ++ c2) h2ex
                (by simp only [List.length_append] at hF ⊢; omega)
            rw [handle_command_step_untagged_ok F s s1 s2 (c ++ c2) (st1 ++ c2)
                  (st2 ++ c2) h1e hh h2F ht]
            have hrm2 : s2.rawMode = false := by
              have := handle_untagged_true_rawMode_false f s1 (qTrim s1.buffer) st1
                hrm1 (by rw [h2])
              rw [h2] at this
              exact this
            have htag2 : s2.tag = s1.tag := by
              have := (handle_untagged_inv f s1 (qTrim s1.buffer) st1).1
              rw [h2] at this
              exact this
            exact ih s2 st2 s' (by omega) hrm2
              (by rw [htag2, htag1]; exact htag) h herr hrm hcl c2 F
              (by simp only [List.length_append] at hF ⊢; omega)
      · have hh2 : headIs s1.buffer '*' = false := by
          cases hx : headIs s1.buffer '*'
          · rfl
          · exact absurd hx hh
        by_cases hp : List.isPrefixOf s1.tag s1.buffer = true
        · rw [handle_command_step_tagged f s s1 c st1 h1 hh2 hp] at h
          rcases hht : handle_tagged s1 (qTrim s1.buffer) with ⟨okT, sT⟩
          rw [hht] at h
          simp only at h
          injection h with h1x h2x
          injection h2x with h2a h2b
          cases okT
          · have hte := handle_tagged_false_error s1 (qTrim s1.buffer) (by rw [hht])
            rw [hht] at hte
            simp only at hte
            rw [h2a] at hte
            rw [hte] at herr
            cases herr
          · cases h1x
        · have hp2 : List.isPrefixOf s1.tag s1.buffer = false := by
            cases hx : List.isPrefixOf s1.tag s1.buffer
            · rfl
            · exact absurd hx hp
          rw [handle_command_step_garbage f s s1 c st1 h1 hh2 hp2] at h
          injection h with h1x h2x
          injection h2x with h2a h2b
          rw [← h2a] at herr
          simp at herr

theorem digest_append2 (s : IMAPResponse) (c c2 : List Char)
    (h : (digest s c).1 = false) (herr : (digest s c).2.error = false)
    (hclean :
      ((digest s c).2.rawMode = true ∧ s.tag ≠ CONNECT_TAG ∧
        (0 < (digest s c).2.bytesToRead ∨ ∀ ch ∈ (digest s c).2.buffer, ch ≠ '\n')) ∨
      ((digest s c).2.rawMode = false ∧ ∀ ch ∈ (digest s c).2.buffer, ch ≠ '\n')) :
    digest (digest s c).2 c2 = digest s (c ++ c2) := by
  by_cases hs : s.rawMode = true
  · rw [digest_eq_raw s c hs] at h herr hclean ⊢
    rcases hr : handle_raw (c.length + 1) s c with ⟨okr, sr, str⟩
    rw [hr] at h herr hclean
    cases okr
    · rw [if_pos rfl] at h herr hclean ⊢
      simp only at h herr hclean ⊢
      have hrmr : sr.rawMode = true := by
        have := handle_raw_rawMode (c.length + 1) s c
        rw [hr] at this
        simp only at this
        rw [this]
        exact hs
      have hclr : 0 < sr.bytesToRead ∨ ∀ ch ∈ sr.buffer, ch ≠ '\n' := by
        rcases hclean with ⟨_, _, hx⟩ | ⟨hx, _⟩
        · exact hx
        · rw [hrmr] at hx
          cases hx
      have hstr : str = [] :=
        handle_raw_false_rem (c.length + 1) s c sr str le_rfl (by rw [hr]) herr hclr
      subst hstr
      have hmerge : handle_raw ((c ++ c2).length + 1) s (c ++ c2) =
          handle_raw (c2.length + 1) sr c2 :=
        handle_raw_append (c.length + 1) s c sr (by rw [hr]) herr hclr c2
          ((c ++ c2).length + 1) (c2.length + 1) le_rfl le_rfl
      rw [digest_eq_raw sr c2 hrmr, digest_eq_raw s (c ++ c2) hs, hmerge]
      rcases hrr : handle_raw (c2.length + 1) sr c2 with ⟨okr2, sr2, str2⟩
      cases okr2
      · rw [if_pos rfl, if_pos rfl]
      · rw [if_neg (by simp), if_neg (by simp)]
        have hstr2 : str2.length ≤ c2.length := by
          have := handle_raw_rest_le (c2.length + 1) sr c2
          rw [hrr] at this
          exact this
        rw [handle_command_suff str2.length { sr2 with rawMode := false } str2 le_rfl
              ((c ++ c2).length + 1) (by simp only [List.length_append]; omega),
            handle_command_suff str2.length { sr2 with rawMode := false } str2 le_rfl
              (c2.length + 1) (by omega)]
    · rw [if_neg (by simp)] at h herr hclean ⊢
      simp only at h herr hclean ⊢
      rcases hc1 : handle_command (c.length + 1) { sr with rawMode := false } str
        with ⟨okc, sc1, rem⟩
      rw [hc1] at h herr hclean
      simp only at h herr hclean ⊢
      subst h
      have hstr : str.length ≤ c.length := by
        have := handle_raw_rest_le (c.length + 1) s c
        rw [hr] at this
        exact this
      have hfc : str.length + 1 ≤ c.length + 1 := by omega
      have hre : handle_raw ((c ++ c2).length + 1) s (c ++ c2) = (true, sr, str ++ c2) := by
        have hx := handle_raw_extend (c.length + 1) s c c2 sr str (by rw [hr])
        exact handle_raw_anyfuel (c.length + 1) ((c ++ c2).length + 1) s (c ++ c2) sr
          (str ++ c2) hx (by simp only [List.length_append]; omega)
      rw [digest_eq_raw s (c ++ c2) hs, hre]
      rw [if_neg (by simp)]
      have htagsr : ({ sr with rawMode := false } : IMAPResponse).tag = s.tag := by
        have := handle_raw_tag (c.length + 1) s c
        rw [hr] at this
        exact this
      rcases hclean with ⟨hrm, htag, hcl⟩ | ⟨hrm, hnl⟩
      · have hrem : rem = [] :=
          handle_command_false_rem2 (c.length + 1) { sr with rawMode := false } str
            sc1 rem hfc rfl hc1 herr (fun _ => hcl)
            (fun hx => absurd (hx.symm.trans hrm) Bool.false_ne_true)
        subst hrem
        have := handle_command_append_raw (c.length + 1) { sr with rawMode := false }
          str sc1 hfc rfl (by rw [htagsr]; exact htag) hc1 herr hrm hcl c2
          ((c ++ c2).length + 1)
          (by simp only [List.length_append]; omega)
        rcases this with ⟨e1, e2⟩
        exact Prod.ext e1.symm e2.symm
      · have hrem : rem = [] :=
          handle_command_false_rem (c.length + 1) { sr with rawMode := false } str
            sc1 rem hfc hc1 herr hrm hnl
        subst hrem
        rw [handle_command_append (c.length + 1) { sr with rawMode := false } str sc1
              hc1 herr hrm hnl c2 ((c ++ c2).length + 1) (c2.length + 1)
              (by simp only [List.length_append]; omega) le_rfl]
        rw [digest_eq_handle_command sc1 c2 hrm]
  · have hs' : s.rawMode = false := by
      cases hx : s.rawMode
      · rfl
      · exact absurd hx hs
    rw [digest_eq_handle_command s c hs'] at h herr hclean ⊢
    rcases hc1 : handle_command (c.length + 1) s c with ⟨okc, sc1, rem⟩
    rw [hc1] at h herr hclean
    simp only at h herr hclean ⊢
    subst h
    rcases hclean with ⟨hrm, htag, hcl⟩ | ⟨hrm, hnl⟩
    · have hrem : rem = [] :=
        handle_command_false_rem2 (c.length + 1) s c sc1 rem le_rfl hs' hc1 herr
          (fun _ => hcl) (fun hx => absurd (hx.symm.trans hrm) Bool.false_ne_true)
      subst hrem
      have := handle_command_append_raw (c.length + 1) s c sc1 le_rfl hs' htag hc1
        herr hrm hcl c2 ((c ++ c2).length + 1) le_rfl
      rcases this with ⟨e1, e2⟩
      rw [digest_eq_handle_command s (c ++ c2) hs']
      exact Prod.ext e1.symm e2.symm
    · have hrem : rem = [] :=
        handle_command_false_rem (c.length + 1) s c sc1 rem le_rfl hc1 herr hrm hnl
      subst hrem
      rw [digest_eq_handle_command s (c ++ c2) hs']
      rw [handle_command_append (c.length + 1) s c sc1 hc1 herr hrm hnl c2
            ((c ++ c2).length + 1) (c2.length + 1)
            (by simp only [List.length_append]; omega) le_rfl]
      rw [digest_eq_handle_command sc1 c2 hrm]

theorem digest_append (s : IMAPResponse) (c c2 : List Char)
    (hs : s.rawMode = false)
    (h : (digest s c).1 = false) (herr : (digest s c).2.error = false)
    (hrm : (digest s c).2.rawMode = false)
    (hnl : ∀ ch ∈ (digest s c).2.buffer, ch ≠ '\n') :
    digest (digest s c).2 c2 = digest s (c ++ c2) := by
  have hd1 := digest_eq_handle_command s c hs
  rcases hc : handle_command (c.length + 1) s c with ⟨ok, s1, rem⟩
  rw [hc] at hd1
  simp only at hd1
  rw [hd1] at h herr hrm hnl ⊢
  simp only at h herr hrm hnl ⊢
  subst h
  have hrem : rem = [] :=
    handle_command_false_rem (c.length + 1) s c s1 rem le_rfl hc herr hrm hnl
  subst hrem
  rw [digest_eq_handle_command s1 c2 hrm, digest_eq_handle_command s (c ++ c2) hs]
  rw [handle_command_append (c.length + 1) s c s1 hc herr hrm hnl c2
      ((c ++ c2).length + 1) (c2.length + 1) le_rfl le_rfl]

theorem foldl_append_init (cs : List (List Char)) : ∀ (a b : List Char),
    cs.foldl (fun x y => x ++ y) (a ++ b) = a ++ cs.foldl (fun x y => x ++ y) b := by
  induction cs with
  | nil =>
    intro a b
    rfl
  | cons c cs ih =>
    intro a b
    simp only [List.foldl]
    rw [List.append_assoc, ih]

/-- C1 (amended): feeding a stream in chunks agrees with digesting the
concatenation in one call, provided every call before the last reports
need-more with the error flag unset at a clean suspension point: inside
a pending FETCH literal or a partial literal-block meta line (raw mode
on, literal bytes missing or no line feed buffered, awaited tag not the
reserved connect tag), or inside a partial text line (raw mode off, no
line feed in the carried buffer). (As the counterexample shows, the
claim's "split arbitrarily" is false: `digest` builds a fresh stream
from each chunk, so a boundary right after a completed line makes the
next call read an empty line and raise `Unexpected EOF`, while the
one-shot digest of the same bytes succeeds.) -/
theorem feed_eq_digest_concat : ∀ (cs : List (List Char)) (s : IMAPResponse) (c : List Char),
    CleanNeedMore s c cs →
    feed s c cs = digest s (cs.foldl (fun x y => x ++ y) c) := by
  intro cs
  induction cs with
  | nil =>
    intro s c _
    rfl
  | cons c2 cs ih =>
    intro s c hcl
    rcases hcl with ⟨h1, h2, h3, h5⟩
    simp only [feed, List.foldl]
    rw [ih (digest s c).2 c2 h5]
    rw [digest_append2 s c (cs.foldl (fun x y => x ++ y) c2) h1 h2 h3]
    rw [foldl_append_init cs c c2]

/-- C1 witness: the amended theorem applied to a FETCH literal split in
the middle of its announced five bytes — the first chunk ends after
`ab` of the literal, the accumulator suspends in raw mode with three
bytes still to read, and the chunked feeding equals the one-shot digest
of the whole stream. -/
theorem feed_eq_digest_concat_witness :
    (digest (IMAPResponse.fresh "A000".data)
        "* 1 FETCH (BODY[1] \x7b5\x7d\r\nab".data).1 = false ∧
    (digest (IMAPResponse.fresh "A000".data)
        "* 1 FETCH (BODY[1] \x7b5\x7d\r\nab".data).2.rawMode = true ∧
    (digest (IMAPResponse.fresh "A000".data)
        "* 1 FETCH (BODY[1] \x7b5\x7d\r\nab".data).2.bytesToRead = 3 ∧
    feed (IMAPResponse.fresh "A000".data) "* 1 FETCH (BODY[1] \x7b5\x7d\r\nab".data
        ["cde\r\n)\r\nA000 OK done\r\n".data] =
      digest (IMAPResponse.fresh "A000".data)
        (["cde\r\n)\r\nA000 OK done\r\n".data].foldl (fun x y => x ++ y)
          "* 1 FETCH (BODY[1] \x7b5\x7d\r\nab".data) :=
  ⟨by decide, by decide, by decide,
   feed_eq_digest_concat ["cde\r\n)\r\nA000 OK done\r\n".data]
     (IMAPResponse.fresh "A000".data) "* 1 FETCH (BODY[1] \x7b5\x7d\r\nab".data
     ⟨by decide, by decide, by decide, trivial⟩⟩

/-- C1 counterexample: splitting the same byte stream at a line boundary
changes the outcome — the one-shot digest of
`* OK a CRLF A000 OK b CRLF` completes, while feeding the two lines as
separate `digest` calls raises the error flag (the second call's
left-over empty read is treated as an unexpected end of file), refuting
"identical for every partition into chunks". -/
theorem chunked_line_boundary_differs :
    (digest (IMAPResponse.fresh "A000".data)
        ("* OK a\r\n".data ++ "A000 OK b\r\n".data)).1 = true ∧
    (digest (IMAPResponse.fresh "A000".data)
        ("* OK a\r\n".data ++ "A000 OK b\r\n".data)).2.error = false ∧
    (feed (IMAPResponse.fresh "A000".data) "* OK a\r\n".data
        ["A000 OK b\r\n".data]).2.error = true ∧
    feed (IMAPResponse.fresh "A000".data) "* OK a\r\n".data ["A000 OK b\r\n".data] ≠
      digest (IMAPResponse.fresh "A000".data)
        ("* OK a\r\n".data ++ "A000 OK b\r\n".data) := by
  decide
